import Mathlib

/-!
# autoprint: the conditional fetch-and-print pipeline of `main.go`

The program is sequential glue around the Go standard library: it hashes a URL
to the name of a token file, reads that file, issues one HTTP GET, writes the
body under a fresh temporary directory, runs one `lp` subprocess and stores
the new token.

The embedding passes the file system explicitly and collects what the
program does in a trace.  Everything outside the process is gathered in an
environment `Env` (the HTTP peer, the media type parser, the `lp` subprocess,
injected system-call failures, the random numbers drawn by `os.MkdirTemp`)
and in a file system `FS`.  Each function of `main.go` becomes a function
that returns its Go results together with the file system it leaves behind
and a `Trace`: what it wrote to standard output, to standard error and to the
logger, and the calls it made outside the process, each with its outcome.

The file system holds regular files and directories.  A system call walks
its path name element by element and fails as the kernel does when a
directory on the way is missing (`ENOENT`) or is a regular file (`ENOTDIR`),
when the name holds a NUL byte or is too long.  There are no symbolic links;
permissions, quotas and the like appear as failures injected by the
environment.

Go strings and byte slices are Lean strings, read as their UTF-8 encoding; a
Go string that is not valid UTF-8 has no counterpart.  Package-level logging
(`log.Printf`) is recorded as structured entries, whether or not `main` has
discarded the logger output.  `main` itself (flag parsing, `os.Exit`) is not
part of the development.  The standard library is modelled as far as the
program uses it: `crypto/sha256`, `encoding/hex`, `path/filepath`, `mime`,
`os` and `io` by definitions, `net/http` and `os/exec` by the environment.
-/

namespace Autoprint

/-! ## Constants of `main.go` -/

def unknownFilename : String := "unknown-filename"

def etagFilePattern : String := "etag-%s.txt"

def tmpDirPattern : String := "autoprint-*"

/-! ## Bytes of a string -/

/-- UTF-8 encoding of one code point. -/
def utf8EncodeNat (c : Nat) : List Nat :=
  if c < 0x80 then [c]
  else if c < 0x800 then [0xC0 ||| c >>> 6, 0x80 ||| c % 64]
  else if c < 0x10000 then [0xE0 ||| c >>> 12, 0x80 ||| c >>> 6 % 64, 0x80 ||| c % 64]
  else [0xF0 ||| c >>> 18, 0x80 ||| c >>> 12 % 64, 0x80 ||| c >>> 6 % 64, 0x80 ||| c % 64]

/-- The conversion `[]byte(s)`: the UTF-8 bytes of a string. -/
def bytesOf (s : String) : List Nat :=
  s.data.flatMap (fun c => utf8EncodeNat c.toNat)

/-! ## `crypto/sha256` (FIPS 180-4), on 32-bit words kept in `Nat` -/

namespace sha256

/-- The integer `k`-th root of `n`, built bit by bit from bit `b` down, on top
of the bits already fixed in `r`. -/
def rootBits (k n : Nat) : Nat → Nat → Nat
  | 0, r => if (r + 1) ^ k ≤ n then r + 1 else r
  | b + 1, r => rootBits k n b (if (r + 2 ^ (b + 1)) ^ k ≤ n then r + 2 ^ (b + 1) else r)

/-- The first 32 bits of the fractional part of the `k`-th root of `p`. -/
def fracRoot (k p : Nat) : Nat :=
  rootBits k (p * 2 ^ (32 * k)) 40 0 % 4294967296

/-- Primality by trial division. -/
def isPrime (n : Nat) : Bool :=
  decide (2 ≤ n) && (List.range (n - 2)).all (fun d => n % (d + 2) != 0)

/-- The first sixty-four primes: the primes up to 311. -/
def primes : List Nat := (List.range 312).filter isPrime

/-- The round constants: the fractional parts of the cube roots of the first
sixty-four primes. -/
def K : List Nat := primes.map (fracRoot 3)

/-- Truncation to a 32-bit word. -/
def w32 (x : Nat) : Nat := x % 4294967296

/-- Rotate a 32-bit word right by `n` bits. -/
def rotr (n x : Nat) : Nat := w32 ((x >>> n) ||| (x <<< (32 - n)))

/-- The eight working words of the hash. -/
structure Hash where
  h0 : Nat
  h1 : Nat
  h2 : Nat
  h3 : Nat
  h4 : Nat
  h5 : Nat
  h6 : Nat
  h7 : Nat
deriving DecidableEq

/-- The initial hash value: the fractional parts of the square roots of the
first eight primes. -/
def init : Hash :=
  ⟨fracRoot 2 2, fracRoot 2 3, fracRoot 2 5, fracRoot 2 7,
    fracRoot 2 11, fracRoot 2 13, fracRoot 2 17, fracRoot 2 19⟩

/-- Big-endian bytes of a 64-bit length. -/
def be64 (n : Nat) : List Nat :=
  [n >>> 56 % 256, n >>> 48 % 256, n >>> 40 % 256, n >>> 32 % 256,
   n >>> 24 % 256, n >>> 16 % 256, n >>> 8 % 256, n % 256]

/-- Big-endian bytes of a 32-bit word. -/
def be32 (n : Nat) : List Nat :=
  [n >>> 24 % 256, n >>> 16 % 256, n >>> 8 % 256, n % 256]

/-- Message padding: a one bit, zeros up to 56 modulo 64, the bit length. -/
def pad (msg : List Nat) : List Nat :=
  msg ++ 0x80 :: List.replicate ((119 - msg.length % 64) % 64) 0 ++ be64 (8 * msg.length)

/-- Big-endian 32-bit words of a byte sequence. -/
def words : List Nat → List Nat
  | a :: b :: c :: d :: rest => (a <<< 24 ||| b <<< 16 ||| c <<< 8 ||| d) :: words rest
  | _ => []

/-- Message schedule: `n` words from a sliding window of the last sixteen. -/
def schedule : Nat → List Nat → List Nat
  | 0, _ => []
  | _, [] => []
  | n + 1, w0 :: win =>
    let s0 := rotr 7 (win.getD 0 0) ^^^ rotr 18 (win.getD 0 0) ^^^ (win.getD 0 0 >>> 3)
    let s1 := rotr 17 (win.getD 13 0) ^^^ rotr 19 (win.getD 13 0) ^^^ (win.getD 13 0 >>> 10)
    w0 :: schedule n (win ++ [w32 (s1 + win.getD 8 0 + s0 + w0)])

/-- One round of the compression function, for a round constant and a schedule word. -/
def round (s : Hash) (kw : Nat × Nat) : Hash :=
  let S1 := rotr 6 s.h4 ^^^ rotr 11 s.h4 ^^^ rotr 25 s.h4
  let ch := (s.h4 &&& s.h5) ^^^ ((s.h4 ^^^ 0xffffffff) &&& s.h6)
  let t1 := s.h7 + S1 + ch + kw.1 + kw.2
  let S0 := rotr 2 s.h0 ^^^ rotr 13 s.h0 ^^^ rotr 22 s.h0
  let maj := (s.h0 &&& s.h1) ^^^ (s.h0 &&& s.h2) ^^^ (s.h1 &&& s.h2)
  let t2 := S0 + maj
  ⟨w32 (t1 + t2), s.h0, s.h1, s.h2, w32 (s.h3 + t1), s.h4, s.h5, s.h6⟩

/-- Compression of one 64-byte block. -/
def block (s : Hash) (p : List Nat) : Hash :=
  let t := (K.zip (schedule 64 (words p))).foldl round s
  ⟨w32 (s.h0 + t.h0), w32 (s.h1 + t.h1), w32 (s.h2 + t.h2), w32 (s.h3 + t.h3),
   w32 (s.h4 + t.h4), w32 (s.h5 + t.h5), w32 (s.h6 + t.h6), w32 (s.h7 + t.h7)⟩

/-- Compression of `n` consecutive blocks. -/
def blocks : Nat → Hash → List Nat → Hash
  | 0, s, _ => s
  | n + 1, s, p => blocks n (block s (p.take 64)) (p.drop 64)

/-- The 32-byte digest `sha256.Sum256(data)`. -/
def Sum256 (data : List Nat) : List Nat :=
  let s := blocks ((pad data).length / 64) init (pad data)
  be32 s.h0 ++ be32 s.h1 ++ be32 s.h2 ++ be32 s.h3 ++
    be32 s.h4 ++ be32 s.h5 ++ be32 s.h6 ++ be32 s.h7

end sha256

/-! ## `encoding/hex` -/

namespace hex

def hextable : List Char := "0123456789abcdef".data

/-- The two hexadecimal digits of one byte, high nibble first. -/
def encodeByte (v : Nat) : List Char :=
  [hextable.getD (v >>> 4) '0', hextable.getD (v &&& 0x0f) '0']

/-- Model of `hex.EncodeToString`. -/
def EncodeToString (src : List Nat) : String :=
  String.mk (src.flatMap encodeByte)

end hex

/-! ## `fmt.Sprintf` with one string operand -/

namespace fmt

/-- Expansion of a format over at most one pending string operand.  Literal
text, `%%`, `%s` and `%v` are rendered as Go renders them, including the
`%!s(MISSING)` and `%!(EXTRA string=...)` diagnostics; any other verb is
rendered as Go renders a verb that does not apply to strings.  Flags, widths
and the verbs `%q`, `%x`, `%X`, `%T` and `%p` are outside the model; the
program formats with `etag-%s.txt` only. -/
def expand : List Char → Option String → List Char
  | [], none => []
  | [], some a => "%!(EXTRA string=".data ++ a.data ++ [')']
  | ['%'], arg => "%!(NOVERB)".data ++ expand [] arg
  | '%' :: '%' :: rest, arg => '%' :: expand rest arg
  | '%' :: 's' :: rest, some a => a.data ++ expand rest none
  | '%' :: 'v' :: rest, some a => a.data ++ expand rest none
  | '%' :: c :: rest, some a => "%!".data ++ c :: "(string=".data ++ a.data ++ ')' :: expand rest none
  | '%' :: c :: rest, none => "%!".data ++ c :: "(MISSING)".data ++ expand rest none
  | c :: rest, arg => c :: expand rest arg

/-- Model of `fmt.Sprintf(format, a)` for a single string operand `a`. -/
def Sprintf (format : String) (a : String) : String :=
  String.mk (expand format.data (some a))

end fmt

/-- Source `getEtagFilename`: the name of the etag file for the given URL. -/
def getEtagFilename (pattern url : String) : String :=
  let hash := sha256.Sum256 (bytesOf url)
  let str := hex.EncodeToString hash
  fmt.Sprintf pattern str

/-! ## `strings` and `path/filepath` (Unix) -/

namespace strings

/-- Model of `strings.Join(elems, sep)`. -/
def Join (elems : List String) (sep : String) : String :=
  String.mk (sep.data.intercalate (elems.map String.data))

end strings

namespace filepath

/-- One path element met by `Clean`, scanning left to right.  The elements kept
so far are held innermost first.  Empty elements and `.` are dropped; `..`
removes the element before it, is dropped at the root, and is kept at the
start of a relative path. -/
def cleanStep (rooted : Bool) (stack : List (List Char)) (c : List Char) : List (List Char) :=
  if c = [] ∨ c = ['.'] then stack
  else if c = ['.', '.'] then
    match stack with
    | [] => if rooted then [] else [c]
    | t :: rest => if t = ['.', '.'] then c :: t :: rest else rest
  else c :: stack

/-- The elements `Clean` keeps, outermost first. -/
def cleanElems (path : List Char) : List (List Char) :=
  ((path.splitOn '/').foldl (cleanStep (path.head? = some '/')) []).reverse

/-- Model of `filepath.Clean`: the shortest path name equivalent to `path` by
purely lexical processing. -/
def Clean (path : String) : String :=
  let out := (if path.data.head? = some '/' then ['/'] else []) ++
    ['/'].intercalate (cleanElems path.data)
  if out = [] then "." else String.mk out

/-- Model of `filepath.Join`: empty leading elements are ignored, the rest is
joined with the separator and cleaned; the result is empty when every element
is empty. -/
def Join (elem : List String) : String :=
  match elem.dropWhile (fun e => e = "") with
  | [] => ""
  | es => Clean (strings.Join es "/")

end filepath

/-! ## Errors -/

deriving instance DecidableEq for Except

/-- The system error numbers that occur in the model. -/
inductive Errno where
  | ENOENT
  | EEXIST
  | ENOTDIR
  | EISDIR
  | EACCES
  | ENOSPC
  | EROFS
  | EINVAL
  | ENAMETOOLONG
deriving DecidableEq, Repr

/-- Go error values: a system error number, a plain `errors.New` value (also
standing for any library error known only by its text), `*fs.PathError`,
`*exec.ExitError`, and a value wrapped by `fmt.Errorf("ctx: %w", err)`. -/
inductive GoError where
  | Errno (e : Errno)
  | New (text : String)
  | PathError (op path : String) (err : GoError)
  | ExitError (code : Int) (stderr : String)
  | Errorf (ctx : String) (err : GoError)
deriving DecidableEq, Repr

/-- The text of a system error number. -/
def Errno.Error : Errno → String
  | .ENOENT => "no such file or directory"
  | .EEXIST => "file exists"
  | .ENOTDIR => "not a directory"
  | .EISDIR => "is a directory"
  | .EACCES => "permission denied"
  | .ENOSPC => "no space left on device"
  | .EROFS => "read-only file system"
  | .EINVAL => "invalid argument"
  | .ENAMETOOLONG => "file name too long"

/-- The method `Error()`. -/
def GoError.Error : GoError → String
  | .Errno e => e.Error
  | .New text => text
  | .PathError op path err => op ++ " " ++ path ++ ": " ++ err.Error
  | .ExitError code _ => "exit status " ++ toString code
  | .Errorf ctx err => ctx ++ ": " ++ err.Error

namespace os

/-- Model of `os.IsNotExist`: looks through one `*PathError`, not through
values wrapped by `fmt.Errorf`. -/
def IsNotExist : GoError → Bool
  | .Errno .ENOENT => true
  | .PathError _ _ (.Errno .ENOENT) => true
  | _ => false

/-- Model of `os.IsExist`. -/
def IsExist : GoError → Bool
  | .Errno .EEXIST => true
  | .PathError _ _ (.Errno .EEXIST) => true
  | _ => false

end os

/-! ## File system -/

/-- A file system object: a regular file with its content, or a directory. -/
inductive Node where
  | file (data : String)
  | dir
deriving DecidableEq, Repr

/-- A resolved path: the names from the root down. -/
abbrev Path := List String

/-- A file system: the object, if any, at each path.  An object is reached
only through directories: see `FS.enter`. -/
abbrev FS := Path → Option Node

/-- Create or replace the object at `p`. -/
def FS.put (fs : FS) (p : Path) (n : Node) : FS :=
  fun q => if q = p then some n else fs q

/-- Remove `p` and everything below it. -/
def FS.removeAll (fs : FS) (p : Path) : FS :=
  fun q => if p.isPrefixOf q then none else fs q

/-- One element of a name applied to the directories entered so far, held
innermost first: an empty element and `.` stay, `..` leaves the innermost
directory (at the root it stays at the root), any other element is entered. -/
def resolveStep (stack : List String) (c : List Char) : List String :=
  if c = [] ∨ c = ['.'] then stack
  else if c = ['.', '.'] then stack.tail
  else String.mk c :: stack

/-- The path a name denotes when every directory on its way exists: an
absolute name is followed from the root, a relative one from the working
directory `cwd`.  There are no symbolic links. -/
def resolve (cwd : Path) (name : String) : Path :=
  ((name.data.splitOn '/').foldl resolveStep
    (if name.data.head? = some '/' then [] else cwd.reverse)).reverse

/-- The longest name of a directory entry, in bytes (Linux). -/
def NAME_MAX : Nat := 255

/-- The size of the buffer that holds a path name and its final NUL, in bytes
(Linux). -/
def PATH_MAX : Nat := 4096

/-- The error number met on entering the directory at `p`: of the objects on
the way from the root to `p`, itself included, the first that is not a
directory decides, with `ENOTDIR` for a regular file and `ENOENT` for nothing
there. -/
def FS.enter (fs : FS) (p : Path) : Option Errno :=
  p.inits.findSome? fun q =>
    match fs q with
    | some .dir => none
    | some (.file _) => some .ENOTDIR
    | none => some .ENOENT

/-- One step of a path walk: the directory reached so far is entered, then
the element is looked up in it.  An element longer than `NAME_MAX` names no
entry. -/
def walkStep (fs : FS) (st : Except Errno (List String)) (c : List Char) :
    Except Errno (List String) :=
  match st with
  | .error e => .error e
  | .ok stack =>
    match fs.enter stack.reverse with
    | some e => .error e
    | none =>
      if NAME_MAX < (bytesOf (String.mk c)).length then .error .ENAMETOOLONG
      else .ok (resolveStep stack c)

/-- The elements of a name between its separators, without the empty ones
that separators at its end leave behind. -/
def elements (name : String) : List (List Char) :=
  ((name.data.splitOn '/').reverse.dropWhile fun c => c.isEmpty).reverse

/-- Whether a name ends in a separator. -/
def trailingSep (name : String) : Bool :=
  name.data.getLast? = some '/'

/-- The path walk of a system call on a name: every element is looked up in
the directory reached before it.  The result is the path reached, innermost
name first; the object at its end need not exist.  What a separator at the
end of the name demands is left to the call. -/
def walk (fs : FS) (cwd : Path) (name : String) : Except Errno (List String) :=
  (elements name).foldl (walkStep fs)
    (.ok (if name.data.head? = some '/' then [] else cwd.reverse))

/-- The path of the object a system call is made on.  A name with a NUL byte
is refused before the call (`EINVAL`), a name that does not fit the buffer is
refused with `ENAMETOOLONG` and the empty name with `ENOENT`; then the name
is walked. -/
def lookup (fs : FS) (cwd : Path) (name : String) : Except Errno Path :=
  if Char.ofNat 0 ∈ name.data then .error .EINVAL
  else if PATH_MAX ≤ (bytesOf name).length then .error .ENAMETOOLONG
  else if name = "" then .error .ENOENT
  else
    match walk fs cwd name with
    | .error e => .error e
    | .ok stack => .ok stack.reverse

/-- A name of a directory entry: not empty, not `.` or `..`, and without a
separator. -/
def plainName (f : String) : Bool :=
  f ≠ "" && f ≠ "." && f ≠ ".." && !f.data.contains '/'

/-! ## HTTP -/

/-- A response body stream: the bytes it yields, the error that ends the
stream in place of end-of-file (if any), and the result of `Close`. -/
structure Body where
  data : String
  readErr : Option GoError
  closeErr : Option GoError
deriving DecidableEq, Repr

/-- The fields of `http.Request` the program sets. -/
structure Request where
  Method : String
  URL : String
  Header : List (String × String)
deriving DecidableEq, Repr

/-- The fields of `http.Response` the program reads.  Header keys are in
canonical form, as the HTTP client stores them. -/
structure Response where
  StatusCode : Nat
  Header : List (String × String)
  Body : Body
deriving DecidableEq, Repr

namespace textproto

/-- The bytes allowed in a header field name. -/
def validHeaderFieldByte (c : Char) : Bool :=
  c.isAlphanum ||
    ("!#$%&*+-.^_|~".data ++ [Char.ofNat 39, Char.ofNat 96]).contains c

/-- Upper-case the first letter and every letter after a hyphen, lower-case
the others. -/
def canonical : Bool → List Char → List Char
  | _, [] => []
  | upper, c :: cs =>
    (if upper then c.toUpper else c.toLower) :: canonical (c = '-') cs

/-- Model of `textproto.CanonicalMIMEHeaderKey`: a key with a byte that is not
allowed in a field name is returned unchanged. -/
def CanonicalMIMEHeaderKey (s : String) : String :=
  if s.data.all validHeaderFieldByte then String.mk (canonical true s.data) else s

end textproto

namespace Header

/-- Model of `Header.Get`: the first value stored under the canonical form of
`key`, or the empty string. -/
def Get (h : List (String × String)) (key : String) : String :=
  match h.find? (fun kv => kv.1 = textproto.CanonicalMIMEHeaderKey key) with
  | some kv => kv.2
  | none => ""

/-- Model of `Header.Set`: the entries under the canonical form of `key` are
replaced by the single value. -/
def Set (h : List (String × String)) (key value : String) : List (String × String) :=
  h.filter (fun kv => kv.1 ≠ textproto.CanonicalMIMEHeaderKey key) ++
    [(textproto.CanonicalMIMEHeaderKey key, value)]

end Header

/-! ## The environment of a run -/

/-- The system calls on which the environment can inject a failure. -/
inductive Syscall where
  | OpenRead (name : String)
  | OpenWrite (name : String)
  | Write (name : String)
  | Mkdir (name : String)
  | RemoveAll (name : String)
deriving DecidableEq, Repr

/-- Everything outside the process that a run depends on. -/
structure Env where
  /-- The environment variable `TMPDIR`. -/
  TMPDIR : String
  /-- The working directory of the process. -/
  cwd : Path
  /-- The random number drawn at the i-th attempt of `os.MkdirTemp`. -/
  fastrand : Nat → Nat
  /-- A system call that fails for a reason outside the file system model
  (permissions, quota, read-only mount), and how. -/
  fault : Syscall → Option Errno
  /-- The error of `http.NewRequest(method, url, nil)`, if any. -/
  NewRequest : String → String → Option GoError
  /-- The result of `client.Do(req)`. -/
  Do : Request → Except GoError Response
  /-- The result of `mime.ParseMediaType`: media type and parameters. -/
  ParseMediaType : String → Except GoError (String × List (String × String))
  /-- The result of `exec.Command(argv...).Output()`; the subprocess does not
  change the modelled file system. -/
  Output : List String → Except GoError String

/-! ## What a run leaves behind -/

/-- The messages passed to `log.Printf` and `log.Println`, by call site. -/
inductive LogEntry where
  | previousEtag (fn etag : String)
  | ignoringPreviousEtag
  | fetched (url fn etag : String)
  | closeError (err : GoError)
  | wroteToFile (path : String)
  | cbError (err : GoError)
  | running (cmd : String)
  | output (out : String)
  | wroteEtag (fn etag : String)
deriving DecidableEq, Repr

/-- The calls that leave the process, each with its outcome. -/
inductive Call where
  | ReadFile (name : String) (res : Except GoError String)
  | Do (req : Request) (res : Except GoError Response)
  | Close (err : Option GoError)
  | MkdirTemp (dir pattern : String) (res : Except GoError String)
  | Create (name : String) (err : Option GoError)
  | Copy (name : String) (err : Option GoError)
  | RemoveAll (path : String) (err : Option GoError)
  | Output (argv : List String) (res : Except GoError String)
  | WriteFile (name data : String) (err : Option GoError)
deriving DecidableEq

/-- The kinds of external call. -/
inductive CallKind where
  | ReadFile
  | Do
  | Close
  | MkdirTemp
  | Create
  | Copy
  | RemoveAll
  | Output
  | WriteFile
deriving DecidableEq, Repr

/-- The kind of a call. -/
def Call.kind : Call → CallKind
  | .ReadFile _ _ => .ReadFile
  | .Do _ _ => .Do
  | .Close _ => .Close
  | .MkdirTemp _ _ _ => .MkdirTemp
  | .Create _ _ => .Create
  | .Copy _ _ => .Copy
  | .RemoveAll _ _ => .RemoveAll
  | .Output _ _ => .Output
  | .WriteFile _ _ _ => .WriteFile

/-- What a piece of the program wrote to standard output, to standard error
and to the logger, and the external calls it made, oldest first. -/
structure Trace where
  stdout : List String
  stderr : List String
  log : List LogEntry
  calls : List Call

/-- Nothing written, nothing called. -/
def Trace.nil : Trace := ⟨[], [], [], []⟩

/-- One trace followed by another. -/
def Trace.append (a b : Trace) : Trace :=
  ⟨a.stdout ++ b.stdout, a.stderr ++ b.stderr, a.log ++ b.log, a.calls ++ b.calls⟩

instance : Append Trace := ⟨Trace.append⟩

/-- One external call. -/
def Trace.call (c : Call) : Trace := ⟨[], [], [], [c]⟩

/-- One write to standard output. -/
def Trace.print (text : String) : Trace := ⟨[text], [], [], []⟩

/-- One write to standard error. -/
def Trace.eprint (text : String) : Trace := ⟨[], [text], [], []⟩

/-- One logger call. -/
def Trace.logf (e : LogEntry) : Trace := ⟨[], [], [e], []⟩

/-- The outcome of a run of `innerMain` or of a tail of it: the returned exit
code, the file system left behind, and the trace. -/
structure Result where
  code : Int
  fs : FS
  trace : Trace

/-! ## `os` and `io` calls on the file system -/

namespace os

/-- Model of `os.TempDir` on Unix: `$TMPDIR`, or `/tmp` when that is empty. -/
def TempDir (E : Env) : String :=
  if E.TMPDIR = "" then "/tmp" else E.TMPDIR

/-- Model of `os.ReadFile`.  A name that ends in a separator must denote a
directory. -/
def ReadFile (E : Env) (fs : FS) (name : String) : Except GoError String :=
  match E.fault (.OpenRead name) with
  | some e => .error (.PathError "open" name (.Errno e))
  | none =>
    match lookup fs E.cwd name with
    | .error e => .error (.PathError "open" name (.Errno e))
    | .ok p =>
      match fs p with
      | none => .error (.PathError "open" name (.Errno .ENOENT))
      | some .dir => .error (.PathError "read" name (.Errno .EISDIR))
      | some (.file data) =>
        if trailingSep name then .error (.PathError "open" name (.Errno .ENOTDIR))
        else .ok data

/-- Model of `os.Stat`, for its error only. -/
def Stat (E : Env) (fs : FS) (name : String) : Option GoError :=
  match lookup fs E.cwd name with
  | .error e => some (.PathError "stat" name (.Errno e))
  | .ok p =>
    match fs p with
    | none => some (.PathError "stat" name (.Errno .ENOENT))
    | some .dir => none
    | some (.file _) =>
      if trailingSep name then some (.PathError "stat" name (.Errno .ENOTDIR)) else none

/-- Model of `os.Mkdir`. -/
def Mkdir (E : Env) (fs : FS) (name : String) : Except GoError FS :=
  match E.fault (.Mkdir name) with
  | some e => .error (.PathError "mkdir" name (.Errno e))
  | none =>
    match lookup fs E.cwd name with
    | .error e => .error (.PathError "mkdir" name (.Errno e))
    | .ok p =>
      match fs p with
      | some _ => .error (.PathError "mkdir" name (.Errno .EEXIST))
      | none => .ok (fs.put p .dir)

/-- The pattern of `os.MkdirTemp` split at its last `*`. -/
def splitLastStar : List Char → Option (List Char × List Char)
  | [] => none
  | c :: cs =>
    match splitLastStar cs with
    | some (a, b) => some (c :: a, b)
    | none => if c = '*' then some ([], cs) else none

/-- The helper `prefixAndSuffix` of `os.MkdirTemp`. -/
def prefixAndSuffix (pattern : String) : Except GoError (String × String) :=
  if '/' ∈ pattern.data then .error (.New "pattern contains path separator")
  else
    match splitLastStar pattern.data with
    | some (a, b) => .ok (String.mk a, String.mk b)
    | none => .ok (pattern, "")

/-- The helper `joinPath` of `os.MkdirTemp`. -/
def joinPath (dir name : String) : String :=
  if dir.data.getLast? = some '/' then dir ++ name else dir ++ "/" ++ name

/-- The decimal digits of `n`, most significant first, prepended to `acc`;
`fuel` bounds the number of digits. -/
def uitoaAux : Nat → Nat → List Char → List Char
  | 0, _, acc => acc
  | fuel + 1, n, acc =>
    if n < 10 then Char.ofNat (48 + n) :: acc
    else uitoaAux fuel (n / 10) (Char.ofNat (48 + n % 10) :: acc)

/-- Model of `itoa.Uitoa`: the decimal representation of `n`. -/
def uitoa (n : Nat) : String := String.mk (uitoaAux (n + 1) n [])

/-- The retry loop of `os.MkdirTemp`: `n` attempts left, `i` attempts made. -/
def mkdirTempLoop (E : Env) (dir pre suf : String) (fs : FS) :
    Nat → Nat → Except GoError (String × FS)
  | 0, _ => .error (.PathError "mkdirtemp" (dir ++ "/" ++ pre ++ "*" ++ suf)
      (.New "file already exists"))
  | n + 1, i =>
    match Mkdir E fs (pre ++ uitoa (E.fastrand i) ++ suf) with
    | .ok fs1 => .ok (pre ++ uitoa (E.fastrand i) ++ suf, fs1)
    | .error err =>
      if IsExist err then mkdirTempLoop E dir pre suf fs n (i + 1)
      else if IsNotExist err then
        match Stat E fs dir with
        | some err1 => if IsNotExist err1 then .error err1 else .error err
        | none => .error err
      else .error err

/-- Model of `os.MkdirTemp`: a new directory under `dir` (under `os.TempDir()`
when `dir` is empty) whose name is the pattern with its last `*` replaced by a
random decimal string; up to 10000 names are tried. -/
def MkdirTemp (E : Env) (fs : FS) (dir pattern : String) : Except GoError (String × FS) :=
  match prefixAndSuffix pattern with
  | .error err => .error (.PathError "mkdirtemp" pattern err)
  | .ok (pre, suf) =>
    mkdirTempLoop E (if dir = "" then TempDir E else dir)
      (joinPath (if dir = "" then TempDir E else dir) pre) suf fs 10000 0

/-- The open of `os.Create` and of `os.WriteFile`: create the file or truncate
it.  A name that ends in a separator names no regular file. -/
def Create (E : Env) (fs : FS) (name : String) : Except GoError FS :=
  match E.fault (.OpenWrite name) with
  | some e => .error (.PathError "open" name (.Errno e))
  | none =>
    match lookup fs E.cwd name with
    | .error e => .error (.PathError "open" name (.Errno e))
    | .ok p =>
      if trailingSep name then .error (.PathError "open" name (.Errno .EISDIR))
      else
        match fs p with
        | some .dir => .error (.PathError "open" name (.Errno .EISDIR))
        | _ => .ok (fs.put p (.file ""))

/-- A write at the end of the file that was opened under `name`; an injected
failure writes nothing. -/
def Write (E : Env) (fs : FS) (name data : String) : Option GoError × FS :=
  match E.fault (.Write name) with
  | some e => (some (.PathError "write" name (.Errno e)), fs)
  | none =>
    match fs (resolve E.cwd name) with
    | some (.file old) => (none, fs.put (resolve E.cwd name) (.file (old ++ data)))
    | _ => (some (.PathError "write" name (.Errno .ENOENT)), fs)

/-- Model of `os.WriteFile`: open with create and truncate, then write. -/
def WriteFile (E : Env) (fs : FS) (name data : String) : Option GoError × FS :=
  match Create E fs name with
  | .error err => (some err, fs)
  | .ok fs1 => Write E fs1 name data

/-- The helper `endsWithDot` of `os.RemoveAll`. -/
def endsWithDot (path : String) : Bool :=
  path = "." || path.data.reverse.take 2 = ['.', '/']

/-- Model of `os.RemoveAll`: removes the path and everything below it.  The
empty path and a path that does not exist are not an error, a path that ends
in `.` is refused; when the walk fails for another reason nothing is
removed. -/
def RemoveAll (E : Env) (fs : FS) (path : String) : Option GoError × FS :=
  if path = "" then (none, fs)
  else if endsWithDot path then (some (.PathError "RemoveAll" path (.Errno .EINVAL)), fs)
  else
    match E.fault (.RemoveAll path) with
    | some e => (some (.PathError "unlinkat" path (.Errno e)), fs)
    | none =>
      match lookup fs E.cwd path with
      | .ok p => (none, fs.removeAll p)
      | .error .ENOENT => (none, fs)
      | .error e => (some (.PathError "unlinkat" path (.Errno e)), fs)

end os

namespace io

/-- Model of `io.Copy(file, rc)` into the open file `name`: what the stream
yields is written, then the error that ended the stream is returned. -/
def Copy (E : Env) (fs : FS) (name : String) (rc : Body) : Option GoError × FS :=
  match (os.Write E fs name rc.data).1 with
  | some err => (some err, (os.Write E fs name rc.data).2)
  | none => (rc.readErr, (os.Write E fs name rc.data).2)

end io

/-! ## `mime.ParseMediaType`

A model of the parser of the Go standard library (package `mime`, file
`mediatype.go`), function by function.  Strings are sequences of code points;
the library works on bytes, which makes no difference on well-formed UTF-8
except for RFC 2231 values whose percent-decoded bytes are not UTF-8: those
bytes are shown as U+FFFD. -/

namespace mime

/-- The characters `()<>@,;:\"/[]?=`. -/
def tspecials : List Char := "()<>@,;:/[]?=".data ++ [Char.ofNat 34, Char.ofNat 92]

/-- Go `isTSpecial`. -/
def isTSpecial (c : Char) : Bool := tspecials.contains c

/-- Go `isTokenChar`: a visible ASCII character that is not a tspecial. -/
def isTokenChar (c : Char) : Bool :=
  decide (0x20 < c.toNat) && decide (c.toNat < 0x7f) && !isTSpecial c

/-- Go `unicode.IsSpace`. -/
def isSpace (c : Char) : Bool :=
  [0x09, 0x0a, 0x0b, 0x0c, 0x0d, 0x20, 0x85, 0xa0, 0x1680, 0x2028, 0x2029, 0x202f, 0x205f,
    0x3000].contains c.toNat || (decide (0x2000 ≤ c.toNat) && decide (c.toNat ≤ 0x200a))

/-- Go `strings.TrimLeftFunc(v, unicode.IsSpace)`. -/
def trimLeft (v : List Char) : List Char := v.dropWhile isSpace

/-- Go `strings.TrimSpace`. -/
def trimSpace (v : List Char) : List Char :=
  ((trimLeft v).reverse.dropWhile isSpace).reverse

/-- Lower-casing as far as the parser can observe it: ASCII letters, and the
two other code points whose lower case is an ASCII letter. -/
def toLowerChar (c : Char) : Char :=
  if c.toNat = 0x212a then 'k' else if c.toNat = 0x130 then 'i' else c.toLower

/-- Go `strings.ToLower`, see `toLowerChar`. -/
def toLower (v : List Char) : List Char := v.map toLowerChar

/-- Go `consumeToken`: the longest run of token characters and the rest. -/
def consumeToken (v : List Char) : List Char × List Char :=
  (v.takeWhile isTokenChar, v.dropWhile isTokenChar)

/-- The body of a quoted string after its opening quote: the value collected
so far (last character first) and the input left.  A backslash before a
tspecial escapes it, any other backslash is literal; a line break or the end
of the input before the closing quote is a failure. -/
def consumeQuoted : List Char → List Char → Option (List Char × List Char)
  | [], _ => none
  | [c], acc => if c = Char.ofNat 34 then some (acc.reverse, []) else none
  | c :: e :: rest, acc =>
    if c = Char.ofNat 34 then some (acc.reverse, e :: rest)
    else if c = Char.ofNat 92 ∧ isTSpecial e then consumeQuoted rest (e :: acc)
    else if c = Char.ofNat 13 ∨ c = Char.ofNat 10 then none
    else consumeQuoted (e :: rest) (c :: acc)

/-- Go `consumeValue`: a token or a quoted string; on failure the value is
empty and the rest is the input. -/
def consumeValue (v : List Char) : List Char × List Char :=
  match v with
  | [] => ([], [])
  | c :: rest =>
    if c = Char.ofNat 34 then
      match consumeQuoted rest [] with
      | some r => r
      | none => ([], v)
    else consumeToken v

/-- Go `consumeMediaParam`: `; name = value`; `none` stands for the failure
result `("", "", v)`. -/
def consumeMediaParam (v : List Char) : Option (List Char × List Char × List Char) :=
  match trimLeft v with
  | ';' :: rest0 =>
    let t := consumeToken (trimLeft rest0)
    if toLower t.1 = [] then none
    else
      match trimLeft t.2 with
      | '=' :: rest1 =>
        let val := consumeValue (trimLeft rest1)
        if val.1 = [] ∧ val.2 = trimLeft rest1 then none
        else some (toLower t.1, val.1, val.2)
      | _ => none
  | _ => none

/-- Go `checkMediaTypeDisposition`: the error text, if any. -/
def checkMediaTypeDisposition (s : List Char) : Option String :=
  if (consumeToken s).1 = [] then some "mime: no media type"
  else
    match (consumeToken s).2 with
    | [] => none
    | '/' :: rest =>
      if (consumeToken rest).1 = [] then some "mime: expected token after slash"
      else if (consumeToken rest).2 ≠ [] then some "mime: unexpected content after media subtype"
      else none
    | _ => some "mime: expected slash after first token"

/-- A Go `map[string]string` as an association list with distinct keys. -/
abbrev Params := List (String × String)

/-- The assignment `m[key] = value`. -/
def Params.set (m : Params) (key value : String) : Params :=
  match m.lookup key with
  | some _ => m.map (fun kv => if kv.1 = key then (key, value) else kv)
  | none => m ++ [(key, value)]

/-- The assignment `m[base][key] = value` on the map of continuations. -/
def setPiece (m : List (String × Params)) (base key value : String) : List (String × Params) :=
  match m.lookup base with
  | some _ => m.map (fun kp => if kp.1 = base then (base, kp.2.set key value) else kp)
  | none => m ++ [(base, [(key, value)])]

/-- The parameter loop of `ParseMediaType`: plain parameters and the pieces of
parameters whose name contains `*`; `fuel` bounds the number of parameters. -/
def parseParams : Nat → List Char → Params → List (String × Params) →
    Except String (Params × List (String × Params))
  | 0, _, params, cont => .ok (params, cont)
  | fuel + 1, v, params, cont =>
    match trimLeft v with
    | [] => .ok (params, cont)
    | v1 =>
      match consumeMediaParam v1 with
      | none =>
        if trimSpace v1 = [';'] then .ok (params, cont)
        else .error "mime: invalid media parameter"
      | some (key, value, rest) =>
        if '*' ∈ key then
          match ((cont.lookup (String.mk (key.takeWhile (fun c => c ≠ '*')))).getD []).lookup
              (String.mk key) with
          | some old =>
            if old ≠ String.mk value then .error "mime: duplicate parameter name"
            else parseParams fuel rest params cont
          | none =>
            parseParams fuel rest params
              (setPiece cont (String.mk (key.takeWhile (fun c => c ≠ '*'))) (String.mk key)
                (String.mk value))
        else
          match params.lookup (String.mk key) with
          | some old =>
            if old ≠ String.mk value then .error "mime: duplicate parameter name"
            else parseParams fuel rest params cont
          | none => parseParams fuel rest (params.set (String.mk key) (String.mk value)) cont

/-- The value of a hexadecimal digit. -/
def unhex (c : Nat) : Option Nat :=
  if 48 ≤ c ∧ c ≤ 57 then some (c - 48)
  else if 97 ≤ c ∧ c ≤ 102 then some (c - 97 + 10)
  else if 65 ≤ c ∧ c ≤ 70 then some (c - 65 + 10)
  else none

/-- Go `percentHexUnescape` on bytes: `none` when a `%` is not followed by two
hexadecimal digits. -/
def percentHexUnescape : List Nat → Option (List Nat)
  | [] => some []
  | 37 :: a :: b :: rest =>
    match unhex a, unhex b, percentHexUnescape rest with
    | some x, some y, some t => some ((x <<< 4 ||| y) :: t)
    | _, _, _ => none
  | c :: rest =>
    if c = 37 then none
    else
      match percentHexUnescape rest with
      | some t => some (c :: t)
      | none => none

/-- The string before the first apostrophe and the string after it. -/
def cutApostrophe (v : List Char) : Option (List Char × List Char) :=
  if Char.ofNat 39 ∈ v then
    some (v.takeWhile (fun c => c ≠ Char.ofNat 39),
      (v.dropWhile (fun c => c ≠ Char.ofNat 39)).tail)
  else none

/-- Go `decode2231Enc`: `charset'language'percent-encoded`, for the charsets
`us-ascii` and `utf-8`; the decoded bytes. -/
def decode2231Enc (v : String) : Option (List Nat) :=
  match cutApostrophe v.data with
  | none => none
  | some (charset, rest) =>
    match cutApostrophe rest with
    | none => none
    | some (_, enc) =>
      if toLower charset = "us-ascii".data ∨ toLower charset = "utf-8".data then
        percentHexUnescape (bytesOf (String.mk enc))
      else none

/-- The pieces `key*0`, `key*1`, ... of a continued parameter, from piece `n`
on: whether any piece was found, and the bytes collected. -/
def stitch (key : String) (pieces : Params) : Nat → Nat → Bool × List Nat
  | 0, _ => (false, [])
  | fuel + 1, n =>
    match pieces.lookup (key ++ "*" ++ os.uitoa n) with
    | some v => (true, bytesOf v ++ (stitch key pieces fuel (n + 1)).2)
    | none =>
      match pieces.lookup (key ++ "*" ++ os.uitoa n ++ "*") with
      | none => (false, [])
      | some v =>
        (true,
          (if n = 0 then (decode2231Enc v).getD [] else (percentHexUnescape (bytesOf v)).getD [])
            ++ (stitch key pieces fuel (n + 1)).2)

/-- The number of continuation bytes announced by a UTF-8 lead byte, with the
bits of the lead byte and the least code point of that length. -/
def utf8Lead (b : Nat) : Option (Nat × Nat × Nat) :=
  if b < 0x80 then some (0, b, 0)
  else if 0xc0 ≤ b ∧ b < 0xe0 then some (1, b % 32, 0x80)
  else if 0xe0 ≤ b ∧ b < 0xf0 then some (2, b % 16, 0x800)
  else if 0xf0 ≤ b ∧ b < 0xf8 then some (3, b % 8, 0x10000)
  else none

/-- The code point made of `acc` and `n` continuation bytes, and the input
left. -/
def utf8Cont : Nat → Nat → List Nat → Option (Nat × List Nat)
  | 0, acc, rest => some (acc, rest)
  | n + 1, acc, b :: rest =>
    if 0x80 ≤ b ∧ b < 0xc0 then utf8Cont n (acc * 64 + b % 64) rest else none
  | _ + 1, _, [] => none

/-- The conversion `string(bytes)` read back as code points.  Go keeps bytes
that are not UTF-8 as they are; such a string has no counterpart here, and a
byte that does not start a well-formed sequence is shown as U+FFFD. -/
def utf8Decode : Nat → List Nat → List Char
  | 0, _ => []
  | _, [] => []
  | fuel + 1, b :: rest =>
    match utf8Lead b with
    | none => Char.ofNat 0xfffd :: utf8Decode fuel rest
    | some (n, bits, least) =>
      match utf8Cont n bits rest with
      | none => Char.ofNat 0xfffd :: utf8Decode fuel rest
      | some (cp, rest1) =>
        if least ≤ cp ∧ cp < 0x110000 ∧ ¬ (0xd800 ≤ cp ∧ cp < 0xe000) then
          Char.ofNat cp :: utf8Decode fuel rest1
        else Char.ofNat 0xfffd :: utf8Decode fuel rest

/-- The second loop of `ParseMediaType`: every parameter with pieces is
stitched together and stored under its base name. -/
def stitchAll (params : Params) : List (String × Params) → Params
  | [] => params
  | (key, pieces) :: cont =>
    match pieces.lookup (key ++ "*") with
    | some v =>
      match decode2231Enc v with
      | some bytes => stitchAll (params.set key (String.mk (utf8Decode bytes.length bytes))) cont
      | none => stitchAll params cont
    | none =>
      let st := stitch key pieces (pieces.length + 1) 0
      if st.1 then stitchAll (params.set key (String.mk (utf8Decode st.2.length st.2))) cont
      else stitchAll params cont

/-- Model of `mime.ParseMediaType`: the media type in lower case and the
parameters. -/
def ParseMediaType (v : String) : Except GoError (String × Params) :=
  let base := v.data.takeWhile (fun c => c ≠ ';')
  let mediatype := trimSpace (toLower base)
  match checkMediaTypeDisposition mediatype with
  | some text => .error (.New text)
  | none =>
    match parseParams (v.data.length + 1) (v.data.dropWhile (fun c => c ≠ ';')) [] [] with
    | .error text => .error (.New text)
    | .ok (params, cont) => .ok (String.mk mediatype, stitchAll params cont)

end mime

/-! ## The functions of `main.go` -/

/-- Source `readLastEtag`: the etag from the given path, or an empty string if
the path does not exist. -/
def readLastEtag (E : Env) (path : String) (fs : FS) : Except GoError String × Trace :=
  (match os.ReadFile E fs path with
    | .error err =>
      if os.IsNotExist err then .ok "" else .error (.Errorf "os.ReadFile" err)
    | .ok b => .ok b,
   Trace.call (.ReadFile path (os.ReadFile E fs path)))

/-- Source `writeLastEtag`: writes the given etag to the given path. -/
def writeLastEtag (E : Env) (path etag : String) (fs : FS) : Option GoError × FS × Trace :=
  (match (os.WriteFile E fs path etag).1 with
    | some err => some (.Errorf "os.WriteFile" err)
    | none => none,
   (os.WriteFile E fs path etag).2,
   Trace.call (.WriteFile path etag (os.WriteFile E fs path etag).1))

/-- Source `extractFilename`: the suggested filename of a Content-Disposition
header. -/
def extractFilename (E : Env) (disp : String) : Except GoError String :=
  if disp = "" then .ok ""
  else
    match E.ParseMediaType disp with
    | .error err => .error (.Errorf "mime.ParseMediaType" err)
    | .ok (_, params) =>
      match params.lookup "filename" with
      | none => .ok ""
      | some fn => if fn = "" then .ok "" else .ok fn

/-- The request `doRequest` builds for a URL and an etag. -/
def buildRequest (url etag : String) : Request :=
  if etag ≠ "" then ⟨"GET", url, Header.Set [] "If-None-Match" etag⟩
  else ⟨"GET", url, []⟩

/-- Source `doRequest`: fetches the URL with the given ETag.  The result is the
body (`none` for the nil body of a 304 response), the suggested filename and
the new ETag. -/
def doRequest (E : Env) (url etag : String) :
    Except GoError (Option Body × String × String) × Trace :=
  match E.NewRequest "GET" url with
  | some err => (.error (.Errorf "http.NewRequest" err), Trace.nil)
  | none =>
    (match E.Do (buildRequest url etag) with
      | .error err => .error (.Errorf "client.Do" err)
      | .ok res =>
        if res.StatusCode = 304 then .ok (none, "", "")
        else
          match extractFilename E (Header.Get res.Header "Content-Disposition") with
          | .error err => .error (.Errorf "extractFilename" err)
          | .ok fn => .ok (some res.Body, fn, Header.Get res.Header "ETag"),
     Trace.call (.Do (buildRequest url etag) (E.Do (buildRequest url etag))))

/-- The cleanup closure returned by `writeOutput`; it captures the temporary
directory. -/
structure Release where
  dir : String
deriving DecidableEq, Repr

/-- A call of the closure: `os.RemoveAll(dir)`. -/
def Release.run (E : Env) (cb : Release) (fs : FS) : Option GoError × FS × Trace :=
  ((os.RemoveAll E fs cb.dir).1, (os.RemoveAll E fs cb.dir).2,
    Trace.call (.RemoveAll cb.dir (os.RemoveAll E fs cb.dir).1))

/-- What `writeOutput` returns: path, cleanup closure (`none` for nil) and
error (`none` for nil). -/
structure Written where
  path : String
  cb : Option Release
  err : Option GoError
deriving DecidableEq, Repr

/-- Source `writeOutput`: writes the stream to a file with the given name in a
new temporary directory.  The deferred `file.Close()` has no effect in the
model. -/
def writeOutput (E : Env) (rc : Body) (fn : String) (fs : FS) : Written × FS × Trace :=
  match os.MkdirTemp E fs "" tmpDirPattern with
  | .error err =>
    (⟨"", none, some (.Errorf "os.MkdirTemp" err)⟩, fs,
      Trace.call (.MkdirTemp "" tmpDirPattern (.error err)))
  | .ok (dir, fs1) =>
    let cb : Release := ⟨dir⟩
    let path := filepath.Join [dir, if fn = "" then unknownFilename else fn]
    match os.Create E fs1 path with
    | .error err =>
      (⟨path, some cb, some (.Errorf "os.Create" err)⟩, fs1,
        Trace.call (.MkdirTemp "" tmpDirPattern (.ok dir)) ++
        Trace.call (.Create path (some err)))
    | .ok fs2 =>
      let copied := io.Copy E fs2 path rc
      (⟨path, some cb, copied.1⟩, copied.2,
        Trace.call (.MkdirTemp "" tmpDirPattern (.ok dir)) ++
        Trace.call (.Create path none) ++
        Trace.call (.Copy path copied.1))

/-- The deferred `body.Close()` of `innerMain`; an error is only logged. -/
def deferClose (body : Body) : Trace :=
  match body.closeErr with
  | some err => Trace.call (.Close (some err)) ++ Trace.logf (.closeError err)
  | none => Trace.call (.Close none)

/-- The deferred `cb()` of `innerMain`; an error is only logged. -/
def deferCb (E : Env) (cb : Release) (fs : FS) : FS × Trace :=
  let r := cb.run E fs
  (r.2.1,
    match r.1 with
    | some err => r.2.2 ++ Trace.logf (.cbError err)
    | none => r.2.2)

/-- The argument vector `cmd` of `innerMain`. -/
def printCmd (path : String) : List String :=
  ["lp", "-s", "-o sides=two-sided-long-edge", "--", path]

/-- The token write that ends `innerMain` (lines 136 to 144). -/
def innerMain.store (E : Env) (etagPath etagNext : String) (fs : FS) : Result :=
  let w := writeLastEtag E etagPath etagNext fs
  match w.1 with
  | some err => ⟨1, w.2.1, w.2.2 ++ Trace.eprint ("writeLastModified: " ++ err.Error ++ "\n")⟩
  | none => ⟨0, w.2.1, w.2.2 ++ Trace.logf (.wroteEtag etagPath etagNext)⟩

/-- Lines 108 to 145 of `innerMain`: the print stage, then the token write. -/
def innerMain.print (E : Env) (etagPath etagNext : String) (dryRun : Bool) (path : String)
    (fs : FS) : Result :=
  let cmd := printCmd path
  let st := innerMain.store E etagPath etagNext fs
  if dryRun then
    ⟨st.code, st.fs,
      Trace.print "Printing...\n" ++
      Trace.print ("Would run: " ++ strings.Join cmd " " ++ "\n") ++ st.trace⟩
  else
    match E.Output cmd with
    | .error (.ExitError code stderr) =>
      ⟨code, fs,
        Trace.print "Printing...\n" ++ Trace.logf (.running (strings.Join cmd " ")) ++
        Trace.call (.Output cmd (.error (.ExitError code stderr))) ++
        Trace.eprint ("cmd.Run: " ++ stderr ++ "\n")⟩
    | .error err =>
      ⟨1, fs,
        Trace.print "Printing...\n" ++ Trace.logf (.running (strings.Join cmd " ")) ++
        Trace.call (.Output cmd (.error err)) ++
        Trace.eprint ("cmd.Run: " ++ err.Error ++ "\n")⟩
    | .ok out =>
      ⟨st.code, st.fs,
        Trace.print "Printing...\n" ++ Trace.logf (.running (strings.Join cmd " ")) ++
        Trace.call (.Output cmd (.ok out)) ++
        (if out.length > 0 then Trace.logf (.output out) else Trace.nil) ++ st.trace⟩

/-- Lines 92 to 106 of `innerMain`: the output write, the registration of the
deferred `cb()`, the rest of the function, and the deferred call on return.
Calling a nil `cb` would panic (exit status 2); `writeOutput` never returns a
nil closure without an error. -/
def innerMain.output (E : Env) (etagPath etagNext : String) (dryRun : Bool) (body : Body)
    (fn : String) (fs : FS) : Result :=
  let w := writeOutput E body fn fs
  match w.1.err with
  | some err => ⟨1, w.2.1, w.2.2 ++ Trace.eprint ("writeOutput: " ++ err.Error ++ "\n")⟩
  | none =>
    match w.1.cb with
    | some cb =>
      let p := innerMain.print E etagPath etagNext dryRun w.1.path w.2.1
      let d := deferCb E cb p.fs
      ⟨p.code, d.1, w.2.2 ++ Trace.logf (.wroteToFile w.1.path) ++ p.trace ++ d.2⟩
    | none => ⟨2, w.2.1, w.2.2 ++ Trace.logf (.wroteToFile w.1.path)⟩

/-- The path of the etag file for a URL (the local `etagPath` of `innerMain`). -/
def etagPathOf (E : Env) (url : String) : String :=
  filepath.Join [os.TempDir E, getEtagFilename etagFilePattern url]

/-- Source `innerMain`. -/
def innerMain (E : Env) (url : String) (dryRun force : Bool) (fs : FS) : Result :=
  let etagFn := getEtagFilename etagFilePattern url
  let etagPath := etagPathOf E url
  let rd := readLastEtag E etagPath fs
  match rd.1 with
  | .error err => ⟨1, fs, rd.2 ++ Trace.eprint ("readLastModified: " ++ err.Error ++ "\n")⟩
  | .ok etagPrev =>
    let t1 := rd.2 ++ Trace.logf (.previousEtag etagFn etagPrev) ++
      (if force then Trace.logf .ignoringPreviousEtag else Trace.nil)
    let rq := doRequest E url (if force then "" else etagPrev)
    match rq.1 with
    | .error err => ⟨1, fs, t1 ++ rq.2 ++ Trace.eprint ("doRequest: " ++ err.Error ++ "\n")⟩
    | .ok (none, _, _) => ⟨0, fs, t1 ++ rq.2 ++ Trace.print "Not modified.\n"⟩
    | .ok (some body, fn, etagNext) =>
      let o := innerMain.output E etagPath etagNext dryRun body fn fs
      ⟨o.code, o.fs, t1 ++ rq.2 ++ Trace.logf (.fetched url fn etagNext) ++ o.trace ++
        deferClose body⟩

/-! ## Concrete worlds -/

/-- A file system with nothing but the root directory and `/tmp`. -/
def fsTmp : FS := fun p => if p = [] ∨ p = ["tmp"] then some .dir else none

/-- The resolved path of the token file of `http://example.com` under `/tmp`. -/
def exampleToken : Path :=
  ["tmp", "etag-f0e6a6a97042a4f1f1c87f5f7d44315b2d852c2df5c7991cc66241bf7072d1c4.txt"]

/-- The file system `fsTmp` with a stored token for `http://example.com`. -/
def fsStored (token : String) : FS := fsTmp.put exampleToken (.file token)

/-- A server that answers every request with 200, the given Content-Disposition
and ETag headers and the given body stream. -/
def serve (disposition etag : String) (body : Body) : Request → Except GoError Response :=
  fun _ => .ok ⟨200, [("Content-Disposition", disposition), ("Etag", etag)], body⟩

/-- A server that answers 304 to a request whose If-None-Match is `etag`, and
otherwise 200 with the file `report.pdf`. -/
def serveConditional (etag : String) : Request → Except GoError Response :=
  fun req =>
    if Header.Get req.Header "If-None-Match" = etag then
      .ok ⟨304, [("Etag", etag)], ⟨"", none, none⟩⟩
    else serve "attachment; filename=\"report.pdf\"" etag ⟨"%PDF-1.7", none, none⟩ req

/-- An environment with `TMPDIR` unset, the root as working directory, the
random number 7 at every draw, every URL accepted, the media type parser of
the Go library, and the given server, subprocess outcome and injected
failures. -/
def world (server : Request → Except GoError Response) (lp : Except GoError String)
    (fault : Syscall → Option Errno) : Env where
  TMPDIR := ""
  cwd := []
  fastrand := fun _ => 7
  fault := fault
  NewRequest := fun _ _ => none
  Do := server
  ParseMediaType := mime.ParseMediaType
  Output := fun _ => lp

/-- No injected failure. -/
def noFault : Syscall → Option Errno := fun _ => none

/-- The disk is full when the token file of `http://example.com` is written. -/
def tokenWriteFault : Syscall → Option Errno :=
  fun c =>
    if c = .Write "/tmp/etag-f0e6a6a97042a4f1f1c87f5f7d44315b2d852c2df5c7991cc66241bf7072d1c4.txt"
    then some .ENOSPC else none

/-- The server sends `report.pdf` and the connection breaks after three bytes
of the body. -/
def worldBrokenBody : Env :=
  world (serve "attachment; filename=\"report.pdf\"" "\"abc123\""
    ⟨"%PD", some (.New "unexpected EOF"), none⟩) (.ok "") noFault

/-- The server suggests a file name with a directory in it. -/
def worldNestedName : Env :=
  world (serve "attachment; filename=\"a/b.pdf\"" "\"abc123\"" ⟨"%PDF-1.7", none, none⟩)
    (.ok "") noFault

/-- The server suggests a file name that climbs out of the directory. -/
def worldClimbingName : Env :=
  world (serve "attachment; filename=\"../escaped.txt\"" "\"abc123\"" ⟨"hello", none, none⟩)
    (.ok "") noFault

/-- The server suggests the name of the token file of `http://example.com`,
one directory up, and `lp` fails. -/
def worldTokenName : Env :=
  world (serve
    "attachment; filename=\"../etag-f0e6a6a97042a4f1f1c87f5f7d44315b2d852c2df5c7991cc66241bf7072d1c4.txt\""
    "\"new\"" ⟨"not a token", none, none⟩)
    (.error (.ExitError 1 "lp: Error - no default destination available.\n")) noFault

/-- The server sends `report.pdf` with the token `"abc123"`, `lp` succeeds, and
the disk is full when the token is written. -/
def worldDiskFull : Env :=
  world (serve "attachment; filename=\"report.pdf\"" "\"abc123\"" ⟨"%PDF-1.7", none, none⟩)
    (.ok "") tokenWriteFault

/-- The server knows the token `"abc123"`; `lp` succeeds. -/
def worldConditional : Env :=
  world (serveConditional "\"abc123\"") (.ok "") noFault

/-- The server knows the token `"abc123"`; `lp` exits with status 5. -/
def worldLpExit : Env :=
  world (serveConditional "\"abc123\"") (.error (.ExitError 5 "lp: boom\n")) noFault

/-- The server knows the token `"abc123"`; `lp` cannot be started. -/
def worldLpMissing : Env :=
  world (serveConditional "\"abc123\"")
    (.error (.New "exec: \"lp\": executable file not found in $PATH")) noFault

/-- The server sends `report.pdf` with the token `"abc123"`; `lp` succeeds. -/
def worldFresh : Env :=
  world (serve "attachment; filename=\"report.pdf\"" "\"abc123\"" ⟨"%PDF-1.7", none, none⟩)
    (.ok "") noFault

/-- The URL of the concrete runs. -/
def exampleURL : String := "http://example.com"

/-- The conditional request for `exampleURL` with the token `"abc123"`. -/
def exampleConditionalRequest : Request :=
  ⟨"GET", "http://example.com", [("If-None-Match", "\"abc123\"")]⟩

/-- The 304 answer of `serveConditional`. -/
def exampleNotModified : Response :=
  ⟨304, [("Etag", "\"abc123\"")], ⟨"", none, none⟩⟩

/-- The 200 answer of `serve` with `report.pdf`. -/
def exampleReport : Response :=
  ⟨200, [("Content-Disposition", "attachment; filename=\"report.pdf\""), ("Etag", "\"abc123\"")],
    ⟨"%PDF-1.7", none, none⟩⟩

/-- The path of the output file in the concrete runs. -/
def exampleOutput : String := "/tmp/autoprint-7/report.pdf"

/-- The path of the token file in the concrete runs. -/
def exampleTokenFile : String :=
  "/tmp/etag-f0e6a6a97042a4f1f1c87f5f7d44315b2d852c2df5c7991cc66241bf7072d1c4.txt"

/-- The token file of `http://example.com` cannot be opened for reading: it
belongs to another user. -/
def tokenReadFault : Syscall → Option Errno :=
  fun c => if c = .OpenRead exampleTokenFile then some .EACCES else none

/-- The server knows the token `"abc123"`, `lp` succeeds, and the token file
cannot be read. -/
def worldUnreadable : Env :=
  world (serveConditional "\"abc123\"") (.ok "") tokenReadFault

/-- The world `worldConditional` with `TMPDIR` set to `/tmp/scratch`. -/
def worldScratch : Env :=
  { worldConditional with TMPDIR := "/tmp/scratch" }

/-- The file system `fsTmp` with a regular file at `/tmp/scratch`. -/
def fsScratchFile : FS := fsTmp.put ["tmp", "scratch"] (.file "")

/-- The path of the token file under `/tmp/scratch`. -/
def exampleScratchToken : String :=
  "/tmp/scratch/etag-f0e6a6a97042a4f1f1c87f5f7d44315b2d852c2df5c7991cc66241bf7072d1c4.txt"

/-! # Proofs -/

set_option maxRecDepth 1000000

/-! ## Traces -/

@[simp] theorem Trace.append_calls (a b : Trace) : (a ++ b).calls = a.calls ++ b.calls := rfl
@[simp] theorem Trace.append_stdout (a b : Trace) : (a ++ b).stdout = a.stdout ++ b.stdout := rfl
@[simp] theorem Trace.append_stderr (a b : Trace) : (a ++ b).stderr = a.stderr ++ b.stderr := rfl
@[simp] theorem Trace.append_log (a b : Trace) : (a ++ b).log = a.log ++ b.log := rfl
@[simp] theorem Trace.call_calls (c : Call) : (Trace.call c).calls = [c] := rfl
@[simp] theorem Trace.call_stdout (c : Call) : (Trace.call c).stdout = [] := rfl
@[simp] theorem Trace.call_stderr (c : Call) : (Trace.call c).stderr = [] := rfl
@[simp] theorem Trace.print_calls (c : String) : (Trace.print c).calls = [] := rfl
@[simp] theorem Trace.print_stdout (c : String) : (Trace.print c).stdout = [c] := rfl
@[simp] theorem Trace.print_stderr (c : String) : (Trace.print c).stderr = [] := rfl
@[simp] theorem Trace.eprint_calls (c : String) : (Trace.eprint c).calls = [] := rfl
@[simp] theorem Trace.eprint_stdout (c : String) : (Trace.eprint c).stdout = [] := rfl
@[simp] theorem Trace.eprint_stderr (c : String) : (Trace.eprint c).stderr = [c] := rfl
@[simp] theorem Trace.logf_calls (c : LogEntry) : (Trace.logf c).calls = [] := rfl
@[simp] theorem Trace.logf_stdout (c : LogEntry) : (Trace.logf c).stdout = [] := rfl
@[simp] theorem Trace.logf_stderr (c : LogEntry) : (Trace.logf c).stderr = [] := rfl
@[simp] theorem Trace.nil_calls : Trace.nil.calls = [] := rfl
@[simp] theorem Trace.nil_stdout : Trace.nil.stdout = [] := rfl
@[simp] theorem Trace.nil_stderr : Trace.nil.stderr = [] := rfl

/-! ## The calls of each stage -/

theorem readLastEtag_trace (E : Env) (p : String) (fs : FS) :
    (readLastEtag E p fs).2 = Trace.call (.ReadFile p (os.ReadFile E fs p)) := rfl

theorem doRequest_calls_kind (E : Env) (url etag : String) :
    ∀ c ∈ (doRequest E url etag).2.calls, c = Call.Do (buildRequest url etag) (E.Do (buildRequest url etag)) ∧
      E.NewRequest "GET" url = none := by
  intro c hc
  unfold doRequest at hc
  split at hc
  · simp at hc
  · simp at hc
    exact ⟨hc, by assumption⟩

theorem doRequest_stdout (E : Env) (url etag : String) : (doRequest E url etag).2.stdout = [] := by
  unfold doRequest; split <;> simp

theorem doRequest_stderr (E : Env) (url etag : String) : (doRequest E url etag).2.stderr = [] := by
  unfold doRequest; split <;> simp

theorem store_calls (E : Env) (ep en : String) (fs : FS) :
    (innerMain.store E ep en fs).trace.calls =
      [Call.WriteFile ep en (os.WriteFile E fs ep en).1] := by
  unfold innerMain.store writeLastEtag
  simp only []
  split <;> simp

theorem store_stdout (E : Env) (ep en : String) (fs : FS) :
    (innerMain.store E ep en fs).trace.stdout = [] := by
  unfold innerMain.store writeLastEtag
  simp only []
  split <;> simp

theorem store_code (E : Env) (ep en : String) (fs : FS) :
    (innerMain.store E ep en fs).code = if (os.WriteFile E fs ep en).1 = none then 0 else 1 := by
  cases h : (os.WriteFile E fs ep en).1 <;> simp [innerMain.store, writeLastEtag, h]

theorem store_fs (E : Env) (ep en : String) (fs : FS) :
    (innerMain.store E ep en fs).fs = (os.WriteFile E fs ep en).2 := by
  cases h : (os.WriteFile E fs ep en).1 <;> simp [innerMain.store, writeLastEtag, h]

theorem writeOutput_kind (E : Env) (rc : Body) (fn : String) (fs : FS) :
    ∀ c ∈ (writeOutput E rc fn fs).2.2.calls,
      c.kind = .MkdirTemp ∨ c.kind = .Create ∨ c.kind = .Copy := by
  intro c hc
  unfold writeOutput at hc
  split at hc
  · simp at hc; simp [hc, Call.kind]
  · simp only [] at hc
    split at hc
    · simp at hc
      rcases hc with h | h <;> simp [h, Call.kind]
    · simp at hc
      rcases hc with h | h | h <;> simp [h, Call.kind]

theorem writeOutput_stdout (E : Env) (rc : Body) (fn : String) (fs : FS) :
    (writeOutput E rc fn fs).2.2.stdout = [] := by
  unfold writeOutput
  split
  · simp
  · simp only []
    split <;> simp

theorem writeOutput_stderr (E : Env) (rc : Body) (fn : String) (fs : FS) :
    (writeOutput E rc fn fs).2.2.stderr = [] := by
  unfold writeOutput
  split
  · simp
  · simp only []
    split <;> simp

theorem deferCb_calls (E : Env) (cb : Release) (fs : FS) :
    (deferCb E cb fs).2.calls = [Call.RemoveAll cb.dir (os.RemoveAll E fs cb.dir).1] := by
  unfold deferCb Release.run
  simp only []
  split <;> simp

theorem deferCb_stdout (E : Env) (cb : Release) (fs : FS) : (deferCb E cb fs).2.stdout = [] := by
  unfold deferCb Release.run
  simp only []
  split <;> simp

theorem deferCb_stderr (E : Env) (cb : Release) (fs : FS) : (deferCb E cb fs).2.stderr = [] := by
  unfold deferCb Release.run
  simp only []
  split <;> simp

theorem deferClose_calls (body : Body) : (deferClose body).calls = [Call.Close body.closeErr] := by
  unfold deferClose
  split <;> simp_all

theorem deferClose_stdout (body : Body) : (deferClose body).stdout = [] := by
  unfold deferClose
  split <;> simp

theorem deferClose_stderr (body : Body) : (deferClose body).stderr = [] := by
  unfold deferClose
  split <;> simp

/-! ## The print stage -/

theorem print_dry (E : Env) (ep en path : String) (fs : FS) :
    innerMain.print E ep en true path fs =
      ⟨(innerMain.store E ep en fs).code, (innerMain.store E ep en fs).fs,
        Trace.print "Printing...\n" ++
        Trace.print ("Would run: " ++ strings.Join (printCmd path) " " ++ "\n") ++
        (innerMain.store E ep en fs).trace⟩ := by
  simp [innerMain.print]

theorem print_exit (E : Env) (ep en path : String) (fs : FS) (c : Int) (e : String)
    (h : E.Output (printCmd path) = .error (.ExitError c e)) :
    innerMain.print E ep en false path fs =
      ⟨c, fs, Trace.print "Printing...\n" ++
        Trace.logf (.running (strings.Join (printCmd path) " ")) ++
        Trace.call (.Output (printCmd path) (.error (.ExitError c e))) ++
        Trace.eprint ("cmd.Run: " ++ e ++ "\n")⟩ := by
  simp [innerMain.print, h]

theorem print_err (E : Env) (ep en path : String) (fs : FS) (err : GoError)
    (h : E.Output (printCmd path) = .error err) (hne : ∀ c e, err ≠ .ExitError c e) :
    innerMain.print E ep en false path fs =
      ⟨1, fs, Trace.print "Printing...\n" ++
        Trace.logf (.running (strings.Join (printCmd path) " ")) ++
        Trace.call (.Output (printCmd path) (.error err)) ++
        Trace.eprint ("cmd.Run: " ++ err.Error ++ "\n")⟩ := by
  cases err with
  | ExitError c e => exact absurd rfl (hne c e)
  | _ => simp [innerMain.print, h]

theorem print_ok (E : Env) (ep en path : String) (fs : FS) (out : String)
    (h : E.Output (printCmd path) = .ok out) :
    innerMain.print E ep en false path fs =
      ⟨(innerMain.store E ep en fs).code, (innerMain.store E ep en fs).fs,
        Trace.print "Printing...\n" ++
        Trace.logf (.running (strings.Join (printCmd path) " ")) ++
        Trace.call (.Output (printCmd path) (.ok out)) ++
        (if out.length > 0 then Trace.logf (.output out) else Trace.nil) ++
        (innerMain.store E ep en fs).trace⟩ := by
  simp [innerMain.print, h]

/-- The shapes of the print stage, by the mode and by the outcome of the subprocess. -/
theorem print_cases (E : Env) (path : String) (d : Bool) :
    (d = true) ∨
    (d = false ∧ ∃ c e, E.Output (printCmd path) = .error (.ExitError c e)) ∨
    (d = false ∧ ∃ err, E.Output (printCmd path) = .error err ∧ ∀ c e, err ≠ .ExitError c e) ∨
    (d = false ∧ ∃ out, E.Output (printCmd path) = .ok out) := by
  cases d
  · right
    cases h : E.Output (printCmd path) with
    | error err =>
      cases err with
      | ExitError c e => left; exact ⟨rfl, c, e, rfl⟩
      | _ => right; left; exact ⟨rfl, _, rfl, by intro c e; simp⟩
    | ok out => right; right; exact ⟨rfl, out, rfl⟩
  · left; rfl

theorem print_Output_mem (E : Env) (ep en path : String) (d : Bool) (fs : FS)
    (argv : List String) (r : Except GoError String)
    (h : Call.Output argv r ∈ (innerMain.print E ep en d path fs).trace.calls) :
    d = false ∧ argv = printCmd path ∧ r = E.Output (printCmd path) := by
  rcases print_cases E path d with hd | ⟨hd, c, e, ho⟩ | ⟨hd, err, ho, hne⟩ | ⟨hd, out, ho⟩
  · subst hd
    simp [print_dry, store_calls] at h
  · subst hd
    simp [print_exit E ep en path fs c e ho] at h
    simp [h, ho]
  · subst hd
    simp [print_err E ep en path fs err ho hne] at h
    simp [h, ho]
  · subst hd
    have hlen : (if out.length > 0 then Trace.logf (.output out) else Trace.nil).calls = [] := by
      split <;> simp
    simp [print_ok E ep en path fs out ho, store_calls, hlen] at h
    simp [h, ho]

theorem print_WriteFile_mem (E : Env) (ep en path : String) (d : Bool) (fs : FS)
    (name data : String) (werr : Option GoError)
    (h : Call.WriteFile name data werr ∈ (innerMain.print E ep en d path fs).trace.calls) :
    name = ep ∧ data = en ∧ werr = (os.WriteFile E fs ep en).1 ∧
      (innerMain.print E ep en d path fs).code = (innerMain.store E ep en fs).code ∧
      (innerMain.print E ep en d path fs).fs = (innerMain.store E ep en fs).fs ∧
      (innerMain.print E ep en d path fs).trace.stderr = (innerMain.store E ep en fs).trace.stderr ∧
      (d = true ∨ ∃ out, E.Output (printCmd path) = .ok out) := by
  rcases print_cases E path d with hd | ⟨hd, c, e, ho⟩ | ⟨hd, err, ho, hne⟩ | ⟨hd, out, ho⟩
  · subst hd
    simp [print_dry, store_calls] at h
    simp [print_dry, h]
  · subst hd
    simp [print_exit E ep en path fs c e ho] at h
  · subst hd
    simp [print_err E ep en path fs err ho hne] at h
  · subst hd
    have hlen : (if out.length > 0 then Trace.logf (.output out) else Trace.nil).calls = [] := by
      split <;> simp
    have hlen2 : (if out.length > 0 then Trace.logf (.output out) else Trace.nil).stderr = [] := by
      split <;> simp
    simp [print_ok E ep en path fs out ho, store_calls, hlen] at h
    simp [print_ok E ep en path fs out ho, h, hlen2, ho]

theorem print_kind (E : Env) (ep en path : String) (d : Bool) (fs : FS) :
    ∀ c ∈ (innerMain.print E ep en d path fs).trace.calls,
      c.kind = .Output ∨ c.kind = .WriteFile := by
  intro c hc
  rcases print_cases E path d with hd | ⟨hd, c, e, ho⟩ | ⟨hd, err, ho, hne⟩ | ⟨hd, out, ho⟩
  · subst hd
    simp [print_dry, store_calls] at hc
    simp [hc, Call.kind]
  · subst hd
    simp [print_exit E ep en path fs c e ho] at hc
    simp [hc, Call.kind]
  · subst hd
    simp [print_err E ep en path fs err ho hne] at hc
    simp [hc, Call.kind]
  · subst hd
    have hlen : (if out.length > 0 then Trace.logf (.output out) else Trace.nil).calls = [] := by
      split <;> simp
    simp [print_ok E ep en path fs out ho, store_calls, hlen] at hc
    rcases hc with h | h <;> simp [h, Call.kind]

/-! ## The output stage -/

theorem writeOutput_cb (E : Env) (rc : Body) (fn : String) (fs : FS)
    (h : (writeOutput E rc fn fs).1.err = none) :
    ∃ dir fs1, os.MkdirTemp E fs "" tmpDirPattern = .ok (dir, fs1) ∧
      (writeOutput E rc fn fs).1.cb = some ⟨dir⟩ := by
  cases hmk : os.MkdirTemp E fs "" tmpDirPattern with
  | error err => simp [writeOutput, hmk] at h
  | ok v =>
    obtain ⟨dir, fs1⟩ := v
    refine ⟨dir, fs1, rfl, ?_⟩
    simp only [writeOutput, hmk]
    split <;> simp

theorem output_err (E : Env) (ep en : String) (d : Bool) (body : Body) (fn : String) (fs : FS)
    (err : GoError) (h : (writeOutput E body fn fs).1.err = some err) :
    innerMain.output E ep en d body fn fs =
      ⟨1, (writeOutput E body fn fs).2.1,
        (writeOutput E body fn fs).2.2 ++ Trace.eprint ("writeOutput: " ++ err.Error ++ "\n")⟩ := by
  simp [innerMain.output, h]

theorem output_ok (E : Env) (ep en : String) (d : Bool) (body : Body) (fn : String) (fs : FS)
    (cb : Release) (h : (writeOutput E body fn fs).1.err = none)
    (hcb : (writeOutput E body fn fs).1.cb = some cb) :
    innerMain.output E ep en d body fn fs =
      ⟨(innerMain.print E ep en d (writeOutput E body fn fs).1.path
          (writeOutput E body fn fs).2.1).code,
        (deferCb E cb (innerMain.print E ep en d (writeOutput E body fn fs).1.path
          (writeOutput E body fn fs).2.1).fs).1,
        (writeOutput E body fn fs).2.2 ++
        Trace.logf (.wroteToFile (writeOutput E body fn fs).1.path) ++
        (innerMain.print E ep en d (writeOutput E body fn fs).1.path
          (writeOutput E body fn fs).2.1).trace ++
        (deferCb E cb (innerMain.print E ep en d (writeOutput E body fn fs).1.path
          (writeOutput E body fn fs).2.1).fs).2⟩ := by
  simp [innerMain.output, h, hcb]

theorem output_mem_print (E : Env) (ep en : String) (d : Bool) (body : Body) (fn : String)
    (fs : FS) (c : Call) (hc : c ∈ (innerMain.output E ep en d body fn fs).trace.calls)
    (hk : c.kind = .Output ∨ c.kind = .WriteFile) :
    (writeOutput E body fn fs).1.err = none ∧
      c ∈ (innerMain.print E ep en d (writeOutput E body fn fs).1.path
        (writeOutput E body fn fs).2.1).trace.calls := by
  cases herr : (writeOutput E body fn fs).1.err with
  | some err =>
    rw [output_err E ep en d body fn fs err herr] at hc
    simp at hc
    have := writeOutput_kind E body fn fs c hc
    rcases this with h | h | h <;> rcases hk with hk | hk <;> simp [h] at hk
  | none =>
    obtain ⟨dir, fs1, _, hcb⟩ := writeOutput_cb E body fn fs herr
    rw [output_ok E ep en d body fn fs ⟨dir⟩ herr hcb] at hc
    simp [deferCb_calls] at hc
    refine ⟨rfl, ?_⟩
    rcases hc with h | h | h
    · have := writeOutput_kind E body fn fs c h
      rcases this with h | h | h <;> rcases hk with hk | hk <;> simp [h] at hk
    · exact h
    · subst h
      rcases hk with hk | hk <;> simp [Call.kind] at hk

theorem output_kind (E : Env) (ep en : String) (d : Bool) (body : Body) (fn : String) (fs : FS) :
    ∀ c ∈ (innerMain.output E ep en d body fn fs).trace.calls,
      c.kind ≠ .ReadFile ∧ c.kind ≠ .Do ∧ c.kind ≠ .Close := by
  intro c hc
  cases herr : (writeOutput E body fn fs).1.err with
  | some err =>
    rw [output_err E ep en d body fn fs err herr] at hc
    simp at hc
    rcases writeOutput_kind E body fn fs c hc with h | h | h <;> simp [h]
  | none =>
    obtain ⟨dir, fs1, _, hcb⟩ := writeOutput_cb E body fn fs herr
    rw [output_ok E ep en d body fn fs ⟨dir⟩ herr hcb] at hc
    simp [deferCb_calls] at hc
    rcases hc with h | h | h
    · rcases writeOutput_kind E body fn fs c h with h | h | h <;> simp [h]
    · rcases print_kind E ep en _ d _ c h with h | h <;> simp [h]
    · subst h
      simp [Call.kind]

/-! ## The request -/

theorem doRequest_notModified (E : Env) (url etag : String) (res : Response)
    (hn : E.NewRequest "GET" url = none) (hd : E.Do (buildRequest url etag) = .ok res)
    (h304 : res.StatusCode = 304) :
    doRequest E url etag =
      (.ok (none, "", ""), Trace.call (.Do (buildRequest url etag) (.ok res))) := by
  simp [doRequest, hn, hd, h304]

theorem doRequest_fetched (E : Env) (url etag : String) (body : Body) (fn en : String)
    (h : (doRequest E url etag).1 = .ok (some body, fn, en)) :
    ∃ res, E.NewRequest "GET" url = none ∧ E.Do (buildRequest url etag) = .ok res ∧
      res.StatusCode ≠ 304 ∧
      extractFilename E (Header.Get res.Header "Content-Disposition") = .ok fn ∧
      body = res.Body ∧ en = Header.Get res.Header "ETag" ∧
      (doRequest E url etag).2 = Trace.call (.Do (buildRequest url etag) (.ok res)) := by
  cases hn : E.NewRequest "GET" url with
  | some err => simp [doRequest, hn] at h
  | none =>
    cases hd : E.Do (buildRequest url etag) with
    | error err => simp [doRequest, hn, hd] at h
    | ok res =>
      by_cases h304 : res.StatusCode = 304
      · simp [doRequest, hn, hd, h304] at h
      · cases hx : extractFilename E (Header.Get res.Header "Content-Disposition") with
        | error err => simp [doRequest, hn, hd, h304, hx] at h
        | ok fn1 =>
          simp [doRequest, hn, hd, h304, hx] at h
          refine ⟨res, rfl, rfl, h304, ?_, h.1.symm, h.2.2.symm, ?_⟩
          · rw [← h.2.1, hx]
          · simp [doRequest, hn, hd]

theorem doRequest_nilBody (E : Env) (url etag a b : String)
    (h : (doRequest E url etag).1 = .ok (none, a, b)) :
    ∃ res, E.NewRequest "GET" url = none ∧ E.Do (buildRequest url etag) = .ok res ∧
      res.StatusCode = 304 ∧ a = "" ∧ b = "" := by
  cases hn : E.NewRequest "GET" url with
  | some err => simp [doRequest, hn] at h
  | none =>
    cases hd : E.Do (buildRequest url etag) with
    | error err => simp [doRequest, hn, hd] at h
    | ok res =>
      by_cases h304 : res.StatusCode = 304
      · simp [doRequest, hn, hd, h304] at h
        exact ⟨res, rfl, rfl, h304, h.1.symm, h.2.symm⟩
      · cases hx : extractFilename E (Header.Get res.Header "Content-Disposition") with
        | error err => simp [doRequest, hn, hd, h304, hx] at h
        | ok fn1 => simp [doRequest, hn, hd, h304, hx] at h

theorem doRequest_calls (E : Env) (url etag : String) (h : E.NewRequest "GET" url = none) :
    (doRequest E url etag).2.calls =
      [Call.Do (buildRequest url etag) (E.Do (buildRequest url etag))] := by
  simp [doRequest, h]

/-! ## The shapes of a run -/

theorem innerMain_readErr (E : Env) (url : String) (d f : Bool) (fs : FS) (err : GoError)
    (h : (readLastEtag E (etagPathOf E url) fs).1 = .error err) :
    innerMain E url d f fs =
      ⟨1, fs, (readLastEtag E (etagPathOf E url) fs).2 ++
        Trace.eprint ("readLastModified: " ++ err.Error ++ "\n")⟩ := by
  simp [innerMain, h]

theorem innerMain_reqErr (E : Env) (url : String) (d f : Bool) (fs : FS) (tok : String)
    (err : GoError) (h : (readLastEtag E (etagPathOf E url) fs).1 = .ok tok)
    (hq : (doRequest E url (if f then "" else tok)).1 = .error err) :
    innerMain E url d f fs =
      ⟨1, fs, (readLastEtag E (etagPathOf E url) fs).2 ++
        Trace.logf (.previousEtag (getEtagFilename etagFilePattern url) tok) ++
        (if f then Trace.logf .ignoringPreviousEtag else Trace.nil) ++
        (doRequest E url (if f then "" else tok)).2 ++
        Trace.eprint ("doRequest: " ++ err.Error ++ "\n")⟩ := by
  simp [innerMain, h, hq]

theorem innerMain_notModified (E : Env) (url : String) (d f : Bool) (fs : FS) (tok a b : String)
    (h : (readLastEtag E (etagPathOf E url) fs).1 = .ok tok)
    (hq : (doRequest E url (if f then "" else tok)).1 = .ok (none, a, b)) :
    innerMain E url d f fs =
      ⟨0, fs, (readLastEtag E (etagPathOf E url) fs).2 ++
        Trace.logf (.previousEtag (getEtagFilename etagFilePattern url) tok) ++
        (if f then Trace.logf .ignoringPreviousEtag else Trace.nil) ++
        (doRequest E url (if f then "" else tok)).2 ++
        Trace.print "Not modified.\n"⟩ := by
  simp [innerMain, h, hq]

theorem innerMain_fetched (E : Env) (url : String) (d f : Bool) (fs : FS) (tok : String)
    (body : Body) (fn en : String)
    (h : (readLastEtag E (etagPathOf E url) fs).1 = .ok tok)
    (hq : (doRequest E url (if f then "" else tok)).1 = .ok (some body, fn, en)) :
    innerMain E url d f fs =
      ⟨(innerMain.output E (etagPathOf E url) en d body fn fs).code,
        (innerMain.output E (etagPathOf E url) en d body fn fs).fs,
        (readLastEtag E (etagPathOf E url) fs).2 ++
        Trace.logf (.previousEtag (getEtagFilename etagFilePattern url) tok) ++
        (if f then Trace.logf .ignoringPreviousEtag else Trace.nil) ++
        (doRequest E url (if f then "" else tok)).2 ++
        Trace.logf (.fetched url fn en) ++
        (innerMain.output E (etagPathOf E url) en d body fn fs).trace ++
        deferClose body⟩ := by
  simp [innerMain, h, hq]

/-- The four ways a run can go, by the outcome of the token read and of the request. -/
theorem innerMain_cases (E : Env) (url : String) (f : Bool) (fs : FS) :
    (∃ err, (readLastEtag E (etagPathOf E url) fs).1 = .error err) ∨
    (∃ tok err, (readLastEtag E (etagPathOf E url) fs).1 = .ok tok ∧
      (doRequest E url (if f then "" else tok)).1 = .error err) ∨
    (∃ tok a b, (readLastEtag E (etagPathOf E url) fs).1 = .ok tok ∧
      (doRequest E url (if f then "" else tok)).1 = .ok (none, a, b)) ∨
    (∃ tok body fn en, (readLastEtag E (etagPathOf E url) fs).1 = .ok tok ∧
      (doRequest E url (if f then "" else tok)).1 = .ok (some body, fn, en)) := by
  cases h : (readLastEtag E (etagPathOf E url) fs).1 with
  | error err => left; exact ⟨err, rfl⟩
  | ok tok =>
    right
    cases hq : (doRequest E url (if f then "" else tok)).1 with
    | error err => left; exact ⟨tok, err, rfl, hq⟩
    | ok v =>
      obtain ⟨ob, fn, en⟩ := v
      cases ob with
      | none => right; left; exact ⟨tok, fn, en, rfl, hq⟩
      | some body => right; right; exact ⟨tok, body, fn, en, rfl, hq⟩

theorem ifForce_calls (f : Bool) :
    (if f then Trace.logf .ignoringPreviousEtag else Trace.nil).calls = [] := by
  cases f <;> simp

theorem ifForce_stdout (f : Bool) :
    (if f then Trace.logf .ignoringPreviousEtag else Trace.nil).stdout = [] := by
  cases f <;> simp

theorem ifForce_stderr (f : Bool) :
    (if f then Trace.logf .ignoringPreviousEtag else Trace.nil).stderr = [] := by
  cases f <;> simp

/-- A request in the trace of a run is the one `doRequest` built from the
token that was read, and its recorded outcome is what the HTTP peer answered. -/
theorem innerMain_Do_mem (E : Env) (url : String) (d f : Bool) (fs : FS) (req : Request)
    (r : Except GoError Response)
    (h : Call.Do req r ∈ (innerMain E url d f fs).trace.calls) :
    ∃ tok, (readLastEtag E (etagPathOf E url) fs).1 = .ok tok ∧
      E.NewRequest "GET" url = none ∧
      req = buildRequest url (if f then "" else tok) ∧ r = E.Do req := by
  rcases innerMain_cases E url f fs with ⟨err, hr⟩ | ⟨tok, err, hr, hq⟩ | ⟨tok, a, b, hr, hq⟩ |
    ⟨tok, body, fn, en, hr, hq⟩
  · simp [innerMain_readErr E url d f fs err hr, readLastEtag_trace] at h
  · simp [innerMain_reqErr E url d f fs tok err hr hq, readLastEtag_trace, ifForce_calls] at h
    obtain ⟨h1, h2⟩ := doRequest_calls_kind E url _ _ h
    simp at h1
    exact ⟨tok, hr, h2, h1.1, by rw [h1.1]; exact h1.2⟩
  · simp [innerMain_notModified E url d f fs tok a b hr hq, readLastEtag_trace,
      ifForce_calls] at h
    obtain ⟨h1, h2⟩ := doRequest_calls_kind E url _ _ h
    simp at h1
    exact ⟨tok, hr, h2, h1.1, by rw [h1.1]; exact h1.2⟩
  · simp [innerMain_fetched E url d f fs tok body fn en hr hq, readLastEtag_trace,
      ifForce_calls, deferClose_calls] at h
    rcases h with h | h
    · obtain ⟨h1, h2⟩ := doRequest_calls_kind E url _ _ h
      simp at h1
      exact ⟨tok, hr, h2, h1.1, by rw [h1.1]; exact h1.2⟩
    · have := output_kind E _ _ _ _ _ _ _ h
      simp [Call.kind] at this

/-- A call of the output, print or store stage in the trace of a run: the run
fetched a body, and the call belongs to the output stage. -/
theorem innerMain_mem_output (E : Env) (url : String) (d f : Bool) (fs : FS) (c : Call)
    (h : c ∈ (innerMain E url d f fs).trace.calls)
    (hk : c.kind ≠ .ReadFile ∧ c.kind ≠ .Do ∧ c.kind ≠ .Close) :
    ∃ tok body fn en, (readLastEtag E (etagPathOf E url) fs).1 = .ok tok ∧
      (doRequest E url (if f then "" else tok)).1 = .ok (some body, fn, en) ∧
      c ∈ (innerMain.output E (etagPathOf E url) en d body fn fs).trace.calls := by
  rcases innerMain_cases E url f fs with ⟨err, hr⟩ | ⟨tok, err, hr, hq⟩ | ⟨tok, a, b, hr, hq⟩ |
    ⟨tok, body, fn, en, hr, hq⟩
  · simp [innerMain_readErr E url d f fs err hr, readLastEtag_trace] at h
    simp [h, Call.kind] at hk
  · simp [innerMain_reqErr E url d f fs tok err hr hq, readLastEtag_trace, ifForce_calls] at h
    rcases h with h | h
    · simp [h, Call.kind] at hk
    · obtain ⟨h1, _⟩ := doRequest_calls_kind E url _ _ h
      simp [h1, Call.kind] at hk
  · simp [innerMain_notModified E url d f fs tok a b hr hq, readLastEtag_trace,
      ifForce_calls] at h
    rcases h with h | h
    · simp [h, Call.kind] at hk
    · obtain ⟨h1, _⟩ := doRequest_calls_kind E url _ _ h
      simp [h1, Call.kind] at hk
  · refine ⟨tok, body, fn, en, hr, hq, ?_⟩
    simp [innerMain_fetched E url d f fs tok body fn en hr hq, readLastEtag_trace,
      ifForce_calls, deferClose_calls] at h
    rcases h with h | h | h | h
    · simp [h, Call.kind] at hk
    · obtain ⟨h1, _⟩ := doRequest_calls_kind E url _ _ h
      simp [h1, Call.kind] at hk
    · exact h
    · simp [h, Call.kind] at hk

/-! ## Claims on the flow of a run -/

theorem writeOutput_Copy_mem (E : Env) (rc : Body) (fn : String) (fs : FS) (p : String)
    (e : Option GoError) (h : Call.Copy p e ∈ (writeOutput E rc fn fs).2.2.calls) :
    p = (writeOutput E rc fn fs).1.path ∧ e = (writeOutput E rc fn fs).1.err := by
  cases hmk : os.MkdirTemp E fs "" tmpDirPattern with
  | error err => simp [writeOutput, hmk] at h
  | ok v =>
    obtain ⟨dir, fs1⟩ := v
    cases hcr : os.Create E fs1 (filepath.Join [dir, if fn = "" then unknownFilename else fn]) with
    | error err => simp [writeOutput, hmk, hcr] at h
    | ok fs2 =>
      simp [writeOutput, hmk, hcr] at h
      simp [writeOutput, hmk, hcr, h]

theorem output_mem_write (E : Env) (ep en : String) (d : Bool) (body : Body) (fn : String)
    (fs : FS) (c : Call) (hc : c ∈ (innerMain.output E ep en d body fn fs).trace.calls)
    (hk : c.kind = .MkdirTemp ∨ c.kind = .Create ∨ c.kind = .Copy) :
    c ∈ (writeOutput E body fn fs).2.2.calls := by
  cases herr : (writeOutput E body fn fs).1.err with
  | some err =>
    rw [output_err E ep en d body fn fs err herr] at hc
    simpa using hc
  | none =>
    obtain ⟨dir, fs1, _, hcb⟩ := writeOutput_cb E body fn fs herr
    rw [output_ok E ep en d body fn fs ⟨dir⟩ herr hcb] at hc
    simp [deferCb_calls] at hc
    rcases hc with h | h | h
    · exact h
    · rcases print_kind E ep en _ d _ c h with h | h <;> simp [h] at hk
    · subst h
      simp [Call.kind] at hk

/-- The premise of a 304 answer in terms of the inputs: when the token read
succeeds, the URL is accepted and the server answers the request built from
the token with `res`, that answered request is in the trace of the run. -/
theorem answered_of_inputs (E : Env) (url : String) (dryRun force : Bool) (fs : FS)
    (tok : String) (res : Response)
    (hr : (readLastEtag E (etagPathOf E url) fs).1 = .ok tok)
    (hn : E.NewRequest "GET" url = none)
    (hd : E.Do (buildRequest url (if force then "" else tok)) = .ok res) :
    Call.Do (buildRequest url (if force then "" else tok)) (.ok res) ∈
      (innerMain E url dryRun force fs).trace.calls := by
  have hc := doRequest_calls E url (if force then "" else tok) hn
  rcases innerMain_cases E url force fs with ⟨err, hr1⟩ | ⟨tok1, err, hr1, hq1⟩ |
    ⟨tok1, a, b, hr1, hq1⟩ | ⟨tok1, body, fn, en, hr1, hq1⟩
  · rw [hr] at hr1; cases hr1
  · rw [hr] at hr1; cases hr1
    rw [innerMain_reqErr E url dryRun force fs tok err hr hq1]
    simp [hc, hd]
  · rw [hr] at hr1; cases hr1
    rw [innerMain_notModified E url dryRun force fs tok a b hr hq1]
    simp [hc, hd]
  · rw [hr] at hr1; cases hr1
    rw [innerMain_fetched E url dryRun force fs tok body fn en hr hq1]
    simp [hc, hd]

/-- C1: when the server answers the GET of a run with 304 Not Modified,
`doRequest` returns a nil body and no error, and `innerMain` prints
"Not modified.", returns 0, makes no call besides the token read and the
request (no temporary directory, no output file, no subprocess, no token
write) and leaves the file system, hence the token file, as it was. -/
theorem C1_not_modified (E : Env) (url : String) (dryRun force : Bool) (fs : FS)
    (req : Request) (res : Response)
    (hdo : Call.Do req (.ok res) ∈ (innerMain E url dryRun force fs).trace.calls)
    (h304 : res.StatusCode = 304) :
    (∃ etag, req = buildRequest url etag ∧
      doRequest E url etag = (.ok (none, "", ""), Trace.call (.Do req (.ok res)))) ∧
    (innerMain E url dryRun force fs).code = 0 ∧
    (innerMain E url dryRun force fs).trace.stdout = ["Not modified.\n"] ∧
    (innerMain E url dryRun force fs).trace.stderr = [] ∧
    (innerMain E url dryRun force fs).trace.calls =
      [Call.ReadFile (etagPathOf E url) (os.ReadFile E fs (etagPathOf E url)),
        Call.Do req (.ok res)] ∧
    (∀ c ∈ (innerMain E url dryRun force fs).trace.calls,
      c.kind ≠ .MkdirTemp ∧ c.kind ≠ .Create ∧ c.kind ≠ .Copy ∧ c.kind ≠ .Output ∧
      c.kind ≠ .WriteFile ∧ c.kind ≠ .RemoveAll) ∧
    (innerMain E url dryRun force fs).fs = fs := by
  obtain ⟨tok, hr, hn, hreq, hres⟩ := innerMain_Do_mem E url dryRun force fs req _ hdo
  have hd : E.Do (buildRequest url (if force then "" else tok)) = .ok res := by
    rw [← hreq]; exact hres.symm
  have hq := doRequest_notModified E url _ res hn hd h304
  have hrun := innerMain_notModified E url dryRun force fs tok "" "" hr (by rw [hq])
  refine ⟨⟨_, hreq, by rw [hq, hreq]⟩, ?_, ?_, ?_, ?_, ?_, ?_⟩
  · rw [hrun]
  · rw [hrun]; simp [readLastEtag_trace, ifForce_stdout, hq]
  · rw [hrun]; simp [readLastEtag_trace, ifForce_stderr, hq]
  · rw [hrun]; simp [readLastEtag_trace, ifForce_calls, hq, hreq]
  · rw [hrun]
    simp only [Trace.append_calls, readLastEtag_trace, ifForce_calls, hq]
    intro c hc
    simp at hc
    rcases hc with h | h <;> simp [h, Call.kind]
  · rw [hrun]

theorem outputLog_stderr (out : String) :
    (if out.length > 0 then Trace.logf (.output out) else Trace.nil).stderr = [] := by
  split <;> simp

theorem outputLog_stdout (out : String) :
    (if out.length > 0 then Trace.logf (.output out) else Trace.nil).stdout = [] := by
  split <;> simp

theorem outputLog_calls (out : String) :
    (if out.length > 0 then Trace.logf (.output out) else Trace.nil).calls = [] := by
  split <;> simp

theorem store_stderr_ok (E : Env) (ep en : String) (fs : FS)
    (h : (os.WriteFile E fs ep en).1 = none) : (innerMain.store E ep en fs).trace.stderr = [] := by
  simp [innerMain.store, writeLastEtag, h]

/-- A subprocess call in the trace of a run: the run is not a dry run, it
reached the print stage, and its exit code and standard error are those of
the print stage. -/
theorem innerMain_Output_mem (E : Env) (url : String) (d f : Bool) (fs : FS)
    (argv : List String) (r : Except GoError String)
    (h : Call.Output argv r ∈ (innerMain E url d f fs).trace.calls) :
    d = false ∧ ∃ en path fs1, argv = printCmd path ∧ r = E.Output (printCmd path) ∧
      (innerMain E url d f fs).code = (innerMain.print E (etagPathOf E url) en d path fs1).code ∧
      (innerMain E url d f fs).trace.stderr =
        (innerMain.print E (etagPathOf E url) en d path fs1).trace.stderr ∧
      ∀ c, c.kind = .WriteFile → c ∈ (innerMain E url d f fs).trace.calls →
        c ∈ (innerMain.print E (etagPathOf E url) en d path fs1).trace.calls := by
  obtain ⟨tok, body, fn, en, hr, hq, ho⟩ :=
    innerMain_mem_output E url d f fs _ h (by simp [Call.kind])
  obtain ⟨herr, hp⟩ := output_mem_print E _ en d body fn fs _ ho (by simp [Call.kind])
  obtain ⟨hd, hargv, hres⟩ := print_Output_mem E _ en _ d _ argv r hp
  obtain ⟨dir, fs1, _, hcb⟩ := writeOutput_cb E body fn fs herr
  refine ⟨hd, en, _, (writeOutput E body fn fs).2.1, hargv, hres, ?_, ?_, ?_⟩
  · rw [innerMain_fetched E url d f fs tok body fn en hr hq,
      output_ok E _ en d body fn fs ⟨dir⟩ herr hcb]
  · rw [innerMain_fetched E url d f fs tok body fn en hr hq,
      output_ok E _ en d body fn fs ⟨dir⟩ herr hcb]
    simp [readLastEtag_trace, ifForce_stderr, doRequest_stderr, writeOutput_stderr,
      deferCb_stderr, deferClose_stderr]
  · intro c hk hc
    obtain ⟨tok1, body1, fn1, en1, hr1, hq1, ho1⟩ :=
      innerMain_mem_output E url d f fs _ hc (by simp [hk])
    rw [hr] at hr1
    cases hr1
    rw [hq] at hq1
    cases hq1
    exact (output_mem_print E _ en d body fn fs _ ho1 (by simp [hk])).2

/-- C4: in a run that is not a dry run, a print subprocess that fails with an
exit status error carrying code `c` and captured standard error `e` makes
`innerMain` write `e` to the error stream and return `c`; any other failure of
the subprocess makes it return 1; a subprocess that succeeds, followed by a
token write that succeeds, makes it return 0. -/
theorem C4_print_exit_code (E : Env) (url : String) (force : Bool) (fs : FS) :
    (∀ argv c e,
      Call.Output argv (.error (.ExitError c e)) ∈ (innerMain E url false force fs).trace.calls →
      (innerMain E url false force fs).code = c ∧
      (innerMain E url false force fs).trace.stderr = ["cmd.Run: " ++ e ++ "\n"]) ∧
    (∀ argv err,
      Call.Output argv (.error err) ∈ (innerMain E url false force fs).trace.calls →
      (∀ c e, err ≠ .ExitError c e) →
      (innerMain E url false force fs).code = 1 ∧
      (innerMain E url false force fs).trace.stderr = ["cmd.Run: " ++ err.Error ++ "\n"]) ∧
    (∀ argv out name data,
      Call.Output argv (.ok out) ∈ (innerMain E url false force fs).trace.calls →
      Call.WriteFile name data none ∈ (innerMain E url false force fs).trace.calls →
      (innerMain E url false force fs).code = 0 ∧
      (innerMain E url false force fs).trace.stderr = []) := by
  refine ⟨?_, ?_, ?_⟩
  · intro argv c e h
    obtain ⟨_, en, path, fs1, _, hres, hcode, hstderr, _⟩ :=
      innerMain_Output_mem E url false force fs argv _ h
    rw [hcode, hstderr, print_exit E _ en path fs1 c e hres.symm]
    simp
  · intro argv err h hne
    obtain ⟨_, en, path, fs1, _, hres, hcode, hstderr, _⟩ :=
      innerMain_Output_mem E url false force fs argv _ h
    rw [hcode, hstderr, print_err E _ en path fs1 err hres.symm hne]
    simp
  · intro argv out name data h hw
    obtain ⟨_, en, path, fs1, _, hres, hcode, hstderr, hmem⟩ :=
      innerMain_Output_mem E url false force fs argv _ h
    have hw1 := hmem _ (by simp [Call.kind]) hw
    obtain ⟨_, _, hwerr, hc, _, hs, _⟩ := print_WriteFile_mem E _ en path false fs1 _ _ _ hw1
    rw [hcode, hstderr, hc, hs, store_code, store_stderr_ok E _ _ _ hwerr.symm]
    simp [← hwerr]

theorem printCmd_joined (p : String) :
    strings.Join (printCmd p) " " = "lp -s -o sides=two-sided-long-edge -- " ++ p := by
  apply String.ext
  simp [strings.Join, printCmd, List.intercalate]

theorem wouldRun_line (p : String) :
    "Would run: " ++ strings.Join (printCmd p) " " ++ "\n" =
      "Would run: lp -s -o sides=two-sided-long-edge -- " ++ p ++ "\n" := by
  apply String.ext
  simp [strings.Join, printCmd, List.intercalate]

/-- C5: a dry run starts no subprocess.  When it reaches the print stage
(`writeOutput` has copied the body into the file `p` without error) it writes
"Would run: lp -s -o sides=two-sided-long-edge -- p" to standard output, then
writes the ETag of the response to the token file, and returns 0 when that
write succeeds; the token write, the exit code and the file system left behind
are those of the real run whose subprocess succeeds. -/
theorem C5_dry_run (E : Env) (url : String) (force : Bool) (fs : FS) :
    (∀ c ∈ (innerMain E url true force fs).trace.calls, c.kind ≠ .Output) ∧
    (∀ p, Call.Copy p none ∈ (innerMain E url true force fs).trace.calls →
      (innerMain E url true force fs).trace.stdout =
        ["Printing...\n", "Would run: lp -s -o sides=two-sided-long-edge -- " ++ p ++ "\n"] ∧
      ∃ req res werr,
        Call.Do req (.ok res) ∈ (innerMain E url true force fs).trace.calls ∧
        Call.WriteFile (etagPathOf E url) (Header.Get res.Header "ETag") werr ∈
          (innerMain E url true force fs).trace.calls ∧
        (werr = none → (innerMain E url true force fs).code = 0) ∧
        (werr ≠ none → (innerMain E url true force fs).code = 1) ∧
        (∀ out, E.Output (printCmd p) = .ok out →
          Call.WriteFile (etagPathOf E url) (Header.Get res.Header "ETag") werr ∈
            (innerMain E url false force fs).trace.calls ∧
          (innerMain E url false force fs).code = (innerMain E url true force fs).code ∧
          (innerMain E url false force fs).fs = (innerMain E url true force fs).fs)) := by
  refine ⟨?_, ?_⟩
  · intro c hc hk
    cases c with
    | Output argv r =>
      have := (innerMain_Output_mem E url true force fs argv r hc).1
      simp at this
    | _ => simp [Call.kind] at hk
  · intro p hp
    obtain ⟨tok, body, fn, en, hr, hq, ho⟩ :=
      innerMain_mem_output E url true force fs _ hp (by simp [Call.kind])
    have hw := output_mem_write E _ en true body fn fs _ ho (by simp [Call.kind])
    obtain ⟨hpath, herr⟩ := writeOutput_Copy_mem E body fn fs p none hw
    obtain ⟨dir, fs1, _, hcb⟩ := writeOutput_cb E body fn fs herr.symm
    obtain ⟨res, hn, hd, h304, hx, hbody, hen, hqt⟩ := doRequest_fetched E url _ body fn en hq
    have hrunT : ∀ d, innerMain E url d force fs = _ :=
      fun d => innerMain_fetched E url d force fs tok body fn en hr hq
    have houtT : ∀ d, innerMain.output E (etagPathOf E url) en d body fn fs = _ :=
      fun d => output_ok E _ en d body fn fs ⟨dir⟩ herr.symm hcb
    refine ⟨?_, buildRequest url (if force then "" else tok), res,
      (os.WriteFile E (writeOutput E body fn fs).2.1 (etagPathOf E url) en).1, ?_, ?_, ?_, ?_, ?_⟩
    · rw [hrunT, houtT, print_dry]
      simp [readLastEtag_trace, ifForce_stdout, doRequest_stdout, writeOutput_stdout,
        deferCb_stdout, deferClose_stdout, store_stdout, wouldRun_line, hpath]
    · rw [hrunT]
      simp [hqt]
    · rw [hrunT, houtT, print_dry]
      simp [store_calls, hen]
    · intro hnone
      rw [hrunT, houtT, print_dry]
      simp [store_code, hnone]
    · intro hsome
      rw [hrunT, houtT, print_dry]
      simp [store_code, hsome]
    · intro out hout
      rw [hpath] at hout
      rw [hrunT true, hrunT false, houtT true, houtT false, print_dry,
        print_ok E _ en _ _ out hout]
      simp [store_calls, hen]

theorem kind_ReadFile (n : String) (r : Except GoError String) :
    (Call.ReadFile n r).kind = .ReadFile := rfl

theorem kind_Close (e : Option GoError) : (Call.Close e).kind = .Close := rfl

theorem canonical_ifNoneMatch :
    textproto.CanonicalMIMEHeaderKey "If-None-Match" = "If-None-Match" := by
  decide

theorem buildRequest_empty (url : String) : buildRequest url "" = ⟨"GET", url, []⟩ := by
  simp [buildRequest]

theorem buildRequest_token (url tok : String) (h : tok ≠ "") :
    buildRequest url tok = ⟨"GET", url, [("If-None-Match", tok)]⟩ := by
  simp [buildRequest, h, Header.Set, canonical_ifNoneMatch]

theorem get_ifNoneMatch (tok : String) :
    Header.Get [("If-None-Match", tok)] "If-None-Match" = tok := by
  simp [Header.Get, canonical_ifNoneMatch]

theorem get_ifNoneMatch_nil : Header.Get [] "If-None-Match" = "" := by
  simp [Header.Get]

/-- The requests of a run whose token read succeeds are the calls of
`doRequest` on the token that is passed to it. -/
theorem innerMain_requests (E : Env) (url : String) (d f : Bool) (fs : FS) (tok : String)
    (hr : (readLastEtag E (etagPathOf E url) fs).1 = .ok tok) :
    (innerMain E url d f fs).trace.calls.filter (fun c => c.kind = .Do) =
      (doRequest E url (if f then "" else tok)).2.calls := by
  have hq : (doRequest E url (if f then "" else tok)).2.calls.filter (fun c => c.kind = .Do) =
      (doRequest E url (if f then "" else tok)).2.calls := by
    rw [List.filter_eq_self]
    intro c hc
    simp [(doRequest_calls_kind E url _ c hc).1, Call.kind]
  rcases innerMain_cases E url f fs with ⟨err, hr1⟩ | ⟨tok1, err, hr1, hq1⟩ |
    ⟨tok1, a, b, hr1, hq1⟩ | ⟨tok1, body, fn, en, hr1, hq1⟩
  · rw [hr] at hr1; cases hr1
  · rw [hr] at hr1; cases hr1
    rw [innerMain_reqErr E url d f fs tok err hr hq1]
    simp [readLastEtag_trace, ifForce_calls, List.filter_cons, kind_ReadFile, hq]
  · rw [hr] at hr1; cases hr1
    rw [innerMain_notModified E url d f fs tok a b hr hq1]
    simp [readLastEtag_trace, ifForce_calls, List.filter_cons, kind_ReadFile, hq]
  · rw [hr] at hr1; cases hr1
    rw [innerMain_fetched E url d f fs tok body fn en hr hq1]
    have ho : (innerMain.output E (etagPathOf E url) en d body fn fs).trace.calls.filter
        (fun c => c.kind = .Do) = [] := by
      rw [List.filter_eq_nil_iff]
      intro c hc
      simpa using (output_kind E _ _ _ _ _ _ c hc).2.1
    simp [readLastEtag_trace, ifForce_calls, deferClose_calls, List.filter_cons, kind_ReadFile,
      kind_Close, hq, ho]

/-- C7: `extractFilename` returns the empty name and no error for an empty
header; an error when a non-empty header is rejected by the media type
parser; otherwise the value of the `filename` parameter, or the empty name
when the parameter is absent.  In `doRequest` such an error fails the fetch:
no body, filename or token is returned.  With the parser of the Go library,
the header `invalid; ` followed by characters that are not token characters
is an error and `attachment; filename="example.txt"` gives `example.txt`. -/
theorem C7_extractFilename (E : Env) (h : String) :
    (h = "" → extractFilename E h = .ok "") ∧
    (h ≠ "" → ∀ err, E.ParseMediaType h = .error err →
      extractFilename E h = .error (.Errorf "mime.ParseMediaType" err)) ∧
    (h ≠ "" → ∀ mt params, E.ParseMediaType h = .ok (mt, params) →
      extractFilename E h = .ok ((params.lookup "filename").getD "")) ∧
    (∀ url etag res err, E.NewRequest "GET" url = none →
      E.Do (buildRequest url etag) = .ok res → res.StatusCode ≠ 304 →
      Header.Get res.Header "Content-Disposition" = h →
      extractFilename E h = .error err →
      (doRequest E url etag).1 = .error (.Errorf "extractFilename" err)) ∧
    (E.ParseMediaType = mime.ParseMediaType →
      (∃ err, extractFilename E "invalid; ðŸ’©ðŸ§¨" = .error err) ∧
      extractFilename E "attachment; filename=\"example.txt\"" = .ok "example.txt") := by
  refine ⟨?_, ?_, ?_, ?_, ?_⟩
  · intro h0
    simp [extractFilename, h0]
  · intro h0 err hp
    simp [extractFilename, h0, hp]
  · intro h0 mt params hp
    simp only [extractFilename, h0, hp, if_false]
    cases hl : params.lookup "filename" with
    | none => simp
    | some fn =>
      by_cases hfn : fn = "" <;> simp [hfn]
  · intro url etag res err hn hd h304 hcd hx
    simp [doRequest, hn, hd, h304, hcd, hx]
  · intro hE
    have h1 : mime.ParseMediaType "invalid; ðŸ’©ðŸ§¨" =
        .error (.New "mime: invalid media parameter") := by decide
    have h2 : mime.ParseMediaType "attachment; filename=\"example.txt\"" =
        .ok ("attachment", [("filename", "example.txt")]) := by decide
    have n1 : "invalid; ðŸ’©ðŸ§¨" ≠ "" := by decide
    have n2 : "attachment; filename=\"example.txt\"" ≠ "" := by decide
    refine ⟨⟨.Errorf "mime.ParseMediaType" (.New "mime: invalid media parameter"), ?_⟩, ?_⟩
    · simp only [extractFilename, n1, if_false, hE, h1]
    · simp only [extractFilename, n2, if_false, hE, h2]
      decide

/-! ## The name of the token file -/

theorem Sprintf_etag (str : String) :
    fmt.Sprintf etagFilePattern str = "etag-" ++ str ++ ".txt" := by
  apply String.ext
  simp [fmt.Sprintf, etagFilePattern, fmt.expand]

theorem Sprintf_etag_def (url : String) :
    getEtagFilename etagFilePattern url =
      "etag-" ++ hex.EncodeToString (sha256.Sum256 (bytesOf url)) ++ ".txt" :=
  Sprintf_etag _

theorem Sum256_length (data : List Nat) : (sha256.Sum256 data).length = 32 := by
  simp [sha256.Sum256, sha256.be32]

theorem Sum256_lt (data : List Nat) : ∀ v ∈ sha256.Sum256 data, v < 256 := by
  intro v hv
  simp only [sha256.Sum256, sha256.be32, List.mem_append, List.mem_cons, List.mem_singleton,
    List.not_mem_nil, or_false] at hv
  rcases hv with ((((((h | h) | h) | h) | h) | h) | h) | h <;>
    rcases h with h | h | h | h <;> rw [h] <;> exact Nat.mod_lt _ (by decide)

theorem hextable_inj : ∀ i < 16, ∀ j < 16,
    hex.hextable.getD i '0' = hex.hextable.getD j '0' → i = j := by
  decide

theorem hextable_mem (i : Nat) : hex.hextable.getD i '0' ∈ hex.hextable := by
  by_cases h : i < 16
  · revert i
    decide
  · have : hex.hextable.length ≤ i := by
      simp [hex.hextable]; omega
    rw [List.getD_eq_default _ _ this]
    decide

theorem encodeByte_inj (v w : Nat) (hv : v < 256) (hw : w < 256)
    (h : hex.encodeByte v = hex.encodeByte w) : v = w := by
  simp only [hex.encodeByte, List.cons.injEq, and_true] at h
  have h1 := hextable_inj (v >>> 4) (by rw [Nat.shiftRight_eq_div_pow]; omega) (w >>> 4)
    (by rw [Nat.shiftRight_eq_div_pow]; omega) h.1
  have e : ∀ x : Nat, x &&& 0x0f = x % 16 := fun x => Nat.and_pow_two_sub_one_eq_mod x 4
  have h2 := hextable_inj (v &&& 0x0f) (by rw [e]; omega) (w &&& 0x0f) (by rw [e]; omega) h.2
  rw [Nat.shiftRight_eq_div_pow] at h1
  rw [Nat.shiftRight_eq_div_pow] at h1
  rw [e, e] at h2
  omega

theorem flatMap_encodeByte_inj (l1 l2 : List Nat) (h1 : ∀ v ∈ l1, v < 256)
    (h2 : ∀ v ∈ l2, v < 256) (h : l1.flatMap hex.encodeByte = l2.flatMap hex.encodeByte) :
    l1 = l2 := by
  induction l1 generalizing l2 with
  | nil =>
    cases l2 with
    | nil => rfl
    | cons w l2 => simp [hex.encodeByte] at h
  | cons v l1 ih =>
    cases l2 with
    | nil => simp [hex.encodeByte] at h
    | cons w l2 =>
      simp only [List.flatMap_cons, hex.encodeByte, List.cons_append, List.nil_append,
        List.cons.injEq] at h
      have hvw : v = w := encodeByte_inj v w (h1 v (by simp)) (h2 w (by simp))
        (by simp only [hex.encodeByte, h.1, h.2.1])
      rw [hvw, ih l2 (fun x hx => h1 x (by simp [hx])) (fun x hx => h2 x (by simp [hx])) h.2.2]

theorem EncodeToString_length (l : List Nat) : (hex.EncodeToString l).length = 2 * l.length := by
  simp only [hex.EncodeToString, String.length]
  induction l with
  | nil => rfl
  | cons v l ih => simp [hex.encodeByte, ih]; omega

theorem EncodeToString_mem (l : List Nat) :
    ∀ c ∈ (hex.EncodeToString l).data, c ∈ "0123456789abcdef".data := by
  intro c hc
  simp only [hex.EncodeToString, List.mem_flatMap, hex.encodeByte, List.mem_cons,
    List.mem_singleton, List.not_mem_nil, or_false] at hc
  obtain ⟨v, _, h | h⟩ := hc <;> rw [h] <;> exact hextable_mem _

/-- C8: for the pattern `etag-%s.txt` the token file name of a URL is `etag-`,
the 64 lowercase hexadecimal digits of the SHA-256 digest of the bytes of the
URL, and `.txt`; two URLs get the same name only if their digests are equal;
the name of `http://example.com` is the one the test of the repository
expects. -/
theorem C8_etag_filename :
    (∀ u, getEtagFilename "etag-%s.txt" u =
      "etag-" ++ hex.EncodeToString (sha256.Sum256 (bytesOf u)) ++ ".txt") ∧
    (∀ u, (hex.EncodeToString (sha256.Sum256 (bytesOf u))).length = 64 ∧
      ∀ c ∈ (hex.EncodeToString (sha256.Sum256 (bytesOf u))).data,
        c ∈ "0123456789abcdef".data) ∧
    (∀ u1 u2, getEtagFilename "etag-%s.txt" u1 = getEtagFilename "etag-%s.txt" u2 →
      sha256.Sum256 (bytesOf u1) = sha256.Sum256 (bytesOf u2)) ∧
    getEtagFilename "etag-%s.txt" "http://example.com" =
      "etag-f0e6a6a97042a4f1f1c87f5f7d44315b2d852c2df5c7991cc66241bf7072d1c4.txt" ∧
    getEtagFilename "etag-%s.txt" "https://example.com/file" =
      "etag-b14834559f5ee66a791f348bb05b37a925ab7875ac8229fc6c51ab670d2889a3.txt" := by
  have key : ∀ u, getEtagFilename "etag-%s.txt" u =
      "etag-" ++ hex.EncodeToString (sha256.Sum256 (bytesOf u)) ++ ".txt" :=
    fun u => Sprintf_etag _
  refine ⟨key, ?_, ?_, by decide, by decide⟩
  · intro u
    exact ⟨by rw [EncodeToString_length, Sum256_length], EncodeToString_mem _⟩
  · intro u1 u2 h
    rw [key, key] at h
    have h' := congrArg String.data h
    simp only [String.data_append, List.append_assoc] at h'
    have h2 := List.append_cancel_right (List.append_cancel_left h')
    exact flatMap_encodeByte_inj _ _ (Sum256_lt _) (Sum256_lt _) h2

/-! ## Paths -/

theorem splitOn_append_sep (a b : List Char) (hb : '/' ∉ b) :
    (a ++ '/' :: b).splitOn '/' = a.splitOn '/' ++ [b] := by
  have hb' : b.splitOn '/' = [b] := by
    apply List.splitOnP_eq_single
    intro x hx hp
    rw [beq_iff_eq] at hp
    exact hb (hp ▸ hx)
  induction a with
  | nil => simp [List.splitOn, List.splitOnP_cons] at hb' ⊢; exact hb'
  | cons c a ih =>
    simp only [List.splitOn, List.cons_append, List.splitOnP_cons] at ih ⊢
    by_cases hc : (c == '/') = true
    · simp [hc, ih]
    · simp only [hc, if_false, ih, Bool.false_eq_true]
      cases h : List.splitOnP (fun x => x == '/') a with
      | nil => exact absurd h (List.splitOnP_ne_nil _ _)
      | cons x xs => simp [List.modifyHead]

theorem splitOn_no_sep (a : List Char) : ∀ l ∈ a.splitOn '/', '/' ∉ l := by
  induction a with
  | nil => simp [List.splitOn]
  | cons c a ih =>
    simp only [List.splitOn, List.splitOnP_cons] at ih ⊢
    by_cases hc : (c == '/') = true
    · simp only [hc, if_true, List.mem_cons]
      rintro l (h | h)
      · simp [h]
      · exact ih l h
    · simp only [hc, if_false, Bool.false_eq_true]
      cases h : List.splitOnP (fun x => x == '/') a with
      | nil => simp [List.modifyHead]
      | cons x xs =>
        rw [h] at ih
        simp only [List.modifyHead, List.mem_cons]
        rintro l (hl | hl)
        · rw [hl]
          simp only [List.mem_cons, not_or]
          refine ⟨?_, ih x (by simp)⟩
          intro hcc
          exact hc (by simp [← hcc])
        · exact ih l (by simp [hl])

theorem plainName_iff (f : String) :
    plainName f = true ↔ f.data ≠ [] ∧ f.data ≠ ['.'] ∧ f.data ≠ ['.', '.'] ∧ '/' ∉ f.data := by
  have e : ∀ (l : List Char), f = String.mk l ↔ f.data = l := by
    intro l
    constructor
    · intro h; rw [h]
    · intro h; rw [← h]
  have e1 : f = "" ↔ f.data = [] := e []
  have e2 : f = "." ↔ f.data = ['.'] := e ['.']
  have e3 : f = ".." ↔ f.data = ['.', '.'] := e ['.', '.']
  simp [plainName, e1, e2, e3, and_assoc]

theorem resolveStep_plain (stack : List String) (x : String) (hx : plainName x = true) :
    resolveStep stack x.data = x :: stack := by
  obtain ⟨h1, h2, h3, _⟩ := (plainName_iff x).mp hx
  simp [resolveStep, h1, h2, h3]

theorem resolve_append_plain (cwd : Path) (T x : String) (hT : T ≠ "")
    (hx : plainName x = true) : resolve cwd (T ++ "/" ++ x) = resolve cwd T ++ [x] := by
  have hT' : T.data ≠ [] := by
    intro h
    apply hT
    rw [show T = String.mk T.data from rfl, h]
  have hd : (T ++ "/" ++ x).data = T.data ++ '/' :: x.data := by simp
  have hh : (T.data ++ '/' :: x.data).head? = T.data.head? := by
    cases h : T.data with
    | nil => exact absurd h hT'
    | cons c cs => simp
  unfold resolve
  rw [hd, hh, splitOn_append_sep _ _ ((plainName_iff x).mp hx).2.2.2, List.foldl_append]
  simp [resolveStep_plain _ x hx]

theorem resolve_append_slash (cwd : Path) (T x : String) (hT : T.data.getLast? = some '/')
    (hx : plainName x = true) : resolve cwd (T ++ x) = resolve cwd T ++ [x] := by
  obtain ⟨a, ha⟩ : ∃ a, T.data = a ++ ['/'] := by
    rw [List.getLast?_eq_some_iff] at hT
    exact hT
  have hd : (T ++ x).data = a ++ '/' :: x.data := by simp [ha]
  have hh : (a ++ '/' :: x.data).head? = (a ++ ['/']).head? := by
    cases a <;> simp
  unfold resolve
  rw [hd, ha, hh, splitOn_append_sep _ _ ((plainName_iff x).mp hx).2.2.2,
    splitOn_append_sep a [] (by simp), List.foldl_append, List.foldl_append]
  simp only [List.foldl_cons, List.foldl_nil, resolveStep_plain _ x hx]
  simp [resolveStep]

theorem resolveStep_kept (stack : List String) (t : List Char) (h1 : t ≠ []) (h2 : t ≠ ['.'])
    (h3 : t ≠ ['.', '.']) : resolveStep stack t = String.mk t :: stack := by
  simp [resolveStep, h1, h2, h3]

theorem cleanStep_resolveStep (rooted : Bool) (init : List String)
    (hinit : rooted = true → init = []) (K : List (List Char)) (c : List Char)
    (hK : ∀ t ∈ K, t ≠ [] ∧ t ≠ ['.']) :
    (filepath.cleanStep rooted K c).reverse.foldl resolveStep init =
      resolveStep (K.reverse.foldl resolveStep init) c := by
  by_cases h1 : c = [] ∨ c = ['.']
  · simp [filepath.cleanStep, resolveStep, h1]
  · by_cases h2 : c = ['.', '.']
    · subst h2
      cases K with
      | nil =>
        cases rooted with
        | true => simp [filepath.cleanStep, resolveStep, hinit rfl]
        | false => simp [filepath.cleanStep]
      | cons t rest =>
        by_cases h3 : t = ['.', '.']
        · simp [filepath.cleanStep, h3, List.foldl_append]
        · have ht := hK t (by simp)
          simp only [filepath.cleanStep, h3, if_false, List.reverse_cons, List.foldl_append,
            List.foldl_cons, List.foldl_nil]
          rw [resolveStep_kept _ t ht.1 ht.2 h3]
          simp [resolveStep]
    · simp [filepath.cleanStep, h1, h2, List.foldl_append]

theorem cleanStep_mem (rooted : Bool) (K : List (List Char)) (c : List Char)
    (hK : ∀ t ∈ K, t ≠ [] ∧ t ≠ ['.']) :
    ∀ t ∈ filepath.cleanStep rooted K c, (t ≠ [] ∧ t ≠ ['.']) ∧ (t ∈ K ∨ t = c) := by
  intro t ht
  by_cases h1 : c = [] ∨ c = ['.']
  · simp only [filepath.cleanStep, h1, if_true] at ht
    exact ⟨hK t ht, Or.inl ht⟩
  · by_cases h2 : c = ['.', '.']
    · subst h2
      cases K with
      | nil =>
        cases rooted with
        | true => simp [filepath.cleanStep] at ht
        | false =>
          simp [filepath.cleanStep] at ht
          simp [ht]
      | cons u rest =>
        by_cases h3 : u = ['.', '.']
        · subst h3
          simp [filepath.cleanStep] at ht
          rcases ht with h | h
          · simp [h]
          · exact ⟨hK t (by simp [h]), Or.inl (by simp [h])⟩
        · simp [filepath.cleanStep, h3] at ht
          exact ⟨hK t (by simp [ht]), Or.inl (by simp [ht])⟩
    · simp only [filepath.cleanStep, h1, h2, if_false, List.mem_cons] at ht
      rcases ht with h | h
      · subst h
        exact ⟨by simpa [not_or] using h1, Or.inr rfl⟩
      · exact ⟨hK t h, Or.inl h⟩

theorem clean_fold (rooted : Bool) (init : List String) (hinit : rooted = true → init = [])
    (comps : List (List Char)) :
    ∀ K : List (List Char), (∀ t ∈ K, t ≠ [] ∧ t ≠ ['.']) →
      (comps.foldl (filepath.cleanStep rooted) K).reverse.foldl resolveStep init =
        comps.foldl resolveStep (K.reverse.foldl resolveStep init) ∧
      ∀ t ∈ comps.foldl (filepath.cleanStep rooted) K, (t ≠ [] ∧ t ≠ ['.']) ∧ (t ∈ K ∨ t ∈ comps) := by
  induction comps with
  | nil =>
    intro K hK
    exact ⟨rfl, fun t ht => ⟨hK t ht, Or.inl ht⟩⟩
  | cons c cs ih =>
    intro K hK
    have hK' : ∀ t ∈ filepath.cleanStep rooted K c, t ≠ [] ∧ t ≠ ['.'] :=
      fun t ht => (cleanStep_mem rooted K c hK t ht).1
    obtain ⟨h1, h2⟩ := ih (filepath.cleanStep rooted K c) hK'
    refine ⟨?_, ?_⟩
    · simp only [List.foldl_cons]
      rw [h1, cleanStep_resolveStep rooted init hinit K c hK]
    · intro t ht
      simp only [List.foldl_cons] at ht
      obtain ⟨h3, h4⟩ := h2 t ht
      refine ⟨h3, ?_⟩
      rcases h4 with h4 | h4
      · rcases (cleanStep_mem rooted K c hK t h4).2 with h5 | h5
        · exact Or.inl h5
        · exact Or.inr (by simp [h5])
      · exact Or.inr (by simp [h4])

theorem intercalate_head (c : List Char) (cs : List (List Char)) (hc : c ≠ []) :
    (['/'].intercalate (c :: cs)).head? = c.head? ∧ ['/'].intercalate (c :: cs) ≠ [] := by
  cases c with
  | nil => exact absurd rfl hc
  | cons x xs =>
    cases cs <;> simp [List.intercalate, List.intersperse]

/-- Resolving the cleaned form of a name gives the path of the name itself. -/
theorem resolve_Clean (cwd : Path) (s : String) :
    resolve cwd (filepath.Clean s) = resolve cwd s := by
  have hinit : decide (s.data.head? = some '/') = true →
      (if s.data.head? = some '/' then [] else cwd.reverse) = ([] : List String) := by
    intro h
    simp only [decide_eq_true_eq] at h
    simp [h]
  obtain ⟨hfold, hmem⟩ := clean_fold (decide (s.data.head? = some '/'))
    (if s.data.head? = some '/' then [] else cwd.reverse) hinit (s.data.splitOn '/') []
    (by simp)
  simp only [List.reverse_nil, List.foldl_nil] at hfold
  have hsep : ∀ t ∈ filepath.cleanElems s.data, '/' ∉ t := by
    intro t ht
    simp only [filepath.cleanElems, List.mem_reverse] at ht
    rcases (hmem t ht).2 with h | h
    · simp at h
    · exact splitOn_no_sep _ t h
  have hne : ∀ t ∈ filepath.cleanElems s.data, t ≠ [] := by
    intro t ht
    simp only [filepath.cleanElems, List.mem_reverse] at ht
    exact (hmem t ht).1.1
  have hres : resolve cwd s =
      ((filepath.cleanElems s.data).foldl resolveStep
        (if s.data.head? = some '/' then [] else cwd.reverse)).reverse := by
    simp only [resolve, filepath.cleanElems]
    rw [hfold]
  rw [hres]
  by_cases hr : s.data.head? = some '/'
  · simp only [hr, if_true]
    cases hC : filepath.cleanElems s.data with
    | nil =>
      simp [resolve, filepath.Clean, hr, hC, List.intercalate, List.splitOn, resolveStep]
    | cons c cs =>
      have hsplit := List.splitOn_intercalate (c :: cs) '/' (by rw [← hC]; exact hsep) (by simp)
      have hdata : (filepath.Clean s).data = '/' :: ['/'].intercalate (c :: cs) := by
        simp [filepath.Clean, hr, hC]
      simp only [resolve, hdata, List.head?_cons, if_true]
      rw [List.splitOn, List.splitOnP_cons]
      simp only [beq_self_eq_true, if_true, List.foldl_cons]
      rw [← List.splitOn, hsplit]
      simp [resolveStep]
  · simp only [hr, if_false]
    cases hC : filepath.cleanElems s.data with
    | nil =>
      simp [resolve, filepath.Clean, hr, hC, List.intercalate, List.splitOn, resolveStep]
    | cons c cs =>
      have hsplit := List.splitOn_intercalate (c :: cs) '/' (by rw [← hC]; exact hsep) (by simp)
      have hc : c ≠ [] := hne c (by simp [hC])
      obtain ⟨hhead, hnil⟩ := intercalate_head c cs hc
      have hdata : (filepath.Clean s).data = ['/'].intercalate (c :: cs) := by
        simp [filepath.Clean, hr, hC, hnil]
      have hh : (['/'].intercalate (c :: cs)).head? ≠ some '/' := by
        rw [hhead]
        cases c with
        | nil => exact absurd rfl hc
        | cons x xs =>
          have := hsep (x :: xs) (by simp [hC])
          simp only [List.mem_cons, not_or] at this
          simp only [List.head?_cons, ne_eq, Option.some.injEq]
          exact fun h => this.1 h.symm
      simp only [resolve, hdata, hh, if_false, hsplit]

theorem Join_pair (dir f : String) (hdir : dir ≠ "") :
    filepath.Join [dir, f] = filepath.Clean (dir ++ "/" ++ f) := by
  have : strings.Join [dir, f] "/" = dir ++ "/" ++ f := by
    apply String.ext
    simp [strings.Join, List.intercalate]
  simp [filepath.Join, List.dropWhile, hdir, this]

theorem resolve_Join (cwd : Path) (dir f : String) (hdir : dir ≠ "")
    (hf : plainName f = true) :
    resolve cwd (filepath.Join [dir, f]) = resolve cwd dir ++ [f] := by
  rw [Join_pair dir f hdir, resolve_Clean, resolve_append_plain cwd dir f hdir hf]

theorem TempDir_ne (E : Env) : os.TempDir E ≠ "" := by
  unfold os.TempDir
  split
  · decide
  · assumption

theorem uitoaAux_mem (fuel n : Nat) (acc : List Char) :
    ∀ c ∈ os.uitoaAux fuel n acc, c ∈ acc ∨ ∃ d, d < 10 ∧ c = Char.ofNat (48 + d) := by
  induction fuel generalizing n acc with
  | zero => intro c hc; exact Or.inl hc
  | succ fuel ih =>
    intro c hc
    simp only [os.uitoaAux] at hc
    split at hc
    · simp only [List.mem_cons] at hc
      rcases hc with h | h
      · exact Or.inr ⟨n, by assumption, h⟩
      · exact Or.inl h
    · rcases ih _ _ c hc with h | h
      · simp only [List.mem_cons] at h
        rcases h with h | h
        · exact Or.inr ⟨n % 10, Nat.mod_lt _ (by decide), h⟩
        · exact Or.inl h
      · exact Or.inr h

theorem digit_ne_sep : ∀ d < 10, Char.ofNat (48 + d) ≠ '/' := by
  decide

theorem uitoa_no_sep (n : Nat) : '/' ∉ (os.uitoa n).data := by
  intro h
  rcases uitoaAux_mem (n + 1) n [] '/' h with h1 | ⟨d, hd, h1⟩
  · simp at h1
  · exact digit_ne_sep d hd h1.symm

/-- The name `os.MkdirTemp` gives the directory for a drawn number. -/
theorem tmpName_plain (n : Nat) : plainName ("autoprint-" ++ os.uitoa n) = true := by
  rw [plainName_iff]
  have hd : ("autoprint-" ++ os.uitoa n).data = "autoprint-".data ++ (os.uitoa n).data := by simp
  rw [hd]
  refine ⟨by simp, by simp, by simp, ?_⟩
  simp only [List.mem_append, not_or]
  exact ⟨by decide, uitoa_no_sep n⟩

theorem etagName_plain (url : String) :
    plainName (getEtagFilename etagFilePattern url) = true := by
  rw [Sprintf_etag_def, plainName_iff]
  have hd : ("etag-" ++ hex.EncodeToString (sha256.Sum256 (bytesOf url)) ++ ".txt").data =
      "etag-".data ++ ((hex.EncodeToString (sha256.Sum256 (bytesOf url))).data ++ ".txt".data) := by
    simp
  rw [hd]
  refine ⟨by simp, by simp, by simp, ?_⟩
  simp only [List.mem_append, not_or]
  refine ⟨by decide, ?_, by decide⟩
  intro h
  have := EncodeToString_mem _ _ h
  revert this
  decide

theorem tmpName_ne_etagName (n : Nat) (url : String) :
    "autoprint-" ++ os.uitoa n ≠ getEtagFilename etagFilePattern url := by
  rw [Sprintf_etag_def]
  intro h
  have := congrArg String.data h
  simp at this

/-! ## The path walk -/

theorem enter_none_iff (fs : FS) (p : Path) :
    fs.enter p = none ↔ ∀ q, q <+: p → fs q = some .dir := by
  unfold FS.enter
  rw [List.findSome?_eq_none_iff]
  constructor
  · intro h q hq
    have := h q ((List.mem_inits q p).mpr hq)
    split at this
    · assumption
    · simp at this
    · simp at this
  · intro h q hq
    rw [h q ((List.mem_inits q p).mp hq)]

theorem walkStep_error (fs : FS) (e : Errno) (cs : List (List Char)) :
    cs.foldl (walkStep fs) (.error e) = .error e := by
  induction cs with
  | nil => rfl
  | cons c cs ih => simpa [walkStep] using ih

theorem walkStep_ok (fs : FS) (st : Except Errno (List String)) (c : List Char)
    (s : List String) (h : walkStep fs st c = .ok s) :
    ∃ s0, st = .ok s0 ∧ fs.enter s0.reverse = none ∧
      (bytesOf (String.mk c)).length ≤ NAME_MAX ∧ s = resolveStep s0 c := by
  unfold walkStep at h
  split at h
  · simp at h
  · rename_i s0
    split at h
    · simp at h
    · rename_i he
      split at h
      · simp at h
      · rename_i hlen
        simp only [Except.ok.injEq] at h
        exact ⟨s0, rfl, he, Nat.le_of_not_lt hlen, h.symm⟩

theorem walkStep_of (fs : FS) (s0 : List String) (c : List Char)
    (he : fs.enter s0.reverse = none) (hlen : (bytesOf (String.mk c)).length ≤ NAME_MAX) :
    walkStep fs (.ok s0) c = .ok (resolveStep s0 c) := by
  simp [walkStep, he, Nat.not_lt.mpr hlen]

theorem walk_fold_ok (fs : FS) (cs : List (List Char)) :
    ∀ (st : Except Errno (List String)) (s : List String),
      cs.foldl (walkStep fs) st = .ok s → ∃ s0, st = .ok s0 ∧ s = cs.foldl resolveStep s0 := by
  induction cs with
  | nil => intro st s h; exact ⟨s, h, rfl⟩
  | cons c cs ih =>
    intro st s h
    simp only [List.foldl_cons] at h
    obtain ⟨s1, h1, h2⟩ := ih _ _ h
    obtain ⟨s0, h3, _, _, h4⟩ := walkStep_ok fs st c s1 h1
    exact ⟨s0, h3, by rw [h2, h4]; rfl⟩

theorem walk_fold_keep (fs fs1 : FS) (hk : ∀ q, fs.enter q = none → fs1.enter q = none)
    (cs : List (List Char)) :
    ∀ (st : Except Errno (List String)) (s : List String),
      cs.foldl (walkStep fs) st = .ok s → cs.foldl (walkStep fs1) st = .ok s := by
  induction cs with
  | nil => intro st s h; exact h
  | cons c cs ih =>
    intro st s h
    simp only [List.foldl_cons] at h ⊢
    obtain ⟨s1, h1, _⟩ := walk_fold_ok fs cs _ _ h
    obtain ⟨s0, h3, he, hlen, h4⟩ := walkStep_ok fs st c s1 h1
    rw [h1] at h
    rw [h3, walkStep_of fs1 s0 c (hk _ he) hlen, ← h4]
    exact ih _ _ h

theorem walk_fold_first (fs : FS) (c : List Char) (cs : List (List Char)) (init s : List String)
    (h : (c :: cs).foldl (walkStep fs) (.ok init) = .ok s) : fs.enter init.reverse = none := by
  simp only [List.foldl_cons] at h
  obtain ⟨s1, h1, _⟩ := walk_fold_ok fs cs _ _ h
  obtain ⟨s0, h3, he, _, _⟩ := walkStep_ok fs _ c s1 h1
  simp only [Except.ok.injEq] at h3
  rw [h3]
  exact he

theorem resolveStep_empties (cs : List (List Char)) (hcs : ∀ c ∈ cs, c.isEmpty = true)
    (s : List String) : cs.foldl resolveStep s = s := by
  induction cs generalizing s with
  | nil => rfl
  | cons c cs ih =>
    have hc : c = [] := by simpa using hcs c (by simp)
    simp only [List.foldl_cons, hc]
    rw [show resolveStep s [] = s by simp [resolveStep]]
    exact ih (fun c h => hcs c (by simp [h])) s

theorem elements_split (name : String) :
    ∃ tl, name.data.splitOn '/' = elements name ++ tl ∧ ∀ c ∈ tl, c.isEmpty = true := by
  refine ⟨((name.data.splitOn '/').reverse.takeWhile fun c => c.isEmpty).reverse, ?_, ?_⟩
  · unfold elements
    rw [← List.reverse_append, List.takeWhile_append_dropWhile, List.reverse_reverse]
  · intro c hc
    rw [List.mem_reverse] at hc
    exact (List.mem_takeWhile_imp hc)

theorem elements_resolve (name : String) (s : List String) :
    (elements name).foldl resolveStep s = (name.data.splitOn '/').foldl resolveStep s := by
  obtain ⟨tl, h1, h2⟩ := elements_split name
  rw [h1, List.foldl_append, resolveStep_empties tl h2]

theorem elements_of_last (name : String) (cs : List (List Char)) (c : List Char)
    (h : name.data.splitOn '/' = cs ++ [c]) (hc : c ≠ []) : elements name = cs ++ [c] := by
  unfold elements
  rw [h, List.reverse_append]
  cases c with
  | nil => exact absurd rfl hc
  | cons x xs => simp [List.dropWhile]

theorem walk_ok (fs : FS) (cwd : Path) (name : String) (s : List String)
    (h : walk fs cwd name = .ok s) : s.reverse = resolve cwd name := by
  obtain ⟨s0, h1, h2⟩ := walk_fold_ok fs _ _ _ h
  simp only [Except.ok.injEq] at h1
  rw [h2, ← h1, elements_resolve]
  rfl

theorem walk_keep (fs fs1 : FS) (hk : ∀ q, fs.enter q = none → fs1.enter q = none)
    (cwd : Path) (name : String) (s : List String) (h : walk fs cwd name = .ok s) :
    walk fs1 cwd name = .ok s :=
  walk_fold_keep fs fs1 hk _ _ _ h

/-- What a successful lookup says: the name passed the checks made before the
walk, the walk succeeded, and the path is the one the name denotes. -/
theorem lookup_ok (fs : FS) (cwd : Path) (name : String) (p : Path)
    (h : lookup fs cwd name = .ok p) :
    Char.ofNat 0 ∉ name.data ∧ (bytesOf name).length < PATH_MAX ∧ name ≠ "" ∧
      walk fs cwd name = .ok p.reverse ∧ p = resolve cwd name := by
  unfold lookup at h
  split at h
  · simp at h
  · rename_i h0
    split at h
    · simp at h
    · rename_i h1
      split at h
      · simp at h
      · rename_i h2
        split at h
        · simp at h
        · rename_i stack hw
          simp only [Except.ok.injEq] at h
          refine ⟨h0, Nat.lt_of_not_le h1, h2, ?_, ?_⟩
          · rw [hw, ← h, List.reverse_reverse]
          · rw [← h]
            exact walk_ok fs cwd name stack hw

theorem lookup_of (fs : FS) (cwd : Path) (name : String) (s : List String)
    (h0 : Char.ofNat 0 ∉ name.data) (h1 : (bytesOf name).length < PATH_MAX) (h2 : name ≠ "")
    (hw : walk fs cwd name = .ok s) : lookup fs cwd name = .ok s.reverse := by
  simp [lookup, h0, Nat.not_le.mpr h1, h2, hw]

theorem lookup_keep (fs fs1 : FS) (hk : ∀ q, fs.enter q = none → fs1.enter q = none)
    (cwd : Path) (name : String) (p : Path) (h : lookup fs cwd name = .ok p) :
    lookup fs1 cwd name = .ok p := by
  obtain ⟨h0, h1, h2, hw, _⟩ := lookup_ok fs cwd name p h
  have := lookup_of fs1 cwd name p.reverse h0 h1 h2 (walk_keep fs fs1 hk cwd name _ hw)
  rwa [List.reverse_reverse] at this

/-! ## The path walk of a cleaned name -/

theorem cleanStep_walkStep (fs : FS) (rooted : Bool) (init : List String)
    (hinit : rooted = true → init = []) (K : List (List Char)) (c : List Char)
    (hK : ∀ t ∈ K, t ≠ [] ∧ t ≠ ['.']) (sK s : List String)
    (h1 : K.reverse.foldl (walkStep fs) (.ok init) = .ok sK)
    (h2 : walkStep fs (.ok sK) c = .ok s) :
    (filepath.cleanStep rooted K c).reverse.foldl (walkStep fs) (.ok init) = .ok s := by
  obtain ⟨s0, hs0, he, hlen, hs⟩ := walkStep_ok fs _ c s h2
  simp only [Except.ok.injEq] at hs0
  subst hs0
  have hpush : (K.reverse ++ [c]).foldl (walkStep fs) (.ok init) = .ok s := by
    rw [List.foldl_append, h1]
    exact h2
  by_cases hc1 : c = [] ∨ c = ['.']
  · have : s = sK := by simp [hs, resolveStep, hc1]
    simp only [filepath.cleanStep, hc1, if_true]
    rw [this]
    exact h1
  · by_cases hc2 : c = ['.', '.']
    · subst hc2
      cases K with
      | nil =>
        simp only [List.reverse_nil, List.foldl_nil, Except.ok.injEq] at h1
        cases rooted with
        | true =>
          have hi := hinit rfl
          subst hi
          subst h1
          simp [filepath.cleanStep, hs, resolveStep]
        | false =>
          subst h1
          simpa [filepath.cleanStep] using h2
      | cons t rest =>
        by_cases h3 : t = ['.', '.']
        · have e : filepath.cleanStep rooted (t :: rest) ['.', '.'] = ['.', '.'] :: t :: rest := by
            simp [filepath.cleanStep, h3]
          rw [e, List.reverse_cons]
          exact hpush
        · have ht := hK t (by simp)
          simp only [List.reverse_cons, List.foldl_append, List.foldl_cons, List.foldl_nil] at h1
          obtain ⟨s1, hs1, _, _, hsK⟩ := walkStep_ok fs _ t sK h1
          rw [resolveStep_kept _ t ht.1 ht.2 h3] at hsK
          have e : filepath.cleanStep rooted (t :: rest) ['.', '.'] = rest := by
            simp [filepath.cleanStep, h3]
          rw [e, hs1, hs, hsK]
          simp [resolveStep]
    · simp only [filepath.cleanStep, hc1, hc2, if_false, List.reverse_cons]
      exact hpush

theorem clean_walk (fs : FS) (rooted : Bool) (init : List String)
    (hinit : rooted = true → init = []) (comps : List (List Char)) :
    ∀ (K : List (List Char)) (sK s : List String), (∀ t ∈ K, t ≠ [] ∧ t ≠ ['.']) →
      K.reverse.foldl (walkStep fs) (.ok init) = .ok sK →
      comps.foldl (walkStep fs) (.ok sK) = .ok s →
      (comps.foldl (filepath.cleanStep rooted) K).reverse.foldl (walkStep fs) (.ok init) =
        .ok s := by
  induction comps with
  | nil =>
    intro K sK s _ h1 h2
    simp only [List.foldl_nil, Except.ok.injEq] at h2 ⊢
    rw [← h2]
    exact h1
  | cons c cs ih =>
    intro K sK s hK h1 h2
    simp only [List.foldl_cons] at h2 ⊢
    obtain ⟨s1, hs1, _⟩ := walk_fold_ok fs cs _ _ h2
    rw [hs1] at h2
    exact ih _ s1 s (fun t ht => (cleanStep_mem rooted K c hK t ht).1)
      (cleanStep_walkStep fs rooted init hinit K c hK sK s1 h1 hs1) h2

theorem cleanStep_empties (rooted : Bool) (cs : List (List Char))
    (hcs : ∀ c ∈ cs, c.isEmpty = true) (K : List (List Char)) :
    cs.foldl (filepath.cleanStep rooted) K = K := by
  induction cs generalizing K with
  | nil => rfl
  | cons c cs ih =>
    have hc : c = [] := by simpa using hcs c (by simp)
    simp only [List.foldl_cons, hc]
    rw [show filepath.cleanStep rooted K [] = K by simp [filepath.cleanStep]]
    exact ih (fun c h => hcs c (by simp [h])) K

theorem cleanElems_elements (s : String) :
    filepath.cleanElems s.data =
      ((elements s).foldl (filepath.cleanStep (s.data.head? = some '/')) []).reverse := by
  obtain ⟨tl, h1, h2⟩ := elements_split s
  unfold filepath.cleanElems
  rw [h1, List.foldl_append, cleanStep_empties _ tl h2]

theorem trim_of_last (L : List (List Char)) (h : ∀ z, L.getLast? = some z → z ≠ []) :
    (L.reverse.dropWhile fun c => c.isEmpty).reverse = L := by
  cases hr : L.reverse with
  | nil =>
    have : L = [] := by simpa using hr
    simp [this]
  | cons r rs =>
    have hl : L.getLast? = some r := by
      rw [List.getLast?_eq_head?_reverse, hr]
      rfl
    have hne := h r hl
    have : (List.dropWhile (fun c : List Char => c.isEmpty) (r :: rs)) = r :: rs := by
      cases r with
      | nil => exact absurd rfl hne
      | cons x xs => simp [List.dropWhile]
    rw [this, ← hr, List.reverse_reverse]

theorem elements_ne_nil (s : String) (hs : s ≠ "") (hh : s.data.head? ≠ some '/') :
    elements s ≠ [] := by
  intro he
  obtain ⟨tl, h1, h2⟩ := elements_split s
  rw [he, List.nil_append] at h1
  cases hd : s.data with
  | nil =>
    apply hs
    rw [show s = String.mk s.data from rfl, hd]
  | cons x xs =>
    have hx : (x == '/') = false := by
      rw [hd] at hh
      simp only [List.head?_cons, ne_eq, Option.some.injEq] at hh
      simpa using hh
    rw [hd, List.splitOn, List.splitOnP_cons, hx] at h1
    simp only [Bool.false_eq_true, if_false] at h1
    cases hsp : List.splitOnP (fun c => c == '/') xs with
    | nil => exact absurd hsp (List.splitOnP_ne_nil _ _)
    | cons y ys =>
      rw [hsp] at h1
      simp only [List.modifyHead] at h1
      have := h2 (x :: y) (by rw [← h1]; simp)
      simp at this

/-- A name whose walk succeeds can be cleaned first: the walk of the cleaned
name succeeds with the same result. -/
theorem walk_Clean (fs : FS) (cwd : Path) (s : String) (hs : s ≠ "") (st : List String)
    (h : walk fs cwd s = .ok st) : walk fs cwd (filepath.Clean s) = .ok st := by
  have hinit : decide (s.data.head? = some '/') = true →
      (if s.data.head? = some '/' then [] else cwd.reverse) = ([] : List String) := by
    intro h
    simp only [decide_eq_true_eq] at h
    simp [h]
  have hstar := clean_walk fs (decide (s.data.head? = some '/'))
    (if s.data.head? = some '/' then [] else cwd.reverse) hinit (elements s) [] _ st
    (by simp) rfl h
  rw [← cleanElems_elements] at hstar
  obtain ⟨_, hmem⟩ := clean_fold (decide (s.data.head? = some '/'))
    (if s.data.head? = some '/' then [] else cwd.reverse) hinit (s.data.splitOn '/') []
    (by simp)
  have hsep : ∀ t ∈ filepath.cleanElems s.data, '/' ∉ t := by
    intro t ht
    simp only [filepath.cleanElems, List.mem_reverse] at ht
    rcases (hmem t ht).2 with h | h
    · simp at h
    · exact splitOn_no_sep _ t h
  have hne : ∀ t ∈ filepath.cleanElems s.data, t ≠ [] := by
    intro t ht
    simp only [filepath.cleanElems, List.mem_reverse] at ht
    exact (hmem t ht).1.1
  by_cases hr : s.data.head? = some '/'
  · simp only [hr, if_true] at hstar
    cases hC : filepath.cleanElems s.data with
    | nil =>
      rw [hC] at hstar
      simp only [List.foldl_nil, Except.ok.injEq] at hstar
      have hd : filepath.Clean s = "/" := by
        simp [filepath.Clean, hr, hC, List.intercalate]
      rw [hd, ← hstar]
      unfold walk
      rw [show elements "/" = [] by decide]
      rfl
    | cons c cs =>
      rw [hC] at hstar
      have hroot := walk_fold_first fs c cs _ _ hstar
      have hsplit := List.splitOn_intercalate (c :: cs) '/' (by rw [← hC]; exact hsep) (by simp)
      have hdata : (filepath.Clean s).data = '/' :: ['/'].intercalate (c :: cs) := by
        simp [filepath.Clean, hr, hC]
      have hsp : (filepath.Clean s).data.splitOn '/' = [] :: (c :: cs) := by
        rw [hdata, List.splitOn, List.splitOnP_cons]
        simp only [beq_self_eq_true, if_true]
        rw [← List.splitOn, hsplit]
      have hel : elements (filepath.Clean s) = [] :: (c :: cs) := by
        unfold elements
        rw [hsp]
        apply trim_of_last
        intro z hz
        apply hne z
        rw [hC]
        rw [List.getLast?_cons_cons] at hz
        exact List.mem_of_mem_getLast? hz
      unfold walk
      rw [hel, hdata]
      simp only [List.head?_cons, if_true, List.foldl_cons]
      rw [walkStep_of fs [] [] hroot (by decide)]
      exact hstar
  · simp only [hr, if_false] at hstar
    cases hC : filepath.cleanElems s.data with
    | nil =>
      rw [hC] at hstar
      simp only [List.foldl_nil, Except.ok.injEq] at hstar
      have hd : filepath.Clean s = "." := by
        simp [filepath.Clean, hr, hC, List.intercalate]
      obtain ⟨c0, cs0, hel0⟩ := List.exists_cons_of_ne_nil (elements_ne_nil s hs hr)
      have hfirst : fs.enter cwd.reverse.reverse = none := by
        unfold walk at h
        rw [hel0] at h
        simp only [hr, if_false] at h
        exact walk_fold_first fs c0 cs0 _ _ h
      rw [hd, ← hstar]
      unfold walk
      rw [show elements "." = [['.']] by decide]
      simp only [List.foldl_cons, List.foldl_nil]
      rw [show ("." : String).data.head? = some '.' by rfl]
      simp only [Option.some.injEq, show ('.' : Char) ≠ '/' by decide, if_false]
      rw [walkStep_of fs _ ['.'] hfirst (by decide)]
      simp [resolveStep]
    | cons c cs =>
      rw [hC] at hstar
      have hsplit := List.splitOn_intercalate (c :: cs) '/' (by rw [← hC]; exact hsep) (by simp)
      have hc : c ≠ [] := hne c (by simp [hC])
      obtain ⟨hhead, hnil⟩ := intercalate_head c cs hc
      have hdata : (filepath.Clean s).data = ['/'].intercalate (c :: cs) := by
        simp [filepath.Clean, hr, hC, hnil]
      have hh : (['/'].intercalate (c :: cs)).head? ≠ some '/' := by
        rw [hhead]
        cases c with
        | nil => exact absurd rfl hc
        | cons x xs =>
          have := hsep (x :: xs) (by simp [hC])
          simp only [List.mem_cons, not_or] at this
          simp only [List.head?_cons, ne_eq, Option.some.injEq]
          exact fun h => this.1 h.symm
      have hel : elements (filepath.Clean s) = c :: cs := by
        unfold elements
        rw [hdata, hsplit]
        apply trim_of_last
        intro z hz
        apply hne z
        rw [hC]
        exact List.mem_of_mem_getLast? hz
      unfold walk
      rw [hel, hdata]
      simp only [hh, if_false]
      exact hstar

/-! ## The walk to the token file -/

theorem flatMap_length_one {α β : Type} (f : α → List β) (l : List α)
    (h : ∀ c ∈ l, (f c).length = 1) : (l.flatMap f).length = l.length := by
  induction l with
  | nil => rfl
  | cons c cs ih =>
    simp only [List.flatMap_cons, List.length_append, List.length_cons]
    rw [h c (by simp), ih (fun c hc => h c (by simp [hc]))]
    omega

/-- The name of the token file is 73 bytes long. -/
theorem etagName_short (url : String) :
    (bytesOf (getEtagFilename etagFilePattern url)).length ≤ NAME_MAX := by
  rw [Sprintf_etag_def]
  have hd : ("etag-" ++ hex.EncodeToString (sha256.Sum256 (bytesOf url)) ++ ".txt").data =
      "etag-".data ++ ((hex.EncodeToString (sha256.Sum256 (bytesOf url))).data ++ ".txt".data) := by
    simp
  have hlen : (hex.EncodeToString (sha256.Sum256 (bytesOf url))).data.length = 64 := by
    have := EncodeToString_length (sha256.Sum256 (bytesOf url))
    rw [Sum256_length] at this
    exact this
  have key : ∀ s : String, bytesOf s = s.data.flatMap (fun c => utf8EncodeNat c.toNat) :=
    fun _ => rfl
  rw [key, hd, flatMap_length_one]
  · simp only [List.length_append, hlen]
    decide
  · intro c hc
    simp only [List.mem_append] at hc
    rcases hc with hc | hc | hc
    · revert c
      decide
    · have hm := EncodeToString_mem _ c hc
      have hall : ∀ d ∈ "0123456789abcdef".data, (utf8EncodeNat d.toNat).length = 1 := by
        decide
      exact hall c hm
    · revert c
      decide

theorem walk_parent (fs : FS) (init s : List String) (cs : List (List Char)) (x : List Char)
    (h : (cs ++ [x]).foldl (walkStep fs) (.ok init) = .ok s) :
    ∃ t, cs.foldl (walkStep fs) (.ok init) = .ok t ∧ fs.enter t.reverse = none := by
  rw [List.foldl_append] at h
  simp only [List.foldl_cons, List.foldl_nil] at h
  obtain ⟨t, ht, he, _, _⟩ := walkStep_ok fs _ x s h
  exact ⟨t, ht, he⟩

/-- When the temporary directory of a run could be looked up, the walk to the
token file succeeds. -/
theorem sibling_walk (E : Env) (fs : FS) (n : Nat) (url : String) (p : Path)
    (h : lookup fs E.cwd (os.joinPath (os.TempDir E) "autoprint-" ++ os.uitoa n ++ "") = .ok p) :
    ∃ st, walk fs E.cwd (etagPathOf E url) = .ok st := by
  have hT := TempDir_ne E
  have hT' : (os.TempDir E).data ≠ [] := by
    intro h
    apply hT
    rw [show os.TempDir E = String.mk (os.TempDir E).data from rfl, h]
  have hx := tmpName_plain n
  have hxd : ("autoprint-" ++ os.uitoa n).data ≠ [] := ((plainName_iff _).mp hx).1
  have hxs := ((plainName_iff _).mp hx).2.2.2
  have he := etagName_plain url
  have hed : (getEtagFilename etagFilePattern url).data ≠ [] := ((plainName_iff _).mp he).1
  have hes := ((plainName_iff _).mp he).2.2.2
  have hw := (lookup_ok fs E.cwd _ p h).2.2.2.1
  -- the walk to the directory that holds both
  have hparent : ∃ t, ((os.TempDir E).data.splitOn '/').foldl (walkStep fs)
      (.ok (if (os.TempDir E).data.head? = some '/' then [] else E.cwd.reverse)) = .ok t ∧
      fs.enter t.reverse = none := by
    by_cases hs : (os.TempDir E).data.getLast? = some '/'
    · obtain ⟨a, ha⟩ : ∃ a, (os.TempDir E).data = a ++ ['/'] := by
        rw [List.getLast?_eq_some_iff] at hs
        exact hs
      have e : os.joinPath (os.TempDir E) "autoprint-" ++ os.uitoa n ++ "" =
          os.TempDir E ++ ("autoprint-" ++ os.uitoa n) := by
        apply String.ext
        simp [os.joinPath, hs]
      have hd : (os.TempDir E ++ ("autoprint-" ++ os.uitoa n)).data =
          a ++ '/' :: ("autoprint-" ++ os.uitoa n).data := by simp [ha]
      have hh : (a ++ '/' :: ("autoprint-" ++ os.uitoa n).data).head? = (a ++ ['/']).head? := by
        cases a <;> simp
      rw [e] at hw
      unfold walk at hw
      rw [elements_of_last _ (a.splitOn '/') ("autoprint-" ++ os.uitoa n).data
        (by rw [hd, splitOn_append_sep _ _ hxs]) hxd, hd, hh, ← ha] at hw
      obtain ⟨t, ht, hte⟩ := walk_parent fs _ _ _ _ hw
      refine ⟨t, ?_, hte⟩
      rw [ha, splitOn_append_sep a [] (by simp), List.foldl_append, ← ha, ht]
      simp only [List.foldl_cons, List.foldl_nil]
      rw [walkStep_of fs t [] hte (by decide)]
      simp [resolveStep]
    · have e : os.joinPath (os.TempDir E) "autoprint-" ++ os.uitoa n ++ "" =
          os.TempDir E ++ "/" ++ ("autoprint-" ++ os.uitoa n) := by
        apply String.ext
        simp [os.joinPath, hs]
      have hd : (os.TempDir E ++ "/" ++ ("autoprint-" ++ os.uitoa n)).data =
          (os.TempDir E).data ++ '/' :: ("autoprint-" ++ os.uitoa n).data := by simp
      have hh : ((os.TempDir E).data ++ '/' :: ("autoprint-" ++ os.uitoa n).data).head? =
          (os.TempDir E).data.head? := by
        cases h : (os.TempDir E).data with
        | nil => exact absurd h hT'
        | cons c cs => simp
      rw [e] at hw
      unfold walk at hw
      rw [elements_of_last _ ((os.TempDir E).data.splitOn '/') ("autoprint-" ++ os.uitoa n).data
        (by rw [hd, splitOn_append_sep _ _ hxs]) hxd, hd, hh] at hw
      exact walk_parent fs _ _ _ _ hw
  obtain ⟨t, ht, hte⟩ := hparent
  -- one step down to the token file, then the cleaning of the joined name
  have hd : (os.TempDir E ++ "/" ++ getEtagFilename etagFilePattern url).data =
      (os.TempDir E).data ++ '/' :: (getEtagFilename etagFilePattern url).data := by simp
  have hh : ((os.TempDir E).data ++ '/' :: (getEtagFilename etagFilePattern url).data).head? =
      (os.TempDir E).data.head? := by
    cases h : (os.TempDir E).data with
    | nil => exact absurd h hT'
    | cons c cs => simp
  have hjoined : walk fs E.cwd (os.TempDir E ++ "/" ++ getEtagFilename etagFilePattern url) =
      .ok (resolveStep t (getEtagFilename etagFilePattern url).data) := by
    unfold walk
    rw [elements_of_last _ ((os.TempDir E).data.splitOn '/')
      (getEtagFilename etagFilePattern url).data
      (by rw [hd, splitOn_append_sep _ _ hes]) hed, hd, hh, List.foldl_append, ht]
    simp only [List.foldl_cons, List.foldl_nil]
    exact walkStep_of fs t _ hte (etagName_short url)
  have hclean := walk_Clean fs E.cwd _ (by
    intro h0
    have := congrArg String.data h0
    simp [hT'] at this) _ hjoined
  rw [← Join_pair _ _ hT] at hclean
  exact ⟨_, hclean⟩

/-! ## File system calls -/

theorem tmpDirPattern_split : os.prefixAndSuffix tmpDirPattern = .ok ("autoprint-", "") := by
  decide

theorem enter_put (fs : FS) (p : Path) (n : Node) (hn : fs p = some .dir → n = .dir) (q : Path)
    (h : fs.enter q = none) : (fs.put p n).enter q = none := by
  rw [enter_none_iff] at h ⊢
  intro r hr
  by_cases hrp : r = p
  · subst hrp
    simp [FS.put, hn (h r hr)]
  · simp [FS.put, hrp, h r hr]

theorem Mkdir_ok (E : Env) (fs fs1 : FS) (name : String) (h : os.Mkdir E fs name = .ok fs1) :
    lookup fs E.cwd name = .ok (resolve E.cwd name) ∧ fs (resolve E.cwd name) = none ∧
      fs1 = fs.put (resolve E.cwd name) .dir := by
  unfold os.Mkdir at h
  split at h
  · simp at h
  · split at h
    · simp at h
    · rename_i p hl
      have hp := (lookup_ok fs E.cwd name p hl).2.2.2.2
      subst hp
      split at h
      · simp at h
      · rename_i hnone
        simp only [Except.ok.injEq] at h
        exact ⟨hl, hnone, h.symm⟩

theorem mkdirTempLoop_ok (E : Env) (d pre suf : String) (fs fs1 : FS) (dir : String) :
    ∀ n i, os.mkdirTempLoop E d pre suf fs n i = .ok (dir, fs1) →
      ∃ j, dir = pre ++ os.uitoa (E.fastrand j) ++ suf ∧ os.Mkdir E fs dir = .ok fs1 := by
  intro n
  induction n with
  | zero => intro i h; simp [os.mkdirTempLoop] at h
  | succ n ih =>
    intro i h
    simp only [os.mkdirTempLoop] at h
    split at h
    · rename_i fs2 hmk
      simp only [Except.ok.injEq, Prod.mk.injEq] at h
      refine ⟨i, h.1.symm, ?_⟩
      rw [← h.1, hmk, h.2]
    · split at h
      · exact ih (i + 1) h
      · split at h
        · split at h
          · split at h <;> simp at h
          · simp at h
        · simp at h

theorem MkdirTemp_ok (E : Env) (fs fs1 : FS) (dir : String)
    (h : os.MkdirTemp E fs "" tmpDirPattern = .ok (dir, fs1)) :
    ∃ n, dir = os.joinPath (os.TempDir E) "autoprint-" ++ os.uitoa n ++ "" ∧
      lookup fs E.cwd dir = .ok (resolve E.cwd dir) ∧
      fs (resolve E.cwd dir) = none ∧ fs1 = fs.put (resolve E.cwd dir) .dir := by
  simp only [os.MkdirTemp, tmpDirPattern_split, if_true] at h
  obtain ⟨j, hj, hmk⟩ := mkdirTempLoop_ok E _ _ _ fs fs1 dir _ _ h
  exact ⟨_, hj, Mkdir_ok E fs fs1 dir hmk⟩

theorem tmpDir_resolve (E : Env) (n : Nat) :
    os.joinPath (os.TempDir E) "autoprint-" ++ os.uitoa n ++ "" ≠ "" ∧
    resolve E.cwd (os.joinPath (os.TempDir E) "autoprint-" ++ os.uitoa n ++ "") =
      resolve E.cwd (os.TempDir E) ++ ["autoprint-" ++ os.uitoa n] := by
  have hT := TempDir_ne E
  have hT' : (os.TempDir E).data ≠ [] := by
    intro h
    apply hT
    rw [show os.TempDir E = String.mk (os.TempDir E).data from rfl, h]
  by_cases hs : (os.TempDir E).data.getLast? = some '/'
  · have e : os.joinPath (os.TempDir E) "autoprint-" ++ os.uitoa n ++ "" =
        os.TempDir E ++ ("autoprint-" ++ os.uitoa n) := by
      apply String.ext
      simp [os.joinPath, hs]
    rw [e]
    refine ⟨?_, resolve_append_slash _ _ _ hs (tmpName_plain n)⟩
    intro h
    have := congrArg String.data h
    simp [hT'] at this
  · have e : os.joinPath (os.TempDir E) "autoprint-" ++ os.uitoa n ++ "" =
        os.TempDir E ++ "/" ++ ("autoprint-" ++ os.uitoa n) := by
      apply String.ext
      simp [os.joinPath, hs]
    rw [e]
    refine ⟨?_, resolve_append_plain _ _ _ hT (tmpName_plain n)⟩
    intro h
    have := congrArg String.data h
    simp [hT'] at this

theorem etagPath_resolve (E : Env) (url : String) :
    resolve E.cwd (etagPathOf E url) =
      resolve E.cwd (os.TempDir E) ++ [getEtagFilename etagFilePattern url] :=
  resolve_Join _ _ _ (TempDir_ne E) (etagName_plain url)

theorem Create_ok (E : Env) (fs fs2 : FS) (name : String) (h : os.Create E fs name = .ok fs2) :
    lookup fs E.cwd name = .ok (resolve E.cwd name) ∧ fs (resolve E.cwd name) ≠ some .dir ∧
      fs2 = fs.put (resolve E.cwd name) (.file "") ∧ trailingSep name = false := by
  unfold os.Create at h
  split at h
  · simp at h
  · split at h
    · simp at h
    · rename_i p hl
      have hp := (lookup_ok fs E.cwd name p hl).2.2.2.2
      subst hp
      split at h
      · simp at h
      · rename_i htr
        split at h
        · simp at h
        · rename_i hnd
          simp only [Except.ok.injEq] at h
          exact ⟨hl, fun hd => hnd hd, h.symm, by simpa using htr⟩

theorem put_same (fs : FS) (p : Path) (n : Node) : fs.put p n p = some n := by
  simp [FS.put]

theorem put_other (fs : FS) (p q : Path) (n : Node) (h : q ≠ p) : fs.put p n q = fs q := by
  simp [FS.put, h]

theorem Write_ok (E : Env) (fs : FS) (name data : String) (h : (os.Write E fs name data).1 = none) :
    ∃ old, fs (resolve E.cwd name) = some (.file old) ∧
      (os.Write E fs name data).2 = fs.put (resolve E.cwd name) (.file (old ++ data)) := by
  unfold os.Write at h ⊢
  cases hf : E.fault (.Write name) with
  | some e => simp [hf] at h
  | none =>
    cases hfs : fs (resolve E.cwd name) with
    | none => simp [hf, hfs] at h
    | some node =>
      cases node with
      | dir => simp [hf, hfs] at h
      | file old => exact ⟨old, rfl, by simp [hfs]⟩

theorem Copy_ok (E : Env) (fs : FS) (name : String) (rc : Body)
    (h : (io.Copy E fs name rc).1 = none) :
    rc.readErr = none ∧ ∃ old, fs (resolve E.cwd name) = some (.file old) ∧
      (io.Copy E fs name rc).2 = fs.put (resolve E.cwd name) (.file (old ++ rc.data)) := by
  unfold io.Copy at h ⊢
  cases hw : (os.Write E fs name rc.data).1 with
  | some err => simp [hw] at h
  | none =>
    simp only [hw] at h ⊢
    exact ⟨h, Write_ok E fs name rc.data hw⟩

theorem Write_keep (E : Env) (fs : FS) (name data : String) (q : Path)
    (h : fs.enter q = none) : (os.Write E fs name data).2.enter q = none := by
  unfold os.Write
  split
  · exact h
  · split
    · rename_i old hold
      exact enter_put fs _ _ (by simp [hold]) q h
    · exact h

theorem WriteFile_ok (E : Env) (fs : FS) (name data : String)
    (h : (os.WriteFile E fs name data).1 = none) :
    (lookup fs E.cwd name = .ok (resolve E.cwd name) ∧ trailingSep name = false) ∧
    (os.WriteFile E fs name data).2 (resolve E.cwd name) = some (.file data) ∧
      ∀ q, q ≠ resolve E.cwd name → (os.WriteFile E fs name data).2 q = fs q := by
  unfold os.WriteFile at h ⊢
  cases hc : os.Create E fs name with
  | error err => simp [hc] at h
  | ok fs1 =>
    simp only [hc] at h ⊢
    obtain ⟨hl, _, h1, htr⟩ := Create_ok E fs fs1 name hc
    obtain ⟨old, hold, hw⟩ := Write_ok E fs1 name data h
    rw [h1, put_same] at hold
    simp only [Option.some.injEq, Node.file.injEq] at hold
    rw [hw, h1, ← hold]
    refine ⟨⟨hl, htr⟩, by simp [put_same], ?_⟩
    intro q hq
    rw [put_other _ _ _ _ hq, put_other _ _ _ _ hq]

theorem WriteFile_keep (E : Env) (fs : FS) (name data : String) (q : Path)
    (h : fs.enter q = none) : (os.WriteFile E fs name data).2.enter q = none := by
  unfold os.WriteFile
  cases hc : os.Create E fs name with
  | error err => exact h
  | ok fs1 =>
    obtain ⟨_, hnd, h1, _⟩ := Create_ok E fs fs1 name hc
    apply Write_keep
    rw [h1]
    exact enter_put fs _ _ (fun hd => absurd hd hnd) q h

theorem Copy_keep (E : Env) (fs : FS) (name : String) (rc : Body) (q : Path)
    (h : fs.enter q = none) : (io.Copy E fs name rc).2.enter q = none := by
  unfold io.Copy
  split <;> exact Write_keep E fs name rc.data q h

theorem RemoveAll_other (E : Env) (fs : FS) (path : String) (q : Path)
    (h : (resolve E.cwd path).isPrefixOf q = false) : (os.RemoveAll E fs path).2 q = fs q := by
  unfold os.RemoveAll
  split
  · rfl
  · split
    · rfl
    · split
      · rfl
      · split
        · rename_i p hl
          have hp := (lookup_ok fs E.cwd path p hl).2.2.2.2
          subst hp
          simp [FS.removeAll, h]
        · rfl
        · rfl

/-- A removal that reports no error, of a name that can be looked up, leaves
nothing at the path or below it. -/
theorem RemoveAll_gone (E : Env) (fs : FS) (path : String) (hne : path ≠ "")
    (hl : lookup fs E.cwd path = .ok (resolve E.cwd path))
    (h : (os.RemoveAll E fs path).1 = none) (q : Path)
    (hq : (resolve E.cwd path).isPrefixOf q = true) : (os.RemoveAll E fs path).2 q = none := by
  unfold os.RemoveAll at h ⊢
  simp only [hne, if_false] at h ⊢
  split at h
  · simp at h
  · rename_i hdot
    simp only [hdot, if_false, Bool.false_eq_true]
    cases hf : E.fault (.RemoveAll path) with
    | some e => simp [hf] at h
    | none => simp [hl, FS.removeAll, hq]

/-! ## A fresh fetch -/

theorem plainName_ne (f : String) (h : plainName f = true) : f ≠ "" := by
  intro h0
  subst h0
  simp [plainName] at h

/-- What a successful `writeOutput` did, for a file name that is a plain
directory entry. -/
theorem writeOutput_ok (E : Env) (rc : Body) (fn : String) (fs : FS)
    (hfn : plainName fn = true) (h : (writeOutput E rc fn fs).1.err = none) :
    ∃ dir n,
      (writeOutput E rc fn fs).1 = ⟨filepath.Join [dir, fn], some ⟨dir⟩, none⟩ ∧
      (writeOutput E rc fn fs).2.2.calls =
        [Call.MkdirTemp "" tmpDirPattern (.ok dir), Call.Create (filepath.Join [dir, fn]) none,
          Call.Copy (filepath.Join [dir, fn]) none] ∧
      fs (resolve E.cwd dir) = none ∧
      resolve E.cwd dir = resolve E.cwd (os.TempDir E) ++ ["autoprint-" ++ os.uitoa n] ∧
      resolve E.cwd (filepath.Join [dir, fn]) = resolve E.cwd dir ++ [fn] ∧
      (writeOutput E rc fn fs).2.1 (resolve E.cwd dir ++ [fn]) = some (.file rc.data) ∧
      (writeOutput E rc fn fs).2.1 (resolve E.cwd dir) = some .dir ∧
      (∀ q, q ≠ resolve E.cwd dir → q ≠ resolve E.cwd dir ++ [fn] →
        (writeOutput E rc fn fs).2.1 q = fs q) ∧
      rc.readErr = none ∧
      dir = os.joinPath (os.TempDir E) "autoprint-" ++ os.uitoa n ++ "" ∧
      lookup fs E.cwd dir = .ok (resolve E.cwd dir) := by
  have hne := plainName_ne fn hfn
  cases hmk : os.MkdirTemp E fs "" tmpDirPattern with
  | error err => simp [writeOutput, hmk] at h
  | ok v =>
    obtain ⟨dir, fs1⟩ := v
    obtain ⟨n, hdir, hlook, hnew, hfs1⟩ := MkdirTemp_ok E fs fs1 dir hmk
    obtain ⟨hdne, hres⟩ := tmpDir_resolve E n
    rw [← hdir] at hdne hres
    have hjoin := resolve_Join E.cwd dir fn hdne hfn
    cases hcr : os.Create E fs1 (filepath.Join [dir, fn]) with
    | error err => simp [writeOutput, hmk, hne, hcr] at h
    | ok fs2 =>
      have hfs2 := (Create_ok E fs1 fs2 _ hcr).2.2.1
      have hcopy : (io.Copy E fs2 (filepath.Join [dir, fn]) rc).1 = none := by
        simpa [writeOutput, hmk, hne, hcr] using h
      obtain ⟨hread, old, hold, hfs3⟩ := Copy_ok E fs2 _ rc hcopy
      rw [hfs2, put_same] at hold
      simp only [Option.some.injEq, Node.file.injEq] at hold
      have hw2 : (writeOutput E rc fn fs).2.1 =
          ((fs.put (resolve E.cwd dir) .dir).put (resolve E.cwd dir ++ [fn]) (.file "")).put
            (resolve E.cwd dir ++ [fn]) (.file rc.data) := by
        have e : (writeOutput E rc fn fs).2.1 = (io.Copy E fs2 (filepath.Join [dir, fn]) rc).2 := by
          simp only [writeOutput, hmk, hne, hcr, if_false]
        have e0 : "" ++ rc.data = rc.data := by
          apply String.ext
          simp
        rw [e, hfs3, hfs2, hfs1, hjoin, ← hold, e0]
      have hne2 : resolve E.cwd dir ≠ resolve E.cwd dir ++ [fn] := by
        intro hc
        have := congrArg List.length hc
        simp at this
      refine ⟨dir, n, ?_, ?_, hnew, hres, hjoin, ?_, ?_, ?_, hread, hdir, hlook⟩
      · simp [writeOutput, hmk, hne, hcr, hcopy]
      · simp [writeOutput, hmk, hne, hcr, hcopy]
      · rw [hw2, put_same]
      · rw [hw2, put_other _ _ _ _ hne2, put_other _ _ _ _ hne2, put_same]
      · intro q hq1 hq2
        rw [hw2, put_other _ _ _ _ hq2, put_other _ _ _ _ hq2, put_other _ _ _ _ hq1]

/-- The calls of `writeOutput` leave every directory that could be entered
before in place. -/
theorem writeOutput_keep (E : Env) (rc : Body) (fn : String) (fs : FS) (q : Path)
    (h : fs.enter q = none) : (writeOutput E rc fn fs).2.1.enter q = none := by
  cases hmk : os.MkdirTemp E fs "" tmpDirPattern with
  | error err => simpa [writeOutput, hmk] using h
  | ok v =>
    obtain ⟨dir, fs1⟩ := v
    obtain ⟨n, _, _, _, hfs1⟩ := MkdirTemp_ok E fs fs1 dir hmk
    have h1 : fs1.enter q = none := by
      rw [hfs1]
      exact enter_put fs _ _ (fun _ => rfl) q h
    cases hcr : os.Create E fs1
        (filepath.Join [dir, if fn = "" then unknownFilename else fn]) with
    | error err => simpa [writeOutput, hmk, hcr] using h1
    | ok fs2 =>
      obtain ⟨_, hnd, hfs2, _⟩ := Create_ok E fs1 fs2 _ hcr
      have h2 : fs2.enter q = none := by
        rw [hfs2]
        exact enter_put fs1 _ _ (fun hd => absurd hd hnd) q h1
      simp only [writeOutput, hmk, hcr]
      exact Copy_keep E fs2 _ rc q h2

theorem print_keep (E : Env) (ep en path : String) (d : Bool) (fs : FS) (q : Path)
    (h : fs.enter q = none) : (innerMain.print E ep en d path fs).fs.enter q = none := by
  have hs : (innerMain.store E ep en fs).fs.enter q = none := by
    rw [store_fs]
    exact WriteFile_keep E fs ep en q h
  rcases print_cases E path d with hd | ⟨hd, c, e, ho⟩ | ⟨hd, err, ho, hne⟩ | ⟨hd, out, ho⟩
  · subst hd
    rw [print_dry]
    exact hs
  · subst hd
    rw [print_exit E ep en path fs c e ho]
    exact h
  · subst hd
    rw [print_err E ep en path fs err ho hne]
    exact h
  · subst hd
    rw [print_ok E ep en path fs out ho]
    exact hs

/-- After a successful `writeOutput`, in any later state that has kept the
directories, a release that reports no error leaves nothing at the temporary
directory or below it. -/
theorem release_gone (E : Env) (rc : Body) (fn : String) (fs fs2 : FS) (dir : String)
    (herr : (writeOutput E rc fn fs).1.err = none)
    (hcb : (writeOutput E rc fn fs).1.cb = some ⟨dir⟩)
    (hk : ∀ q, (writeOutput E rc fn fs).2.1.enter q = none → fs2.enter q = none)
    (h : (os.RemoveAll E fs2 dir).1 = none) (q : Path)
    (hq : (resolve E.cwd dir).isPrefixOf q = true) : (os.RemoveAll E fs2 dir).2 q = none := by
  obtain ⟨dir1, fs1, hmk, hcb1⟩ := writeOutput_cb E rc fn fs herr
  rw [hcb] at hcb1
  simp only [Option.some.injEq, Release.mk.injEq] at hcb1
  subst hcb1
  obtain ⟨n, hdir, hl, _, _⟩ := MkdirTemp_ok E fs fs1 dir hmk
  have hne : dir ≠ "" := by
    rw [hdir]
    exact (tmpDir_resolve E n).1
  have hl2 : lookup fs2 E.cwd dir = .ok (resolve E.cwd dir) :=
    lookup_keep fs fs2 (fun r hr => hk r (writeOutput_keep E rc fn fs r hr)) _ _ _ hl
  exact RemoveAll_gone E fs2 dir hne hl2 h q hq

theorem readLastEtag_absent (E : Env) (path : String) (fs : FS) (tok : String)
    (hnone : fs (resolve E.cwd path) = none) (h : (readLastEtag E path fs).1 = .ok tok) :
    tok = "" := by
  unfold readLastEtag os.ReadFile at h
  cases hf : E.fault (.OpenRead path) with
  | some e =>
    simp only [hf] at h
    split at h
    · simp only [Except.ok.injEq] at h
      exact h.symm
    · simp at h
  | none =>
    cases hl : lookup fs E.cwd path with
    | error e =>
      simp only [hf, hl] at h
      split at h
      · simp only [Except.ok.injEq] at h
        exact h.symm
      · simp at h
    | ok p =>
      have hp := (lookup_ok fs E.cwd path p hl).2.2.2.2
      subst hp
      simp only [hf, hl, hnone] at h
      simp [os.IsNotExist] at h
      exact h.symm

theorem readLastEtag_stored (E : Env) (path : String) (fs : FS) (tok : String)
    (hl : lookup fs E.cwd path = .ok (resolve E.cwd path)) (htr : trailingSep path = false)
    (hfile : fs (resolve E.cwd path) = some (.file tok))
    (hfault : E.fault (.OpenRead path) = none) : (readLastEtag E path fs).1 = .ok tok := by
  simp [readLastEtag, os.ReadFile, hfault, hl, hfile, htr]

theorem extractFilename_named (E : Env) (h mt : String) (params : List (String × String))
    (f : String) (hp : E.ParseMediaType h = .ok (mt, params))
    (hf : params.lookup "filename" = some f) (hne : f ≠ "") (hh : h ≠ "") :
    extractFilename E h = .ok f := by
  simp [extractFilename, hh, hp, hf, hne]

theorem sibling_not_under (R : Path) (a b : String) (h : a ≠ b) :
    (R ++ [a]).isPrefixOf (R ++ [b]) = false := by
  rw [Bool.eq_false_iff]
  intro hp
  rw [ List.isPrefixOf_iff_prefix, List.prefix_append_right_inj] at hp
  obtain ⟨t, ht⟩ := hp
  simp at ht
  exact h ht.1

/-- C2, amended: no token is stored for the URL; the server answers with a
response other than 304 whose Content-Disposition carries the file name `f`,
a plain directory entry; the print command is run and succeeds, and the token
write succeeds.  Then `readLastEtag` returned the empty string without error,
the request carried no If-None-Match header, `writeOutput` created a new
directory and in it the file `f` holding exactly the body, the print command
was run with the path of that file as its last argument, the token file holds
exactly the ETag of the response when `innerMain` returns, so that a later
`readLastEtag` returns it, and `innerMain` returns 0. -/
theorem C2_fresh_fetch (E : Env) (url : String) (dryRun force : Bool) (fs : FS)
    (req : Request) (res : Response) (mt : String) (params : List (String × String))
    (f : String) (argv : List String) (out : String) (name data : String)
    (hnone : fs (resolve E.cwd (etagPathOf E url)) = none)
    (hdo : Call.Do req (.ok res) ∈ (innerMain E url dryRun force fs).trace.calls)
    (_h304 : res.StatusCode ≠ 304)
    (hpresent : Header.Get res.Header "Content-Disposition" ≠ "")
    (hcd : E.ParseMediaType (Header.Get res.Header "Content-Disposition") = .ok (mt, params))
    (hf : params.lookup "filename" = some f)
    (hplain : plainName f = true)
    (hprint : Call.Output argv (.ok out) ∈ (innerMain E url dryRun force fs).trace.calls)
    (hstore : Call.WriteFile name data none ∈ (innerMain E url dryRun force fs).trace.calls) :
    (readLastEtag E (etagPathOf E url) fs).1 = .ok "" ∧
    req = ⟨"GET", url, []⟩ ∧
    Header.Get req.Header "If-None-Match" = "" ∧
    (∃ dir,
      Call.MkdirTemp "" tmpDirPattern (.ok dir) ∈ (innerMain E url dryRun force fs).trace.calls ∧
      fs (resolve E.cwd dir) = none ∧
      (writeOutput E res.Body f fs).1 = ⟨filepath.Join [dir, f], some ⟨dir⟩, none⟩ ∧
      resolve E.cwd (filepath.Join [dir, f]) = resolve E.cwd dir ++ [f] ∧
      (writeOutput E res.Body f fs).2.1 (resolve E.cwd dir) = some .dir ∧
      (writeOutput E res.Body f fs).2.1 (resolve E.cwd dir ++ [f]) = some (.file res.Body.data) ∧
      argv = ["lp", "-s", "-o sides=two-sided-long-edge", "--", filepath.Join [dir, f]] ∧
      argv.getLast? = some (filepath.Join [dir, f])) ∧
    name = etagPathOf E url ∧
    data = Header.Get res.Header "ETag" ∧
    (innerMain E url dryRun force fs).fs (resolve E.cwd (etagPathOf E url)) =
      some (.file (Header.Get res.Header "ETag")) ∧
    (∀ E1 : Env, E1.cwd = E.cwd → E1.TMPDIR = E.TMPDIR →
      E1.fault (.OpenRead (etagPathOf E1 url)) = none →
      (readLastEtag E1 (etagPathOf E1 url) (innerMain E url dryRun force fs).fs).1 =
        .ok (Header.Get res.Header "ETag")) ∧
    (innerMain E url dryRun force fs).code = 0 := by
  -- the run reached the print stage
  obtain ⟨tok, body, fn, en, hr, hq, ho⟩ :=
    innerMain_mem_output E url dryRun force fs _ hprint (by simp [Call.kind])
  have htok : tok = "" := readLastEtag_absent E _ fs tok hnone hr
  subst htok
  simp only [ite_self] at hq
  -- the request and the response
  obtain ⟨tok1, hr1, hn, hreq, hres⟩ := innerMain_Do_mem E url dryRun force fs req _ hdo
  rw [hr] at hr1
  cases hr1
  simp only [ite_self, buildRequest_empty] at hreq
  obtain ⟨res1, _, hd1, _, hx, hbody, hen, _⟩ := doRequest_fetched E url "" body fn en hq
  rw [buildRequest_empty, ← hreq, ← hres] at hd1
  cases hd1
  have hfn : fn = f := by
    rw [extractFilename_named E _ mt params f hcd hf (plainName_ne f hplain) hpresent] at hx
    simp only [Except.ok.injEq] at hx
    exact hx.symm
  subst hfn
  subst hbody
  subst hen
  -- the output write
  obtain ⟨herr, hp⟩ := output_mem_print E _ _ dryRun _ fn fs _ ho (by simp [Call.kind])
  obtain ⟨dir, n, hw, hwcalls, hnew, hdirres, hjoin, hfile, hdirnode, hframe, _, hdirname,
      hdirlook⟩ := writeOutput_ok E res.Body fn fs hplain herr
  have hpath : (writeOutput E res.Body fn fs).1.path = filepath.Join [dir, fn] := by rw [hw]
  have hcb : (writeOutput E res.Body fn fs).1.cb = some ⟨dir⟩ := by rw [hw]
  -- the print stage
  obtain ⟨hdry, hargv, hout⟩ := print_Output_mem E _ _ _ dryRun _ argv _ hp
  subst hdry
  rw [hpath] at hargv hout
  have hrun := innerMain_fetched E url false force fs "" res.Body fn
    (Header.Get res.Header "ETag") hr (by simpa using hq)
  have hrunout := output_ok E (etagPathOf E url) (Header.Get res.Header "ETag") false res.Body fn
    fs ⟨dir⟩ herr hcb
  have hprintok := print_ok E (etagPathOf E url) (Header.Get res.Header "ETag")
    (filepath.Join [dir, fn]) (writeOutput E res.Body fn fs).2.1 out hout.symm
  rw [hpath] at hrunout
  -- the token write
  obtain ⟨_, _, _, _, _, _, _, _, hmem⟩ := innerMain_Output_mem E url false force fs argv _ hprint
  have hst : Call.WriteFile name data none ∈ (innerMain.print E (etagPathOf E url)
      (Header.Get res.Header "ETag") false (filepath.Join [dir, fn])
      (writeOutput E res.Body fn fs).2.1).trace.calls := by
    have h1 := (innerMain_mem_output E url false force fs _ hstore (by simp [Call.kind]))
    obtain ⟨tok2, body2, fn2, en2, hr2, hq2, ho2⟩ := h1
    rw [hr] at hr2
    cases hr2
    simp only [ite_self] at hq2
    rw [hq] at hq2
    cases hq2
    have := (output_mem_print E _ _ false _ fn fs _ ho2 (by simp [Call.kind])).2
    rw [hpath] at this
    exact this
  obtain ⟨hname, hdata, hwerr, _, _, _, _⟩ := print_WriteFile_mem E _ _ _ false _ _ _ _ hst
  obtain ⟨⟨htoklook, htoktr⟩, htokfile, htokframe⟩ := WriteFile_ok E _ _ _ hwerr.symm
  have hne : "autoprint-" ++ os.uitoa n ≠ getEtagFilename etagFilePattern url :=
    tmpName_ne_etagName n url
  have hfinal : (innerMain E url false force fs).fs (resolve E.cwd (etagPathOf E url)) =
      some (.file (Header.Get res.Header "ETag")) := by
    rw [hrun, hrunout, hprintok]
    simp only [deferCb, Release.run, store_fs]
    rw [RemoveAll_other, htokfile]
    rw [hdirres, etagPath_resolve]
    exact sibling_not_under _ _ _ hne
  -- the walk to the token file still succeeds when the run is over
  have hkeep : ∀ q, fs.enter q = none → (innerMain E url false force fs).fs.enter q = none := by
    intro q hq
    rw [enter_none_iff] at hq ⊢
    intro r hrq
    have hrdir := hq r hrq
    have hnot : (resolve E.cwd dir).isPrefixOf r = false := by
      rw [Bool.eq_false_iff]
      intro hp
      rw [ List.isPrefixOf_iff_prefix] at hp
      have := hq _ (hp.trans hrq)
      rw [hnew] at this
      simp at this
    have hr1 : r ≠ resolve E.cwd dir := by
      intro h0
      rw [h0, hnew] at hrdir
      simp at hrdir
    have hr2 : r ≠ resolve E.cwd dir ++ [fn] := by
      intro h0
      rw [h0] at hnot
      have : (resolve E.cwd dir).isPrefixOf (resolve E.cwd dir ++ [fn]) = true := by
        rw [ List.isPrefixOf_iff_prefix]
        exact List.prefix_append _ _
      rw [this] at hnot
      simp at hnot
    have hr3 : r ≠ resolve E.cwd (etagPathOf E url) := by
      intro h0
      rw [h0, hnone] at hrdir
      simp at hrdir
    rw [hrun, hrunout, hprintok]
    simp only [deferCb, Release.run, store_fs]
    rw [RemoveAll_other E _ dir r hnot, htokframe r hr3, hframe r hr1 hr2]
    exact hrdir
  have hlater : lookup (innerMain E url false force fs).fs E.cwd (etagPathOf E url) =
      .ok (resolve E.cwd (etagPathOf E url)) := by
    obtain ⟨h0, h1, h2, _, _⟩ := lookup_ok _ E.cwd _ _ htoklook
    rw [hdirname] at hdirlook
    obtain ⟨st, hst⟩ := sibling_walk E fs n url _ hdirlook
    have hst2 := walk_keep fs _ hkeep E.cwd _ st hst
    rw [← walk_ok _ E.cwd _ st hst2]
    exact lookup_of _ E.cwd _ st h0 h1 h2 hst2
  refine ⟨hr, hreq, by rw [hreq]; exact get_ifNoneMatch_nil, ⟨dir, ?_, hnew, hw, hjoin, hdirnode,
    hfile, by rw [hargv]; rfl, by rw [hargv]; rfl⟩, hname, hdata, hfinal, ?_, ?_⟩
  · rw [hrun, hrunout]
    simp [hwcalls]
  · intro E1 hcwd htmp hfault
    have hp1 : etagPathOf E1 url = etagPathOf E url := by
      simp [etagPathOf, os.TempDir, htmp]
    apply readLastEtag_stored
    · rw [hcwd, hp1]
      exact hlater
    · rw [hp1]
      exact htoktr
    · rw [hcwd, hp1]
      exact hfinal
    · exact hfault
  · rw [hrun, hrunout, hprintok]
    simp [store_code, ← hwerr]

/-! ## The force flag -/

/-- C6, amended: `innerMain` reads the stored token before it looks at
`force`.  When the read succeeds with the value `tok` (the content of the
token file when the file is there, the empty string when it is absent), a
forced run passes the empty token to `doRequest`: its GET carries no
If-None-Match header and is the request of a run with no stored token, and an
unforced run with a non-empty `tok` sends it as If-None-Match.  When the read
fails, the run returns 1 after that one call, forced or not: no request is
sent and the file system is unchanged. -/
theorem C6_force (E : Env) (url : String) (dryRun : Bool) (fs : FS) :
    (∀ tok, (readLastEtag E (etagPathOf E url) fs).1 = .ok tok →
      (fs (resolve E.cwd (etagPathOf E url)) = none → tok = "") ∧
      (∀ p s, E.fault (.OpenRead (etagPathOf E url)) = none →
        lookup fs E.cwd (etagPathOf E url) = .ok p → fs p = some (.file s) → tok = s) ∧
      (innerMain E url dryRun true fs).trace.calls.filter (fun c => c.kind = .Do) =
        (doRequest E url "").2.calls ∧
      (∀ req r, Call.Do req r ∈ (innerMain E url dryRun true fs).trace.calls →
        req = ⟨"GET", url, []⟩ ∧ Header.Get req.Header "If-None-Match" = "") ∧
      (E.NewRequest "GET" url = none →
        Call.Do ⟨"GET", url, []⟩ (E.Do ⟨"GET", url, []⟩) ∈
          (innerMain E url dryRun true fs).trace.calls) ∧
      (∀ fs0, (readLastEtag E (etagPathOf E url) fs0).1 = .ok "" →
        (innerMain E url dryRun false fs0).trace.calls.filter (fun c => c.kind = .Do) =
          (innerMain E url dryRun true fs).trace.calls.filter (fun c => c.kind = .Do)) ∧
      (tok ≠ "" →
        (innerMain E url dryRun false fs).trace.calls.filter (fun c => c.kind = .Do) =
          (doRequest E url tok).2.calls ∧
        (∀ req r, Call.Do req r ∈ (innerMain E url dryRun false fs).trace.calls →
          req = ⟨"GET", url, [("If-None-Match", tok)]⟩ ∧
          Header.Get req.Header "If-None-Match" = tok) ∧
        (E.NewRequest "GET" url = none →
          Call.Do ⟨"GET", url, [("If-None-Match", tok)]⟩
              (E.Do ⟨"GET", url, [("If-None-Match", tok)]⟩) ∈
            (innerMain E url dryRun false fs).trace.calls))) ∧
    (∀ err force, (readLastEtag E (etagPathOf E url) fs).1 = .error err →
      (innerMain E url dryRun force fs).code = 1 ∧
      (innerMain E url dryRun force fs).trace.calls =
        [Call.ReadFile (etagPathOf E url) (os.ReadFile E fs (etagPathOf E url))] ∧
      (innerMain E url dryRun force fs).trace.stderr =
        ["readLastModified: " ++ err.Error ++ "\n"] ∧
      (innerMain E url dryRun force fs).fs = fs) := by
  refine ⟨?_, ?_⟩
  · intro tok hread
    have hT := innerMain_requests E url dryRun true fs tok hread
    have hF := innerMain_requests E url dryRun false fs tok hread
    simp only [if_true, Bool.false_eq_true, if_false] at hT hF
    refine ⟨fun hnone => readLastEtag_absent E _ fs tok hnone hread, ?_, hT, ?_, ?_, ?_, ?_⟩
    · intro p s hfault hl hfile
      unfold readLastEtag os.ReadFile at hread
      simp only [hfault, hl, hfile] at hread
      by_cases htr : trailingSep (etagPathOf E url) = true
      · simp [htr, os.IsNotExist] at hread
      · simp only [htr, Bool.false_eq_true, if_false, Except.ok.injEq] at hread
        exact hread.symm
    · intro req r h
      obtain ⟨tok1, _, _, hreq, _⟩ := innerMain_Do_mem E url dryRun true fs req r h
      simp [hreq, buildRequest_empty, get_ifNoneMatch_nil]
    · intro hn
      have : Call.Do ⟨"GET", url, []⟩ (E.Do ⟨"GET", url, []⟩) ∈
          (innerMain E url dryRun true fs).trace.calls.filter (fun c => c.kind = .Do) := by
        rw [hT, doRequest_calls E url "" hn, buildRequest_empty]
        simp
      exact (List.mem_filter.mp this).1
    · intro fs0 h0
      have := innerMain_requests E url dryRun false fs0 "" h0
      simp only [Bool.false_eq_true, if_false] at this
      rw [this, hT]
    · intro hne
      refine ⟨hF, ?_, ?_⟩
      · intro req r h
        obtain ⟨tok1, hr1, _, hreq, _⟩ := innerMain_Do_mem E url dryRun false fs req r h
        rw [hread] at hr1
        cases hr1
        simp [hreq, buildRequest_token url tok hne, get_ifNoneMatch]
      · intro hn
        have : Call.Do ⟨"GET", url, [("If-None-Match", tok)]⟩
            (E.Do ⟨"GET", url, [("If-None-Match", tok)]⟩) ∈
            (innerMain E url dryRun false fs).trace.calls.filter (fun c => c.kind = .Do) := by
          rw [hF, doRequest_calls E url tok hn, buildRequest_token url tok hne]
          simp
        exact (List.mem_filter.mp this).1
  · intro err force herr
    rw [innerMain_readErr E url dryRun force fs err herr, readLastEtag_trace]
    simp

/-! ## Supporting facts for the claims the code breaks -/

/-- The token file is written only after the print stage: a token write in
the trace of a run means the run was a dry run or its subprocess succeeded. -/
theorem token_write_after_print (E : Env) (url : String) (dryRun force : Bool) (fs : FS)
    (name data : String) (werr : Option GoError)
    (h : Call.WriteFile name data werr ∈ (innerMain E url dryRun force fs).trace.calls) :
    name = etagPathOf E url ∧
      (dryRun = true ∨
        ∃ argv out, Call.Output argv (.ok out) ∈ (innerMain E url dryRun force fs).trace.calls) := by
  obtain ⟨tok, body, fn, en, hr, hq, ho⟩ :=
    innerMain_mem_output E url dryRun force fs _ h (by simp [Call.kind])
  obtain ⟨herr, hp⟩ := output_mem_print E _ en dryRun body fn fs _ ho (by simp [Call.kind])
  obtain ⟨hname, _, _, _, _, _, hd⟩ := print_WriteFile_mem E _ en _ dryRun _ _ _ _ hp
  refine ⟨hname, ?_⟩
  rcases hd with hd | ⟨out, hout⟩
  · exact Or.inl hd
  · cases dryRun with
    | true => exact Or.inl rfl
    | false =>
      right
      obtain ⟨dir, fs1, _, hcb⟩ := writeOutput_cb E body fn fs herr
      refine ⟨printCmd (writeOutput E body fn fs).1.path, out, ?_⟩
      rw [innerMain_fetched E url false force fs tok body fn en hr hq,
        output_ok E _ en false body fn fs ⟨dir⟩ herr hcb, print_ok E _ en _ _ out hout]
      simp

/-- Once `writeOutput` has succeeded, the release closure is called before
`innerMain` returns, whatever the print stage and the token write do; when
the removal itself succeeds the directory is gone. -/
theorem release_after_write (E : Env) (url : String) (dryRun force : Bool) (fs : FS)
    (p : String) (h : Call.Copy p none ∈ (innerMain E url dryRun force fs).trace.calls) :
    ∃ dir rerr,
      Call.MkdirTemp "" tmpDirPattern (.ok dir) ∈ (innerMain E url dryRun force fs).trace.calls ∧
      Call.RemoveAll dir rerr ∈ (innerMain E url dryRun force fs).trace.calls ∧
      (rerr = none → ∀ q, (resolve E.cwd dir).isPrefixOf q = true →
        (innerMain E url dryRun force fs).fs q = none) := by
  obtain ⟨tok, body, fn, en, hr, hq, ho⟩ :=
    innerMain_mem_output E url dryRun force fs _ h (by simp [Call.kind])
  have hw := output_mem_write E _ en dryRun body fn fs _ ho (by simp [Call.kind])
  obtain ⟨_, herr⟩ := writeOutput_Copy_mem E body fn fs p none hw
  obtain ⟨dir, fs1, hmk, hcb⟩ := writeOutput_cb E body fn fs herr.symm
  have hmkc : Call.MkdirTemp "" tmpDirPattern (.ok dir) ∈ (writeOutput E body fn fs).2.2.calls := by
    simp only [writeOutput, hmk]
    split <;> simp
  refine ⟨dir, (os.RemoveAll E (innerMain.print E (etagPathOf E url) en dryRun
    (writeOutput E body fn fs).1.path (writeOutput E body fn fs).2.1).fs dir).1, ?_, ?_, ?_⟩
  · rw [innerMain_fetched E url dryRun force fs tok body fn en hr hq,
      output_ok E _ en dryRun body fn fs ⟨dir⟩ herr.symm hcb]
    simp [hmkc]
  · rw [innerMain_fetched E url dryRun force fs tok body fn en hr hq,
      output_ok E _ en dryRun body fn fs ⟨dir⟩ herr.symm hcb]
    simp [deferCb_calls]
  · intro hnone q hq1
    rw [innerMain_fetched E url dryRun force fs tok body fn en hr hq,
      output_ok E _ en dryRun body fn fs ⟨dir⟩ herr.symm hcb]
    simp only [deferCb, Release.run]
    exact release_gone E body fn fs _ dir herr.symm hcb
      (fun r hr => print_keep E _ en _ dryRun _ r hr) hnone q hq1

/-- For a file name that is a plain directory entry, a successful
`writeOutput` puts exactly the bytes of the stream in a file of that name
inside the directory it created, and a successful release removes both. -/
theorem writeOutput_plain_released (E : Env) (rc : Body) (fn : String) (fs : FS)
    (hfn : plainName fn = true) (h : (writeOutput E rc fn fs).1.err = none) :
    ∃ dir,
      (writeOutput E rc fn fs).1 = ⟨filepath.Join [dir, fn], some ⟨dir⟩, none⟩ ∧
      fs (resolve E.cwd dir) = none ∧
      resolve E.cwd (filepath.Join [dir, fn]) = resolve E.cwd dir ++ [fn] ∧
      (writeOutput E rc fn fs).2.1 (resolve E.cwd dir ++ [fn]) = some (.file rc.data) ∧
      ((Release.run E ⟨dir⟩ (writeOutput E rc fn fs).2.1).1 = none →
        (Release.run E ⟨dir⟩ (writeOutput E rc fn fs).2.1).2.1 (resolve E.cwd dir) = none ∧
        (Release.run E ⟨dir⟩ (writeOutput E rc fn fs).2.1).2.1 (resolve E.cwd dir ++ [fn]) =
          none) := by
  obtain ⟨dir, n, hw, _, hnew, _, hjoin, hfile, _, _, _, _, _⟩ := writeOutput_ok E rc fn fs hfn h
  refine ⟨dir, hw, hnew, hjoin, hfile, ?_⟩
  intro hrel
  simp only [Release.run] at hrel ⊢
  have hcb : (writeOutput E rc fn fs).1.cb = some ⟨dir⟩ := by rw [hw]
  have hgone := release_gone E rc fn fs _ dir h hcb (fun r hr => hr) hrel
  refine ⟨hgone _ (by simp), hgone _ ?_⟩
  rw [ List.isPrefixOf_iff_prefix]
  exact List.prefix_append _ _

/-- The empty suggested name is replaced by `unknown-filename`. -/
theorem writeOutput_empty_name (E : Env) (rc : Body) (fs : FS) :
    writeOutput E rc "" fs = writeOutput E rc unknownFilename fs := by
  have : unknownFilename ≠ "" := by decide
  simp [writeOutput, this]

/-! ## The file system calls at some names -/

/-- Reads in the file system that has the directory `/tmp` and the regular
file `/tmp/scratch`: the walk fails at a missing directory and at a regular
file, also below `..`; the empty name, a name with a NUL byte and an element
of 256 bytes are refused. -/
theorem ReadFile_at_names :
    os.ReadFile worldFresh fsScratchFile "/tmp/scratch" = .ok "" ∧
    os.ReadFile worldFresh fsScratchFile "/tmp/../tmp//scratch" = .ok "" ∧
    os.ReadFile worldFresh fsScratchFile "tmp/scratch" = .ok "" ∧
    os.ReadFile worldFresh fsScratchFile "/tmp/scratch/" =
      .error (.PathError "open" "/tmp/scratch/" (.Errno .ENOTDIR)) ∧
    os.ReadFile worldFresh fsScratchFile "/tmp/scratch/x" =
      .error (.PathError "open" "/tmp/scratch/x" (.Errno .ENOTDIR)) ∧
    os.ReadFile worldFresh fsScratchFile "/tmp/scratch/../scratch" =
      .error (.PathError "open" "/tmp/scratch/../scratch" (.Errno .ENOTDIR)) ∧
    os.ReadFile worldFresh fsScratchFile "/tmp/missing/../scratch" =
      .error (.PathError "open" "/tmp/missing/../scratch" (.Errno .ENOENT)) ∧
    os.ReadFile worldFresh fsScratchFile "/tmp/missing" =
      .error (.PathError "open" "/tmp/missing" (.Errno .ENOENT)) ∧
    os.ReadFile worldFresh fsScratchFile "/tmp" =
      .error (.PathError "read" "/tmp" (.Errno .EISDIR)) ∧
    os.ReadFile worldFresh fsScratchFile "" =
      .error (.PathError "open" "" (.Errno .ENOENT)) ∧
    os.ReadFile worldFresh fsScratchFile "/tmp/scratch\x00" =
      .error (.PathError "open" "/tmp/scratch\x00" (.Errno .EINVAL)) ∧
    os.ReadFile worldFresh fsScratchFile ("/tmp/" ++ String.mk (List.replicate 256 'a')) =
      .error (.PathError "open" ("/tmp/" ++ String.mk (List.replicate 256 'a'))
        (.Errno .ENAMETOOLONG)) ∧
    os.ReadFile worldFresh fsScratchFile ("/tmp/" ++ String.mk (List.replicate 255 'a')) =
      .error (.PathError "open" ("/tmp/" ++ String.mk (List.replicate 255 'a'))
        (.Errno .ENOENT)) := by
  decide

/-- Writes at some names: a file is created in an existing directory only,
under a name without a NUL byte and of at most 255 bytes, and not at a
directory. -/
theorem WriteFile_at_names :
    (os.WriteFile worldFresh fsTmp "/tmp/a" "x").1 = none ∧
    (os.WriteFile worldFresh fsTmp "/tmp/a" "x").2 ["tmp", "a"] = some (.file "x") ∧
    (os.WriteFile worldFresh fsTmp "/tmp/a/b" "x").1 =
      some (.PathError "open" "/tmp/a/b" (.Errno .ENOENT)) ∧
    (os.WriteFile worldFresh fsScratchFile "/tmp/scratch/b" "x").1 =
      some (.PathError "open" "/tmp/scratch/b" (.Errno .ENOTDIR)) ∧
    (os.WriteFile worldFresh fsTmp "/tmp" "x").1 =
      some (.PathError "open" "/tmp" (.Errno .EISDIR)) ∧
    (os.WriteFile worldFresh fsTmp "/tmp/a/" "x").1 =
      some (.PathError "open" "/tmp/a/" (.Errno .EISDIR)) ∧
    (os.WriteFile worldFresh fsTmp "/tmp/a\x00" "x").1 =
      some (.PathError "open" "/tmp/a\x00" (.Errno .EINVAL)) ∧
    (os.WriteFile worldFresh fsTmp ("/tmp/" ++ String.mk (List.replicate 256 'a')) "x").1 =
      some (.PathError "open" ("/tmp/" ++ String.mk (List.replicate 256 'a'))
        (.Errno .ENAMETOOLONG)) ∧
    (writeOutput worldScratch ⟨"x", none, none⟩ "a" fsScratchFile).1.err =
      some (.Errorf "os.MkdirTemp"
        (.PathError "mkdir" "/tmp/scratch/autoprint-7" (.Errno .ENOTDIR))) ∧
    (writeOutput worldScratch ⟨"x", none, none⟩ "a" fsTmp).1.err =
      some (.Errorf "os.MkdirTemp"
        (.PathError "stat" "/tmp/scratch" (.Errno .ENOENT))) := by
  decide

/-! ## Runs in concrete worlds -/

/-- C3: the body stream of `report.pdf` breaks after `writeOutput` has created
the temporary directory and the file.  `innerMain` returns 1 before the
deferred cleanup is registered: `os.RemoveAll` is never called, and the
directory and the partial file are still there when it returns.  The same
happens when `os.Create` fails. -/
theorem C3_write_failure_leaks_directory :
    (innerMain worldBrokenBody "http://example.com" false false fsTmp).code = 1 ∧
    (innerMain worldBrokenBody "http://example.com" false false fsTmp).trace.stderr =
      ["writeOutput: unexpected EOF\n"] ∧
    (innerMain worldBrokenBody "http://example.com" false false fsTmp).trace.calls.map Call.kind =
      [.ReadFile, .Do, .MkdirTemp, .Create, .Copy, .Close] ∧
    (innerMain worldBrokenBody "http://example.com" false false fsTmp).fs
      ["tmp", "autoprint-7"] = some .dir ∧
    (innerMain worldBrokenBody "http://example.com" false false fsTmp).fs
      ["tmp", "autoprint-7", "report.pdf"] = some (.file "%PD") ∧
    (innerMain worldNestedName "http://example.com" false false fsTmp).code = 1 ∧
    (innerMain worldNestedName "http://example.com" false false fsTmp).trace.calls.map Call.kind =
      [.ReadFile, .Do, .MkdirTemp, .Create, .Close] ∧
    (innerMain worldNestedName "http://example.com" false false fsTmp).fs
      ["tmp", "autoprint-7"] = some .dir := by
  decide

/-- C9: for the suggested name `../escaped.txt`, `writeOutput` succeeds and
writes the bytes of the stream to `/tmp/escaped.txt`, outside the temporary
directory `/tmp/autoprint-7` it created; the release closure removes the
directory and leaves that file on disk.  A run of `innerMain` whose server
sends this name returns 0 and leaves the file behind. -/
theorem C9_climbing_name_escapes :
    (writeOutput worldClimbingName ⟨"hello", none, none⟩ "../escaped.txt" fsTmp).1 =
      ⟨"/tmp/escaped.txt", some ⟨"/tmp/autoprint-7"⟩, none⟩ ∧
    (writeOutput worldClimbingName ⟨"hello", none, none⟩ "../escaped.txt" fsTmp).2.1
      ["tmp", "escaped.txt"] = some (.file "hello") ∧
    (writeOutput worldClimbingName ⟨"hello", none, none⟩ "../escaped.txt" fsTmp).2.1
      ["tmp", "autoprint-7"] = some .dir ∧
    (Release.run worldClimbingName ⟨"/tmp/autoprint-7"⟩
      (writeOutput worldClimbingName ⟨"hello", none, none⟩ "../escaped.txt" fsTmp).2.1).1 = none ∧
    (Release.run worldClimbingName ⟨"/tmp/autoprint-7"⟩
      (writeOutput worldClimbingName ⟨"hello", none, none⟩ "../escaped.txt" fsTmp).2.1).2.1
      ["tmp", "autoprint-7"] = none ∧
    (Release.run worldClimbingName ⟨"/tmp/autoprint-7"⟩
      (writeOutput worldClimbingName ⟨"hello", none, none⟩ "../escaped.txt" fsTmp).2.1).2.1
      ["tmp", "escaped.txt"] = some (.file "hello") ∧
    (innerMain worldClimbingName "http://example.com" false false fsTmp).code = 0 ∧
    (innerMain worldClimbingName "http://example.com" false false fsTmp).trace.calls.map
      Call.kind =
      [.ReadFile, .Do, .MkdirTemp, .Create, .Copy, .Output, .WriteFile, .RemoveAll, .Close] ∧
    (innerMain worldClimbingName "http://example.com" false false fsTmp).fs
      ["tmp", "autoprint-7"] = none ∧
    (innerMain worldClimbingName "http://example.com" false false fsTmp).fs
      ["tmp", "escaped.txt"] = some (.file "hello") := by
  decide

/-- C10: the token `"old"` is stored for `http://example.com`; the server
suggests the name of the token file, one directory up, and `lp` fails.  The
run fails at the print stage with the exit code of `lp` and never calls
`writeLastEtag`, yet the token file now holds the response body: `writeOutput`
wrote it there. -/
theorem C10_output_overwrites_token :
    fsStored "\"old\"" exampleToken = some (.file "\"old\"") ∧
    resolve worldTokenName.cwd (etagPathOf worldTokenName "http://example.com") = exampleToken ∧
    (innerMain worldTokenName "http://example.com" false false (fsStored "\"old\"")).code = 1 ∧
    (innerMain worldTokenName "http://example.com" false false
      (fsStored "\"old\"")).trace.calls.map Call.kind =
      [.ReadFile, .Do, .MkdirTemp, .Create, .Copy, .Output, .RemoveAll, .Close] ∧
    (innerMain worldTokenName "http://example.com" false false (fsStored "\"old\"")).fs
      exampleToken = some (.file "not a token") ∧
    (readLastEtag worldTokenName (etagPathOf worldTokenName "http://example.com")
      (innerMain worldTokenName "http://example.com" false false (fsStored "\"old\"")).fs).1 =
      .ok "not a token" := by
  decide

/-- C2, refuted as stated: no token is stored for `http://example.com`, the
server answers 200 with the file name `report.pdf`, the token `"abc123"` and a
body, and the print command is run and succeeds; the disk is full when the
token is written.  `innerMain` returns 1 and the token file does not contain
the token. -/
theorem C2_counterexample :
    fsTmp (resolve worldDiskFull.cwd (etagPathOf worldDiskFull "http://example.com")) = none ∧
    Call.Do ⟨"GET", "http://example.com", []⟩
        (.ok ⟨200, [("Content-Disposition", "attachment; filename=\"report.pdf\""),
          ("Etag", "\"abc123\"")], ⟨"%PDF-1.7", none, none⟩⟩) ∈
      (innerMain worldDiskFull "http://example.com" false false fsTmp).trace.calls ∧
    worldDiskFull.ParseMediaType "attachment; filename=\"report.pdf\"" =
      .ok ("attachment", [("filename", "report.pdf")]) ∧
    Call.Output ["lp", "-s", "-o sides=two-sided-long-edge", "--",
        "/tmp/autoprint-7/report.pdf"] (.ok "") ∈
      (innerMain worldDiskFull "http://example.com" false false fsTmp).trace.calls ∧
    (innerMain worldDiskFull "http://example.com" false false fsTmp).code = 1 ∧
    (innerMain worldDiskFull "http://example.com" false false fsTmp).trace.stderr =
      ["writeLastModified: os.WriteFile: write /tmp/etag-f0e6a6a97042a4f1f1c87f5f7d44315b2d852c2df5c7991cc66241bf7072d1c4.txt: no space left on device\n"] ∧
    (innerMain worldDiskFull "http://example.com" false false fsTmp).fs
      (resolve worldDiskFull.cwd (etagPathOf worldDiskFull "http://example.com")) =
      some (.file "") ∧
    (innerMain worldDiskFull "http://example.com" false false fsTmp).code ≠ 0 ∧
    (innerMain worldDiskFull "http://example.com" false false fsTmp).fs
      (resolve worldDiskFull.cwd (etagPathOf worldDiskFull "http://example.com")) ≠
      some (.file "\"abc123\"") := by
  decide

/-- C6, refuted as stated: the token `"abc123"` is stored for
`http://example.com` but the file cannot be opened for reading.  The forced
run returns 1 after the read: `doRequest`, which would send one GET, is never
called.  The same happens with no stored token when `TMPDIR` names a regular
file. -/
theorem C6_counterexample :
    fsStored "\"abc123\"" (resolve worldUnreadable.cwd
      (etagPathOf worldUnreadable "http://example.com")) = some (.file "\"abc123\"") ∧
    (innerMain worldUnreadable "http://example.com" false true (fsStored "\"abc123\"")).code = 1 ∧
    (innerMain worldUnreadable "http://example.com" false true
      (fsStored "\"abc123\"")).trace.calls =
      [Call.ReadFile exampleTokenFile
        (.error (.PathError "open" exampleTokenFile (.Errno .EACCES)))] ∧
    (innerMain worldUnreadable "http://example.com" false true
      (fsStored "\"abc123\"")).trace.stderr =
      ["readLastModified: os.ReadFile: open /tmp/etag-f0e6a6a97042a4f1f1c87f5f7d44315b2d852c2df5c7991cc66241bf7072d1c4.txt: permission denied\n"] ∧
    (doRequest worldUnreadable "http://example.com" "").2.calls.map Call.kind = [.Do] ∧
    (innerMain worldUnreadable "http://example.com" false true
      (fsStored "\"abc123\"")).trace.calls.filter (fun c => c.kind = .Do) = [] ∧
    fsScratchFile (resolve worldScratch.cwd (etagPathOf worldScratch "http://example.com")) =
      none ∧
    (innerMain worldScratch "http://example.com" false true fsScratchFile).code = 1 ∧
    (innerMain worldScratch "http://example.com" false true fsScratchFile).trace.calls =
      [Call.ReadFile exampleScratchToken
        (.error (.PathError "open" exampleScratchToken (.Errno .ENOTDIR)))] ∧
    (innerMain worldScratch "http://example.com" false true fsScratchFile).trace.calls.filter
      (fun c => c.kind = .Do) = [] := by
  decide

/-! ## The claims at concrete runs -/

/-- C1 at a run: the token `"abc123"` is stored and the server answers the
conditional GET with 304. -/
theorem C1_not_modified_witness :
    Call.Do exampleConditionalRequest (.ok exampleNotModified) ∈
      (innerMain worldConditional exampleURL false false (fsStored "\"abc123\"")).trace.calls ∧
    exampleNotModified.StatusCode = 304 ∧
    (innerMain worldConditional exampleURL false false (fsStored "\"abc123\"")).code = 0 ∧
    (innerMain worldConditional exampleURL false false (fsStored "\"abc123\"")).trace.stdout =
      ["Not modified.\n"] ∧
    (innerMain worldConditional exampleURL false false (fsStored "\"abc123\"")).fs =
      fsStored "\"abc123\"" :=
  ⟨by decide, by decide,
    (C1_not_modified worldConditional exampleURL false false (fsStored "\"abc123\"")
      exampleConditionalRequest exampleNotModified (by decide) (by decide)).2.1,
    (C1_not_modified worldConditional exampleURL false false (fsStored "\"abc123\"")
      exampleConditionalRequest exampleNotModified (by decide) (by decide)).2.2.1,
    (C1_not_modified worldConditional exampleURL false false (fsStored "\"abc123\"")
      exampleConditionalRequest exampleNotModified (by decide) (by decide)).2.2.2.2.2.2⟩

/-- C2 as amended, at a run: nothing is stored, the server sends `report.pdf`
with the token `"abc123"`, and `lp` and the token write succeed. -/
theorem C2_fresh_fetch_witness :
    fsTmp (resolve worldFresh.cwd (etagPathOf worldFresh exampleURL)) = none ∧
    Call.Do ⟨"GET", exampleURL, []⟩ (.ok exampleReport) ∈
      (innerMain worldFresh exampleURL false false fsTmp).trace.calls ∧
    Call.Output (printCmd exampleOutput) (.ok "") ∈
      (innerMain worldFresh exampleURL false false fsTmp).trace.calls ∧
    Call.WriteFile exampleTokenFile "\"abc123\"" none ∈
      (innerMain worldFresh exampleURL false false fsTmp).trace.calls ∧
    (innerMain worldFresh exampleURL false false fsTmp).fs
      (resolve worldFresh.cwd (etagPathOf worldFresh exampleURL)) =
      some (.file (Header.Get exampleReport.Header "ETag")) ∧
    (innerMain worldFresh exampleURL false false fsTmp).code = 0 :=
  ⟨by decide, by decide, by decide, by decide,
    (C2_fresh_fetch worldFresh exampleURL false false fsTmp ⟨"GET", exampleURL, []⟩ exampleReport
      "attachment" [("filename", "report.pdf")] "report.pdf" (printCmd exampleOutput) ""
      exampleTokenFile "\"abc123\"" (by decide) (by decide) (by decide) (by decide) (by decide)
      (by decide) (by decide) (by decide) (by decide)).2.2.2.2.2.2.1,
    (C2_fresh_fetch worldFresh exampleURL false false fsTmp ⟨"GET", exampleURL, []⟩ exampleReport
      "attachment" [("filename", "report.pdf")] "report.pdf" (printCmd exampleOutput) ""
      exampleTokenFile "\"abc123\"" (by decide) (by decide) (by decide) (by decide) (by decide)
      (by decide) (by decide) (by decide) (by decide)).2.2.2.2.2.2.2.2⟩

/-- C4 at three runs: `lp` exits with status 5, `lp` cannot be started, and
`lp` succeeds before a token write that succeeds. -/
theorem C4_print_exit_code_witness :
    (Call.Output (printCmd exampleOutput) (.error (.ExitError 5 "lp: boom\n")) ∈
        (innerMain worldLpExit exampleURL false false fsTmp).trace.calls ∧
      (innerMain worldLpExit exampleURL false false fsTmp).code = 5 ∧
      (innerMain worldLpExit exampleURL false false fsTmp).trace.stderr =
        ["cmd.Run: lp: boom\n\n"]) ∧
    (Call.Output (printCmd exampleOutput)
          (.error (.New "exec: \"lp\": executable file not found in $PATH")) ∈
        (innerMain worldLpMissing exampleURL false false fsTmp).trace.calls ∧
      (innerMain worldLpMissing exampleURL false false fsTmp).code = 1) ∧
    (Call.Output (printCmd exampleOutput) (.ok "") ∈
        (innerMain worldFresh exampleURL false false fsTmp).trace.calls ∧
      Call.WriteFile exampleTokenFile "\"abc123\"" none ∈
        (innerMain worldFresh exampleURL false false fsTmp).trace.calls ∧
      (innerMain worldFresh exampleURL false false fsTmp).code = 0) :=
  ⟨⟨by decide,
      (C4_print_exit_code worldLpExit exampleURL false fsTmp).1 (printCmd exampleOutput) 5
        "lp: boom\n" (by decide)⟩,
    ⟨by decide,
      ((C4_print_exit_code worldLpMissing exampleURL false fsTmp).2.1 (printCmd exampleOutput)
        (.New "exec: \"lp\": executable file not found in $PATH") (by decide)
        (by intro c e h; cases h)).1⟩,
    ⟨by decide, by decide,
      ((C4_print_exit_code worldFresh exampleURL false fsTmp).2.2 (printCmd exampleOutput) ""
        exampleTokenFile "\"abc123\"" (by decide) (by decide)).1⟩⟩

/-- C5 at a run: a dry run on a fresh URL whose server sends `report.pdf`. -/
theorem C5_dry_run_witness :
    Call.Copy exampleOutput none ∈
      (innerMain worldFresh exampleURL true false fsTmp).trace.calls ∧
    (innerMain worldFresh exampleURL true false fsTmp).trace.stdout =
      ["Printing...\n",
        "Would run: lp -s -o sides=two-sided-long-edge -- " ++ exampleOutput ++ "\n"] ∧
    (innerMain worldFresh exampleURL true false fsTmp).code = 0 ∧
    (innerMain worldFresh exampleURL true false fsTmp).fs exampleToken =
      some (.file "\"abc123\"") :=
  ⟨by decide,
    ((C5_dry_run worldFresh exampleURL false fsTmp).2 exampleOutput (by decide)).1,
    by decide, by decide⟩

/-- C6 at two runs with the stored token `"abc123"`, forced and not forced,
and at a forced run whose token file cannot be read. -/
theorem C6_force_witness :
    (readLastEtag worldConditional (etagPathOf worldConditional exampleURL)
      (fsStored "\"abc123\"")).1 = .ok "\"abc123\"" ∧
    Call.Do ⟨"GET", exampleURL, []⟩ (worldConditional.Do ⟨"GET", exampleURL, []⟩) ∈
      (innerMain worldConditional exampleURL false true (fsStored "\"abc123\"")).trace.calls ∧
    Call.Do ⟨"GET", exampleURL, [("If-None-Match", "\"abc123\"")]⟩
        (worldConditional.Do ⟨"GET", exampleURL, [("If-None-Match", "\"abc123\"")]⟩) ∈
      (innerMain worldConditional exampleURL false false (fsStored "\"abc123\"")).trace.calls ∧
    (readLastEtag worldUnreadable (etagPathOf worldUnreadable exampleURL)
      (fsStored "\"abc123\"")).1 =
      .error (.Errorf "os.ReadFile" (.PathError "open" exampleTokenFile (.Errno .EACCES))) ∧
    (innerMain worldUnreadable exampleURL false true (fsStored "\"abc123\"")).code = 1 :=
  ⟨by decide,
    ((C6_force worldConditional exampleURL false (fsStored "\"abc123\"")).1 "\"abc123\""
      (by decide)).2.2.2.2.1 (by decide),
    (((C6_force worldConditional exampleURL false (fsStored "\"abc123\"")).1 "\"abc123\""
      (by decide)).2.2.2.2.2.2 (by decide)).2.2 (by decide),
    by decide,
    ((C6_force worldUnreadable exampleURL false (fsStored "\"abc123\"")).2 _ true
      (by decide : (readLastEtag worldUnreadable (etagPathOf worldUnreadable exampleURL)
        (fsStored "\"abc123\"")).1 =
        .error (.Errorf "os.ReadFile"
          (.PathError "open" exampleTokenFile (.Errno .EACCES))))).1⟩

/-- C7 at the headers of the repository test, with the parser of the Go
library. -/
theorem C7_extractFilename_witness :
    extractFilename worldFresh "" = .ok "" ∧
    extractFilename worldFresh "invalid; ðŸ’©ðŸ§¨" =
      .error (.Errorf "mime.ParseMediaType" (.New "mime: invalid media parameter")) ∧
    extractFilename worldFresh "attachment; filename=\"example.txt\"" = .ok "example.txt" ∧
    extractFilename worldFresh "attachment" = .ok "" ∧
    extractFilename worldFresh "attachment; filename=\"example.txt\"" = .ok "example.txt" :=
  ⟨(C7_extractFilename worldFresh "").1 rfl,
    (C7_extractFilename worldFresh "invalid; ðŸ’©ðŸ§¨").2.1 (by decide) _ (by decide),
    (C7_extractFilename worldFresh "attachment; filename=\"example.txt\"").2.2.1 (by decide)
      "attachment" [("filename", "example.txt")] (by decide),
    (C7_extractFilename worldFresh "attachment").2.2.1 (by decide) "attachment" [] (by decide),
    ((C7_extractFilename worldFresh "").2.2.2.2 rfl).2⟩

end Autoprint
